import Mathlib

/-!
# Quiz-game lottery engine of Moff: a shallow embedding

Source: `internal/discord/quiz_game_manager.go`, `internal/discord/quiz_game_crud.go` and
`internal/database/quiz_game.go`.

Conventions of the embedding.

* Go `int` values are `Int`; slice lengths and indices are `Nat`.
* A Go pointer that may be nil (`*JSONBArray`, `*string`) is an `Option`.
* A Go panic (nil dereference, index out of range, a panic raised by a library)
  is the `error` branch of `Except Panic`.
* `JSONBArray` is `[]interface{}`; every element the engine stores in it is a
  user identity string, so it is a `List String`.
* A Go map used as a set (`map[string]struct{}`, the set library) is a
  duplicate-free list in insertion order.  Go leaves the iteration order of a map
  unspecified, so statements about such a result speak of membership, never of order.
* Instants are integers counting nanoseconds, durations likewise.
-/

namespace Moff

/-! ## Panics -/

/-- The run-time panics the modelled code can raise. -/
inductive Panic where
  | nilPointerDereference
  | indexOutOfRange
  | badNegInput
  | badSetSize
  deriving DecidableEq, Repr

instance instDecidableEqExcept {ε α : Type} [DecidableEq ε] [DecidableEq α] :
    DecidableEq (Except ε α)
  | .ok a, .ok b =>
    if h : a = b then isTrue (by rw [h]) else isFalse (fun h2 => h (by cases h2; rfl))
  | .error a, .error b =>
    if h : a = b then isTrue (by rw [h]) else isFalse (fun h2 => h (by cases h2; rfl))
  | .ok _, .error _ => isFalse (fun h => by cases h)
  | .error _, .ok _ => isFalse (fun h => by cases h)

/-! ## Data model (`internal/database/quiz_game.go`) -/

/-- Status of a lottery: `DiscordQuizGameLotteryStatus`. -/
inductive DiscordQuizGameLotteryStatus where
  | NotStarted
  | Finished
  deriving DecidableEq, Repr

/-- Status of a round: `DiscordQuizGameStatus`. -/
inductive DiscordQuizGameStatus where
  | NotStarted
  | InProgress
  | Finished
  deriving DecidableEq, Repr

/-- The method `DiscordQuizGameStatus.Is`. -/
def DiscordQuizGameStatus.Is (s target : DiscordQuizGameStatus) : Bool :=
  decide (s = target)

/-- The persisted lottery record `DiscordQuizGameLottery` (fields the engine reads or writes). -/
structure DiscordQuizGameLottery where
  LotteryID : String
  Status : DiscordQuizGameLotteryStatus
  AllowedWinnerNum : Int
  RewardAmount : Int
  TotalQuizNum : Int
  WinnerRequiredCorrectQuizNum : Int
  Winners : List String
  deriving DecidableEq, Repr

/-- The persisted round record `DiscordQuizGame` (fields the engine reads or writes).
`SendQuizAt` is an instant in nanoseconds. -/
structure DiscordQuizGame where
  GameID : String
  LotteryID : String
  ChannelID : String
  TimeLimitSec : Int
  SendQuizAt : Int
  Status : DiscordQuizGameStatus
  AnswerOptions : List String
  CorrectAnswerOption : String
  Participants : Option (List String)
  Winners : Option (List String)
  QuestionMessageID : Option String
  AnswerMessageID : Option String
  deriving DecidableEq, Repr

/-- Phase of the goroutine that `StartGame` spawns for a round: its program counter.
`spawned`: created, `Play` not yet entered; `upcoming`: inside `Play`, at `g.upcoming()`;
`ongoing`: inside `Play`, at `g.ongoing()`; `decremented`: `Play` has returned and the
counter was decremented, the `Load` that follows is pending; `sending`: the counter was loaded
as zero, the send on `finalizeLotteryChan` is pending; `exited`: the goroutine is over.
`idle` is a round for which no goroutine was spawned. -/
inductive TaskPhase where
  | idle
  | spawned
  | upcoming
  | ongoing
  | decremented
  | sending
  | exited
  deriving DecidableEq, Repr

/-- The in-memory round `quizGame`: the embedded record, the correct option's custom id,
whether its context has been cancelled (`cancelFunc` was called), and the phase of its task. -/
structure quizGame extends DiscordQuizGame where
  CorrectAnswerOptionCustomID : String
  cancelled : Bool
  phase : TaskPhase
  deriving DecidableEq, Repr

/-- The in-memory lottery `quizGameLottery`: the embedded record, the atomic counter
`wait2BeFinishedGameCount`, the number of signals sent on `finalizeLotteryChan`, the slice
`games` and the keys of `gameSet`.  `detached` holds the rounds that left `games` (replaced
or removed) and whose goroutines the lottery still counts. -/
structure quizGameLottery extends DiscordQuizGameLottery where
  wait2BeFinishedGameCount : Int
  finalizeLotteryChan : Nat
  games : List quizGame
  gameSet : List String
  detached : List quizGame
  deriving DecidableEq, Repr

/-! ## Library pieces used by the Winner Calculator

`gonum.org/v1/gonum/stat/combin` and `gopkg.in/fatih/set.v0` are third-party libraries;
what follows is written after their published sources. -/

/-- The library's `nextCombination(s, n, k)`: scanning `j = k-1, ..., 0`, the first position
with `s[j] ≠ n+j-k` is incremented and the positions after it are reset to consecutive
values.  The last argument counts the positions still to scan. -/
def nextCombinationFrom (s : List Nat) (n k : Nat) : Nat → List Nat
  | 0 => s
  | j + 1 =>
    if s.getD j 0 + k = n + j then nextCombinationFrom s n k j
    else s.take j ++ (List.range (k - j)).map (fun d => s.getD j 0 + 1 + d)

/-- The library's `nextCombination`. -/
def nextCombination (s : List Nat) (n k : Nat) : List Nat :=
  nextCombinationFrom s n k k

/-- The combinations the generator yields after the one in `prev`, while `remaining` is
positive: each `Next` replaces the previous combination by its successor. -/
def combinationsAfter (n k : Nat) : Nat → List Nat → List (List Nat)
  | 0, _ => []
  | remaining + 1, prev =>
    nextCombination prev n k :: combinationsAfter n k remaining (nextCombination prev n k)

/-- The sequence of values of `gen.Combination(nil)` over the loop `for gen.Next()` of a
generator made by `NewCombinationGenerator(n, k)`: `Binomial(n, k)` combinations, the first
one `0, 1, ..., k-1`. -/
def generatedCombinations (n k : Nat) : List (List Nat) :=
  match Nat.choose n k with
  | 0 => []
  | remaining + 1 => List.range k :: combinationsAfter n k remaining (List.range k)

/-- The library's `NewCombinationGenerator(n, k)`, which calls `Binomial(n, k)`: it panics on
a negative argument and on `n < k`; otherwise the generator is determined by `n` and `k`. -/
def NewCombinationGenerator (n k : Int) : Except Panic (Nat × Nat) :=
  if n < 0 ∨ k < 0 then .error .badNegInput
  else if n < k then .error .badSetSize
  else .ok (n.toNat, k.toNat)

/-- The helper `addIntoSet`: every id is added to the set (adding a member changes nothing). -/
def addIntoSet (s : List String) (ids : List String) : List String :=
  ids.foldl (fun acc id => if id ∈ acc then acc else acc ++ [id]) s

/-- The set library's `Union(set1, set2)`: a copy of the first set to which the items of the
second are added. -/
def setUnion (set1 set2 : List String) : List String :=
  addIntoSet set1 set2

/-- The set library's `Intersection(set1, set2)`: from the union, every item missing from
one of the two sets is removed. -/
def setIntersection (set1 set2 : List String) : List String :=
  (setUnion set1 set2).filter (fun item => decide (item ∈ set1) && decide (item ∈ set2))

/-! ## Winner Calculator (`quiz_game_manager.go`, lines 308-351) -/

/-- The expression `*l.games[i].Winners`: indexing the slice and dereferencing the pointer. -/
def derefWinners (games : List quizGame) (i : Nat) : Except Panic (List String) :=
  match games.get? i with
  | none => .error .indexOutOfRange
  | some g =>
    match g.Winners with
    | none => .error .nilPointerDereference
    | some w => .ok w

/-- The loop `for _, comb := range combination` of
`calculateQuizGamesWinnersInCombination`. -/
def intersectCombination (games : List quizGame) :
    List Nat → List String → Except Panic (List String)
  | [], intersection => .ok intersection
  | comb :: rest, intersection =>
    match derefWinners games comb with
    | .error p => .error p
    | .ok w => intersectCombination games rest (setIntersection intersection (addIntoSet [] w))

/-- The method `calculateQuizGamesWinnersInCombination`: the intersection starts as the
Winners of `games[0]`, is intersected with the Winners of every round of the combination,
and its members are stored into the map `winners`. -/
def calculateQuizGamesWinnersInCombination (games : List quizGame) (combination : List Nat)
    (winners : List String) : Except Panic (List String) :=
  match derefWinners games 0 with
  | .error p => .error p
  | .ok w0 =>
    match intersectCombination games combination (addIntoSet [] w0) with
    | .error p => .error p
    | .ok intersection => .ok (addIntoSet winners intersection)

/-- The loop `for gen.Next()` of `calculateAllQuizGamesWinners`. -/
def collectWinners (games : List quizGame) :
    List (List Nat) → List String → Except Panic (List String)
  | [], winners => .ok winners
  | combination :: rest, winners =>
    match calculateQuizGamesWinnersInCombination games combination winners with
    | .error p => .error p
    | .ok winners2 => collectWinners games rest winners2

/-- The two downgrade assignments of `calculateAllQuizGamesWinners` (lines 314-319). -/
def downgrade (l : quizGameLottery) : quizGameLottery :=
  let l1 : quizGameLottery :=
    if (l.games.length : Int) < l.TotalQuizNum then
      { l with TotalQuizNum := (l.games.length : Int) }
    else l
  if l1.WinnerRequiredCorrectQuizNum > l1.TotalQuizNum then
    { l1 with WinnerRequiredCorrectQuizNum := l1.TotalQuizNum }
  else l1

/-- The method `calculateAllQuizGamesWinners`.  It returns the winner list together with the
lottery, whose `TotalQuizNum` and `WinnerRequiredCorrectQuizNum` it may have downgraded. -/
def calculateAllQuizGamesWinners (l : quizGameLottery) :
    Except Panic (List String × quizGameLottery) :=
  if l.games.length < 2 then
    match derefWinners l.games 0 with
    | .error p => .error p
    | .ok w => .ok (w, l)
  else
    let l2 := downgrade l
    match NewCombinationGenerator l2.TotalQuizNum l2.WinnerRequiredCorrectQuizNum with
    | .error p => .error p
    | .ok (n, k) =>
      match collectWinners l2.games (generatedCombinations n k) [] with
      | .error p => .error p
      | .ok winners => .ok (winners, l2)

/-! ## Example rounds and lotteries -/

/-- A round that closed with the given Winners. -/
def closedRound (id : String) (winners : List String) : quizGame :=
  { GameID := id, LotteryID := "L", ChannelID := "c", TimeLimitSec := 30, SendQuizAt := 0,
    Status := .Finished, AnswerOptions := ["x", "y"], CorrectAnswerOption := "x",
    Participants := some winners, Winners := some winners,
    QuestionMessageID := some "q", AnswerMessageID := some "a",
    CorrectAnswerOptionCustomID := "1", cancelled := true, phase := .exited }

/-- A round whose task ended before its close step: nothing was written. -/
def unclosedRound (id : String) : quizGame :=
  { GameID := id, LotteryID := "L", ChannelID := "c", TimeLimitSec := 30, SendQuizAt := 0,
    Status := .NotStarted, AnswerOptions := ["x", "y"], CorrectAnswerOption := "x",
    Participants := none, Winners := none,
    QuestionMessageID := none, AnswerMessageID := none,
    CorrectAnswerOptionCustomID := "1", cancelled := true, phase := .exited }

/-- A lottery over the given rounds, with `TotalQuizNum = total`, `K = required` and
`AllowedWinnerNum = allowed`. -/
def lotteryOf (games : List quizGame) (total required allowed : Int) : quizGameLottery :=
  { LotteryID := "L", Status := .NotStarted, AllowedWinnerNum := allowed, RewardAmount := 1,
    TotalQuizNum := total, WinnerRequiredCorrectQuizNum := required, Winners := [],
    wait2BeFinishedGameCount := 0, finalizeLotteryChan := 0,
    games := games, gameSet := games.map (fun g => g.GameID), detached := [] }

/-- Scenario A of the specification: three rounds with Winners {A,B}, {A,C}, {B,C},
`TotalQuizNum = 3`, `K = 2`, `AllowedWinnerNum = 2`. -/
def scenarioA : quizGameLottery :=
  lotteryOf [closedRound "g1" ["A", "B"], closedRound "g2" ["A", "C"],
    closedRound "g3" ["B", "C"]] 3 2 2

/-- In how many of the given rounds the user is among the written Winners. -/
def correctRoundCount (games : List quizGame) (user : String) : Nat :=
  (games.filter (fun g => decide (user ∈ g.Winners.getD []))).length

/-! ## Down-select (`quiz_game_manager.go`, lines 281-306)

`rand.Intn(totalWinnerNum)` returns an index below `totalWinnerNum`; the successive values it
returns are given as a list of draws.  The loop `for { ... }` has no bound of its own: on a
finite list of draws it either ends, returning the results and the draws it did not consume,
or uses the list up (`none`). -/

/-- The loop of `finalizeQuizGamesWinners`: `dedup` holds the indices already taken and
`results` the winners picked so far. -/
def sampleWinners {α : Type} (allowed : Int) (winners : List α) :
    List (Fin winners.length) → List Nat → List α →
      Option (List α × List (Fin winners.length))
  | [], _, results =>
    if (results.length : Int) ≥ allowed then some (results, []) else none
  | idx :: rest, dedup, results =>
    if (results.length : Int) ≥ allowed then some (results, idx :: rest)
    else if idx.val ∈ dedup then sampleWinners allowed winners rest dedup results
    else sampleWinners allowed winners rest (idx.val :: dedup) (results ++ [winners.get idx])

/-- The method `finalizeQuizGamesWinners`: the winners themselves when they do not exceed
`AllowedWinnerNum`, otherwise the outcome of the sampling loop. -/
def finalizeQuizGamesWinners {α : Type} (l : quizGameLottery) (winners : List α)
    (draws : List (Fin winners.length)) : Option (List α × List (Fin winners.length)) :=
  if (winners.length : Int) ≤ l.AllowedWinnerNum then some (winners, draws)
  else sampleWinners l.AllowedWinnerNum winners draws [] []

/-- A combination within range: `k` positions, the one at `j` holding at most `n - k + j`. -/
def CombinationInRange (n k : Nat) (s : List Nat) : Prop :=
  s.length = k ∧ ∀ j, j < k → s.getD j 0 + k ≤ n + j

/-- What the sampling loop keeps true: the results are the winners at the indices taken, in
the order taken, and no index is taken twice. -/
def SampleInv {α : Type} (allowed : Int) (winners : List α) (dedup : List Nat)
    (results : List α) : Prop :=
  ∃ taken : List (Fin winners.length), taken.Nodup ∧
    (∀ i : Fin winners.length, i.val ∈ dedup ↔ i ∈ taken) ∧
    results = taken.map winners.get ∧ (taken.length : Int) ≤ allowed

/-! ## The participation store and a round's window (`quiz_game_manager.go`, lines 538-541, 636-670)

The cache is Redis; the engine uses hashes only.  Map iteration order is unspecified in Go, so
the map that `HGetAll` returns is taken as the list of its entries in the order the loop
visits them. -/

/-- A Redis hash: its fields with their values. -/
abbrev RedisHash := List (String × String)

/-- The cache: the keys that hold a hash. -/
abbrev RedisCache := List (String × RedisHash)

/-- Setting one field of a hash: an existing field is overwritten, a new one is added. -/
def hashSet (h : RedisHash) (field value : String) : RedisHash :=
  if h.any (fun e => decide (e.1 = field)) then
    h.map (fun e => if e.1 = field then (field, value) else e)
  else h ++ [(field, value)]

/-- The command `HSET key field value`. -/
def redisHSet (c : RedisCache) (key field value : String) : RedisCache :=
  if c.any (fun e => decide (e.1 = key)) then
    c.map (fun e => if e.1 = key then (key, hashSet e.2 field value) else e)
  else c ++ [(key, [(field, value)])]

/-- The command `HGETALL key`: a missing key reads as the empty hash. -/
def redisHGetAll (c : RedisCache) (key : String) : RedisHash :=
  (c.lookup key).getD []

/-- The constant `quizGameParticipantsKeyPrefix`. -/
def quizGameParticipantsKeyPrefix : String := "quiz_game_participants:"

/-- One second, in nanoseconds (`time.Second`). -/
def nanosPerSecond : Int := 1000000000

/-- The method `Expired`, at the instant `now`.  `time.Since(...).Seconds()` is the elapsed
time in seconds as a float and `int(...)` drops its fraction (rounding toward zero); for
elapsed times below 2^24 seconds that is the truncated quotient computed here. -/
def quizGame.Expired (g : quizGame) (now : Int) : Bool :=
  let timePassed := Int.tdiv (now - g.SendQuizAt) nanosPerSecond
  decide (timePassed > g.TimeLimitSec)

/-- What `participate` returns, with the cache after the call. -/
structure ParticipateResult where
  participated : Bool
  failed : Bool
  cache : RedisCache
  deriving DecidableEq, Repr

/-- The method `participate`.  `now` is the instant read by `Expired`, `stamp` the instant
read for the recorded time, `redisOk` whether the `HSet` succeeds.  The wrapper
`errors.WrapAndReport`, whose file is not among the sources, is taken to return nil for a nil
error, as every caller of it in the repository expects. -/
def quizGame.participate (g : quizGame) (cache : RedisCache) (now stamp : Int) (redisOk : Bool)
    (discordUserID optionID : String) : ParticipateResult :=
  if g.Expired now then { participated := false, failed := false, cache := cache }
  else
    let gameKey := quizGameParticipantsKeyPrefix ++ g.GameID
    let participateInfo := optionID ++ "&" ++ toString (Int.tdiv stamp 1000000)
    if redisOk then
      { participated := true, failed := false,
        cache := redisHSet cache gameKey discordUserID participateInfo }
    else { participated := true, failed := true, cache := cache }

/-- The expression `strings.Split(participantInfo, "&")[0]`: the text before the first `&`. -/
def recordedOption (participantInfo : String) : String :=
  String.mk (participantInfo.toList.takeWhile (fun c => decide (c ≠ '&')))

/-- The method `finalizeParticipateInfo`.  `read` is the outcome of `HGetAll`: `none` for a
failed query, otherwise the entries read.  It returns whether it failed, and the round. -/
def quizGame.finalizeParticipateInfo (g : quizGame) (read : Option RedisHash) :
    Bool × quizGame :=
  match read with
  | none => (true, g)
  | some participates =>
    if participates.length = 0 then (false, g)
    else
      let participants := participates.map (fun e => e.1)
      let winners := (participates.filter
        (fun e => decide (recordedOption e.2 = g.CorrectAnswerOptionCustomID))).map
          (fun e => e.1)
      (false, { g with Participants := some participants, Winners := some winners })

/-- A round in progress, due at instant 0 with a limit of 30 seconds, with the given results
already present in its record. -/
def openRound (id : String) (results : Option (List String)) : quizGame :=
  { GameID := id, LotteryID := "L", ChannelID := "c", TimeLimitSec := 30, SendQuizAt := 0,
    Status := .InProgress, AnswerOptions := ["x", "y"], CorrectAnswerOption := "x",
    Participants := results, Winners := results,
    QuestionMessageID := some "q", AnswerMessageID := none,
    CorrectAnswerOptionCustomID := "1", cancelled := false, phase := .ongoing }

/-! ## Round task and orchestrator as a transition system (`quiz_game_manager.go`, lines 157-240, 520-696)

Every goroutine of a round is a task whose program counter is the round's `phase`.  The
collaborators' answers (publish, edit, retract, store read) and the outcome of each `select`
are carried by the events.  The time of day is not modelled: a timer may fire at any step;
the branch `<-g.ctx.Done()` can be taken only once the round's context is cancelled.
Cancellation of the lottery's own context is not among the events. -/

/-- The errors of `Terminate`: `ErrorGameFinished` and `ErrorUnableToTerminateGame`. -/
inductive TerminateError where
  | ErrorGameFinished
  | ErrorUnableToTerminateGame
  deriving DecidableEq, Repr

/-- The errors of the orchestrator's `AddGame` and `RemoveGame`. -/
inductive GameError where
  | terminate (e : TerminateError)
  | notFoundInLottery (gameID : String)
  deriving DecidableEq, Repr

/-- The loop of `newQuizGame` that looks for the correct option: the decimal string of the
1-based position of its first occurrence at or after position `i`, or the empty string. -/
def optionCustomIDFrom (correct : String) : List String → Nat → String
  | [], _ => ""
  | opt :: rest, i => if correct = opt then toString (i + 1) else optionCustomIDFrom correct rest (i + 1)

/-- The constructor `newQuizGame`; no goroutine exists for the round yet. -/
def newQuizGame (game : DiscordQuizGame) : quizGame :=
  { toDiscordQuizGame := game,
    CorrectAnswerOptionCustomID := optionCustomIDFrom game.CorrectAnswerOption game.AnswerOptions 0,
    cancelled := false, phase := .idle }

/-- The constructor `newQuizGameLottery`. -/
def newQuizGameLottery (lottery : DiscordQuizGameLottery) : quizGameLottery :=
  { toDiscordQuizGameLottery := lottery, wait2BeFinishedGameCount := 0,
    finalizeLotteryChan := 0, games := [], gameSet := [], detached := [] }

/-- The method `quizGame.Terminate`; `deleteOk` tells whether `ChannelMessageDelete`
succeeds. -/
def quizGame.Terminate (g : quizGame) (deleteOk : Bool) : Except TerminateError quizGame :=
  match g.Status with
  | .NotStarted => .ok { g with cancelled := true }
  | .InProgress =>
    match g.QuestionMessageID with
    | none => .error .ErrorUnableToTerminateGame
    | some _ =>
      if deleteOk then .ok { g with cancelled := true }
      else .error .ErrorUnableToTerminateGame
  | .Finished => .error .ErrorGameFinished

/-- Outcome of the `select` of `upcoming`: the context is done, or the timer fires and the
question is published (`some` message id) or the publish fails (`none`). -/
inductive UpcomingEvent where
  | done
  | timer (publish : Option String)
  deriving DecidableEq, Repr

/-- Outcome of the `select` of `ongoing`: the context is done, or the timer fires; then
`read` is the outcome of the store read and `answer` that of publishing the result message. -/
inductive OngoingEvent where
  | done
  | timer (read : Option RedisHash) (answer : Option String)
  deriving DecidableEq, Repr

/-- The method `upcoming`. -/
def quizGame.upcoming (g : quizGame) (ev : UpcomingEvent) : quizGame :=
  if g.Status.Is .NotStarted = false then g
  else
    match ev with
    | .done => g
    | .timer none => g
    | .timer (some msgID) => { g with QuestionMessageID := some msgID, Status := .InProgress }

/-- The method `ongoing`.  After the store is read, `ToSendAnswerMessage` dereferences
Participants and Winners: if one of them is nil the panic is caught by the deferred function
of `Play`, so the method is left at that point. -/
def quizGame.ongoing (g : quizGame) (ev : OngoingEvent) : quizGame :=
  if g.Status.Is .InProgress = false then g
  else if g.QuestionMessageID = none then g
  else
    match ev with
    | .done => g
    | .timer read answer =>
      let closed : quizGame := { g with Status := .Finished }
      match closed.finalizeParticipateInfo read with
      | (true, g2) => g2
      | (false, g2) =>
        match g2.Participants, g2.Winners, answer with
        | some _, some _, some msgID => { g2 with AnswerMessageID := some msgID }
        | _, _, _ => g2

/-- Whether the `select` of `upcoming` can take the branch of the event. -/
def quizGame.upcomingEnabled (g : quizGame) (ev : UpcomingEvent) : Bool :=
  match ev with
  | .done => g.cancelled || !(g.Status.Is .NotStarted)
  | .timer _ => true

/-- Whether the `select` of `ongoing` can take the branch of the event. -/
def quizGame.ongoingEnabled (g : quizGame) (ev : OngoingEvent) : Bool :=
  match ev with
  | .done => g.cancelled || !(g.Status.Is .InProgress) || decide (g.QuestionMessageID = none)
  | .timer _ _ => true

/-- The steps of a round's goroutine (the body of the `go func` of `StartGame`). -/
inductive TaskEvent where
  | playBegin
  | upcomingStep (ev : UpcomingEvent)
  | ongoingStep (ev : OngoingEvent)
  | loadCheck
  | send
  deriving DecidableEq, Repr

/-- What one step of a task does: the round afterwards, by how much the counter is
decremented, and how many signals are sent on `finalizeLotteryChan`.

* `playBegin`: `Play` is entered; a Finished round returns at once (and the counter is
  decremented), otherwise a fresh context is installed and `upcoming` is next.
* `upcomingStep`: `g.upcoming()` runs to its end.
* `ongoingStep`: `g.ongoing()` runs to its end, the deferred function cancels the context,
  `Play` returns and the counter is decremented.
* `loadCheck`: the counter is loaded; on zero the task goes on to send the signal, otherwise
  it ends.
* `send`: the signal is sent on `finalizeLotteryChan`, which needs room in the channel's
  buffer of 2 (with no room the task waits). -/
def taskStep (count : Int) (chan : Nat) (g : quizGame) : TaskEvent → quizGame × Int × Nat
  | .playBegin =>
    if g.phase = .spawned then
      if g.Status.Is .Finished then ({ g with phase := .decremented }, 1, 0)
      else ({ g with cancelled := false, phase := .upcoming }, 0, 0)
    else (g, 0, 0)
  | .upcomingStep ev =>
    if g.phase = .upcoming ∧ g.upcomingEnabled ev = true then
      ({ g.upcoming ev with phase := .ongoing }, 0, 0)
    else (g, 0, 0)
  | .ongoingStep ev =>
    if g.phase = .ongoing ∧ g.ongoingEnabled ev = true then
      ({ g.ongoing ev with cancelled := true, phase := .decremented }, 1, 0)
    else (g, 0, 0)
  | .loadCheck =>
    if g.phase = .decremented then
      if count = 0 then ({ g with phase := .sending }, 0, 0)
      else ({ g with phase := .exited }, 0, 0)
    else (g, 0, 0)
  | .send =>
    if g.phase = .sending ∧ chan < 2 then ({ g with phase := .exited }, 0, 1)
    else (g, 0, 0)

/-- One step of the task of the round at position `i` of a slice. -/
def stepTaskAt (count : Int) (chan : Nat) (ev : TaskEvent) :
    List quizGame → Nat → List quizGame × Int × Nat
  | [], _ => ([], 0, 0)
  | g :: rest, 0 => ((taskStep count chan g ev).1 :: rest, (taskStep count chan g ev).2)
  | g :: rest, i + 1 =>
    (g :: (stepTaskAt count chan ev rest i).1, (stepTaskAt count chan ev rest i).2)

/-- The method `StartGame`, for the round in `games` that was just put there: the counter is
incremented; the goroutine it creates is the `spawned` phase given to the round. -/
def quizGameLottery.StartGame (l : quizGameLottery) : quizGameLottery :=
  { l with wait2BeFinishedGameCount := l.wait2BeFinishedGameCount + 1 }

/-- The method `addNewGameLocked`. -/
def quizGameLottery.addNewGameLocked (l : quizGameLottery) (game : quizGame) :
    Option GameError × quizGameLottery :=
  (none, quizGameLottery.StartGame
    { l with gameSet := if game.GameID ∈ l.gameSet then l.gameSet else l.gameSet ++ [game.GameID],
             games := l.games ++ [{ game with phase := .spawned }] })

/-- The loop of `updateGameLocked`: the first round with the GameID is terminated and its
place taken by the new round.  `none`: no round has the GameID; otherwise the error of
`Terminate`, or the new slice and the round that was replaced. -/
def replaceGame (game : quizGame) (deleteOk : Bool) :
    List quizGame → Option (Except TerminateError (List quizGame × quizGame))
  | [] => none
  | currGame :: rest =>
    if currGame.GameID = game.GameID then
      match currGame.Terminate deleteOk with
      | .error e => some (.error e)
      | .ok old => some (.ok ({ game with phase := .spawned } :: rest, old))
    else
      match replaceGame game deleteOk rest with
      | none => none
      | some (.error e) => some (.error e)
      | some (.ok (games, old)) => some (.ok (currGame :: games, old))

/-- The method `updateGameLocked`. -/
def quizGameLottery.updateGameLocked (l : quizGameLottery) (game : quizGame)
    (deleteOk : Bool) : Option GameError × quizGameLottery :=
  match replaceGame game deleteOk l.games with
  | none => (some (.notFoundInLottery game.GameID), l)
  | some (.error e) => (some (.terminate e), l)
  | some (.ok (games, old)) =>
    (none, quizGameLottery.StartGame { l with games := games, detached := l.detached ++ [old] })

/-- The orchestrator's `AddGame`. -/
def quizGameLottery.AddGame (l : quizGameLottery) (game : quizGame) (deleteOk : Bool) :
    Option GameError × quizGameLottery :=
  if game.GameID ∈ l.gameSet then l.updateGameLocked game deleteOk
  else l.addNewGameLocked game

/-- The loop of the orchestrator's `RemoveGame`.  On success: the rounds kept and the rounds
terminated.  On a failed `Terminate`: the error and the slice as it then stands (rounds
terminated before the failure have had their context cancelled). -/
def removeGameLoop (gameID : String) (deleteOk : Bool) :
    List quizGame → Except (TerminateError × List quizGame) (List quizGame × List quizGame)
  | [] => .ok ([], [])
  | g :: rest =>
    if g.GameID = gameID then
      match g.Terminate deleteOk with
      | .error e => .error (e, g :: rest)
      | .ok g2 =>
        match removeGameLoop gameID deleteOk rest with
        | .error (e, rest2) => .error (e, g2 :: rest2)
        | .ok (kept, removed) => .ok (kept, g2 :: removed)
    else
      match removeGameLoop gameID deleteOk rest with
      | .error (e, rest2) => .error (e, g :: rest2)
      | .ok (kept, removed) => .ok (g :: kept, removed)

/-- The orchestrator's `RemoveGame` (of the round only its GameID is read). -/
def quizGameLottery.RemoveGame (l : quizGameLottery) (gameID : String) (deleteOk : Bool) :
    Option GameError × quizGameLottery :=
  if gameID ∈ l.gameSet then
    match removeGameLoop gameID deleteOk l.games with
    | .error (e, games) => (some (.terminate e), { l with games := games })
    | .ok (kept, removed) => (none, { l with games := kept, detached := l.detached ++ removed })
  else (none, l)

/-- Where the round of a task is: in `games`, or among the replaced and removed rounds. -/
inductive TaskRef where
  | inGames (i : Nat)
  | inDetached (i : Nat)
  deriving DecidableEq, Repr

/-- The events of a lottery: calls of `AddGame` and `RemoveGame`, and steps of round tasks. -/
inductive LotteryEvent where
  | addGame (game : quizGame) (deleteOk : Bool)
  | removeGame (gameID : String) (deleteOk : Bool)
  | task (ref : TaskRef) (ev : TaskEvent)
  deriving DecidableEq, Repr

/-- One step of a round task inside the lottery. -/
def quizGameLottery.stepTask (l : quizGameLottery) (ref : TaskRef) (ev : TaskEvent) :
    quizGameLottery :=
  match ref with
  | .inGames i =>
    let r := stepTaskAt l.wait2BeFinishedGameCount l.finalizeLotteryChan ev l.games i
    { l with games := r.1, wait2BeFinishedGameCount := l.wait2BeFinishedGameCount - r.2.1,
             finalizeLotteryChan := l.finalizeLotteryChan + r.2.2 }
  | .inDetached i =>
    let r := stepTaskAt l.wait2BeFinishedGameCount l.finalizeLotteryChan ev l.detached i
    { l with detached := r.1, wait2BeFinishedGameCount := l.wait2BeFinishedGameCount - r.2.1,
             finalizeLotteryChan := l.finalizeLotteryChan + r.2.2 }

/-- The state of the lottery after an event. -/
def quizGameLottery.step (l : quizGameLottery) : LotteryEvent → quizGameLottery
  | .addGame game deleteOk => (l.AddGame game deleteOk).2
  | .removeGame gameID deleteOk => (l.RemoveGame gameID deleteOk).2
  | .task ref ev => l.stepTask ref ev

/-- The state of the lottery after a sequence of events. -/
def quizGameLottery.run (l : quizGameLottery) (events : List LotteryEvent) : quizGameLottery :=
  events.foldl quizGameLottery.step l

/-- Whether the event makes a task send the ready-to-finalize signal. -/
def quizGameLottery.emits (l : quizGameLottery) (e : LotteryEvent) : Bool :=
  decide ((l.step e).finalizeLotteryChan = l.finalizeLotteryChan + 1)

/-- The round a task reference points to. -/
def quizGameLottery.roundAt (l : quizGameLottery) : TaskRef → Option quizGame
  | .inGames i => l.games.get? i
  | .inDetached i => l.detached.get? i

/-- The phase of the task a reference points to (`idle` when there is none). -/
def quizGameLottery.phaseAt (l : quizGameLottery) (ref : TaskRef) : TaskPhase :=
  match l.roundAt ref with
  | none => .idle
  | some g => g.phase

/-- Whether the event is the `Load` of a task that finds the counter at zero: the one read
that lets a task send the ready-to-finalize signal. -/
def quizGameLottery.readsZero (l : quizGameLottery) : LotteryEvent → Bool
  | .task ref .loadCheck =>
    decide (l.phaseAt ref = .decremented) && decide (l.wait2BeFinishedGameCount = 0)
  | _ => false

/-- Whether the round is Finished with its Winners and Participants written. -/
def quizGame.closed (g : quizGame) : Bool :=
  g.Status.Is .Finished && g.Winners.isSome && g.Participants.isSome

/-- Whether every round in the games list is Finished with its results written. -/
def quizGameLottery.allRoundsClosed (l : quizGameLottery) : Bool :=
  l.games.all quizGame.closed

/-- Whether the round's goroutine is still to return from `Play` (and to decrement). -/
def quizGame.taskRunning (g : quizGame) : Bool :=
  decide (g.phase = .spawned) || decide (g.phase = .upcoming) || decide (g.phase = .ongoing)

/-- How many rounds of the slice have a task still to return from `Play`. -/
def runningCount : List quizGame → Nat
  | [] => 0
  | g :: rest => (if g.taskRunning then 1 else 0) + runningCount rest

/-- The record of a lottery as configured through the admin API. -/
def lotteryRecord (total required allowed : Int) : DiscordQuizGameLottery :=
  { LotteryID := "L", Status := .NotStarted, AllowedWinnerNum := allowed, RewardAmount := 1,
    TotalQuizNum := total, WinnerRequiredCorrectQuizNum := required, Winners := [] }

/-- The record of a round as saved through the admin API. -/
def roundRecord (id : String) : DiscordQuizGame :=
  { GameID := id, LotteryID := "L", ChannelID := "c", TimeLimitSec := 30, SendQuizAt := 0,
    Status := .NotStarted, AnswerOptions := ["x", "y"], CorrectAnswerOption := "x",
    Participants := none, Winners := none, QuestionMessageID := none, AnswerMessageID := none }

/-- A lottery gets one round, whose task enters `Play`, fails to publish the question and
returns. -/
def failedPublishRun : List LotteryEvent :=
  [.addGame (newQuizGame (roundRecord "g1")) true,
   .task (.inGames 0) .playBegin,
   .task (.inGames 0) (.upcomingStep (.timer none)),
   .task (.inGames 0) (.ongoingStep (.timer (some [("u", "1&5")]) (some "a"))),
   .task (.inGames 0) .loadCheck]

/-- A lottery gets one round, which is published and closes on a record of two votes. -/
def naturalCloseRun : List LotteryEvent :=
  [.addGame (newQuizGame (roundRecord "g1")) true,
   .task (.inGames 0) .playBegin,
   .task (.inGames 0) (.upcomingStep (.timer (some "q"))),
   .task (.inGames 0) (.ongoingStep (.timer (some [("u", "1&5"), ("v", "2&6")]) (some "a")))]

/-- The task of the first round of the games list loads the counter. -/
def firstRoundLoad : LotteryEvent :=
  LotteryEvent.task (TaskRef.inGames 0) TaskEvent.loadCheck

/-- The task of the first round of the games list sends the signal. -/
def firstRoundSend : LotteryEvent :=
  LotteryEvent.task (TaskRef.inGames 0) TaskEvent.send

/-- A round closes on two votes and its task reads the counter as zero. -/
def closeAndLoadRun : List LotteryEvent :=
  naturalCloseRun ++ [firstRoundLoad]

/-- A round closes and its task reads the counter as zero; before that task sends the signal a
second round is added, so the signal is emitted while the second round's task runs. -/
def lateSendRun : List LotteryEvent :=
  closeAndLoadRun ++ [LotteryEvent.addGame (newQuizGame (roundRecord "g2")) true]

/-- The bookkeeping of the counter: it equals the number of round tasks, of rounds in the games
list or detached from it, that have not yet returned from `Play`. -/
def CounterInv (l : quizGameLottery) : Prop :=
  l.wait2BeFinishedGameCount = (runningCount l.games : Int) + (runningCount l.detached : Int)

/-- The running task of a round counted as a number. -/
def runningOne (g : quizGame) : Nat :=
  if g.taskRunning then 1 else 0

/-- A task that has read the counter as zero and has still to send, counted as a number. -/
def sendingOne (g : quizGame) : Nat :=
  if g.phase = .sending then 1 else 0

/-- How many rounds of the slice have a task that is about to send the signal. -/
def sendingCount : List quizGame → Nat
  | [] => 0
  | g :: rest => sendingOne g + sendingCount rest

/-- How many tasks of the lottery are about to send the signal. -/
def quizGameLottery.sendingTasks (l : quizGameLottery) : Nat :=
  sendingCount l.games + sendingCount l.detached

/-! ## Registry (`quiz_game_manager.go`, lines 27-137)

A Go map keyed by strings is a list of entries; `mapPut` overwrites the entry of a key or adds
one, `mapDelete` removes it.  The registry's round index holds pointers to the rounds; an
entry is the round as `newQuizGame` constructed it, and its live state is the one in the
lottery's games list. -/

/-- The map read `m[key]` (`none` for a missing key). -/
def mapGet {β : Type} : List (String × β) → String → Option β
  | [], _ => none
  | (k, v) :: rest, key => if k = key then some v else mapGet rest key

/-- The map write `m[key] = v`. -/
def mapPut {β : Type} : List (String × β) → String → β → List (String × β)
  | [], key, v => [(key, v)]
  | (k, v0) :: rest, key, v =>
    if k = key then (key, v) :: rest else (k, v0) :: mapPut rest key v

/-- The statement `delete(m, key)`. -/
def mapDelete {β : Type} : List (String × β) → String → List (String × β)
  | [], _ => []
  | (k, v) :: rest, key =>
    if k = key then mapDelete rest key else (k, v) :: mapDelete rest key

/-- The registry `QuizGameManager`: the lottery index and the round index. -/
structure QuizGameManager where
  lotteries : List (String × quizGameLottery)
  ongoingGames : List (String × quizGame)
  deriving DecidableEq, Repr

/-- The errors of the registry's `AddGame` and `RemoveGame`: the lottery of the round is not
tracked, or the error the orchestrator returned. -/
inductive ManagerError where
  | lotteryNotFoundWhenAddGame (lotteryID : String)
  | lotteryNotFoundWhenRemoveGame (lotteryID : String)
  | orchestrator (e : GameError)
  deriving DecidableEq, Repr

/-- The constructor `NewQuizGameManager`. -/
def NewQuizGameManager : QuizGameManager :=
  { lotteries := [], ongoingGames := [] }

/-- The method `GetGame`. -/
def QuizGameManager.GetGame (m : QuizGameManager) (gameID : String) : Option quizGame :=
  mapGet m.ongoingGames gameID

/-- The method `AddLottery` as far as the indexes go: a tracked lottery gets the new record,
an untracked one a new orchestrator. -/
def QuizGameManager.AddLottery (m : QuizGameManager) (lottery : DiscordQuizGameLottery) :
    QuizGameManager :=
  match mapGet m.lotteries lottery.LotteryID with
  | some gl =>
    { m with lotteries :=
        mapPut m.lotteries lottery.LotteryID { gl with toDiscordQuizGameLottery := lottery } }
  | none =>
    { m with lotteries := mapPut m.lotteries lottery.LotteryID (newQuizGameLottery lottery) }

/-- The registry's `AddGame`. -/
def QuizGameManager.AddGame (m : QuizGameManager) (game : DiscordQuizGame) (deleteOk : Bool) :
    Option ManagerError × QuizGameManager :=
  match mapGet m.lotteries game.LotteryID with
  | none => (some (.lotteryNotFoundWhenAddGame game.LotteryID), m)
  | some gl =>
    match gl.AddGame (newQuizGame game) deleteOk with
    | (some e, gl2) =>
      (some (.orchestrator e), { m with lotteries := mapPut m.lotteries game.LotteryID gl2 })
    | (none, gl2) =>
      (none, { lotteries := mapPut m.lotteries game.LotteryID gl2,
               ongoingGames := mapPut m.ongoingGames (newQuizGame game).GameID
                 (newQuizGame game) })

/-- The registry's `RemoveGame`. -/
def QuizGameManager.RemoveGame (m : QuizGameManager) (game : DiscordQuizGame)
    (deleteOk : Bool) : Option ManagerError × QuizGameManager :=
  match mapGet m.lotteries game.LotteryID with
  | none => (some (.lotteryNotFoundWhenRemoveGame game.LotteryID), m)
  | some gl =>
    match gl.RemoveGame game.GameID deleteOk with
    | (some e, gl2) =>
      (some (.orchestrator e), { m with lotteries := mapPut m.lotteries game.LotteryID gl2 })
    | (none, gl2) =>
      (none, { lotteries := mapPut m.lotteries game.LotteryID gl2,
               ongoingGames := mapDelete m.ongoingGames game.GameID })

/-- The orchestrator's bookkeeping: every round of the games list is marked in `gameSet`. -/
def quizGameLottery.gamesIndexed (l : quizGameLottery) : Prop :=
  ∀ g ∈ l.games, g.GameID ∈ l.gameSet

instance instDecidableGamesIndexed (l : quizGameLottery) : Decidable l.gamesIndexed :=
  inferInstanceAs (Decidable (∀ g ∈ l.games, g.GameID ∈ l.gameSet))

/-- The GameIDs of the rounds of a slice, in order. -/
def gameIDs (gs : List quizGame) : List String :=
  gs.map (fun g => g.GameID)

/-- What the orchestrator keeps true of its games list: every round is marked in `gameSet`
and no two rounds have the same GameID. -/
def quizGameLottery.wellIndexed (l : quizGameLottery) : Prop :=
  l.gamesIndexed ∧ (gameIDs l.games).Nodup

/-- The record of a lottery whose Status is Finished. -/
def finishedLotteryRecord : DiscordQuizGameLottery :=
  { LotteryID := "L", Status := .Finished, AllowedWinnerNum := 5, RewardAmount := 1,
    TotalQuizNum := 1, WinnerRequiredCorrectQuizNum := 1, Winners := [] }

/-- The record of a round in progress whose question message is recorded. -/
def inProgressRecord (id : String) : DiscordQuizGame :=
  { GameID := id, LotteryID := "L", ChannelID := "c", TimeLimitSec := 30, SendQuizAt := 0,
    Status := .InProgress, AnswerOptions := ["x", "y"], CorrectAnswerOption := "x",
    Participants := none, Winners := none, QuestionMessageID := some "q",
    AnswerMessageID := none }

/-- A lottery that was given one round in progress. -/
def lotteryWithOpenRound : quizGameLottery :=
  ((newQuizGameLottery (lotteryRecord 2 1 5)).AddGame
    (newQuizGame (inProgressRecord "g1")) true).2

/-- The round of `lotteryWithOpenRound` as it stands in the games list. -/
def openRoundTask : quizGame :=
  { newQuizGame (inProgressRecord "g1") with phase := .spawned }

/-- A registry that tracks one lottery, which was given one round in progress. -/
def registryWithOpenRound : QuizGameManager :=
  ((NewQuizGameManager.AddLottery (lotteryRecord 2 1 5)).AddGame (inProgressRecord "g1")
    true).2

/-- A registry that tracks one lottery with two rounds not yet started. -/
def registryWithTwoRounds : QuizGameManager :=
  (((NewQuizGameManager.AddLottery (lotteryRecord 2 1 5)).AddGame (roundRecord "g1")
    true).2.AddGame (roundRecord "g2") true).2

/-- The lottery of `registryWithTwoRounds`. -/
def lotteryWithTwoRounds : quizGameLottery :=
  (((newQuizGameLottery (lotteryRecord 2 1 5)).AddGame (newQuizGame (roundRecord "g1"))
    true).2.AddGame (newQuizGame (roundRecord "g2")) true).2

/-- A second version of the round record of the given id: the correct option is changed. -/
def roundRecordRevised (id : String) : DiscordQuizGame :=
  { GameID := id, LotteryID := "L", ChannelID := "c", TimeLimitSec := 30, SendQuizAt := 0,
    Status := .NotStarted, AnswerOptions := ["x", "y"], CorrectAnswerOption := "y",
    Participants := none, Winners := none, QuestionMessageID := none, AnswerMessageID := none }

/-- A registry that tracks one lottery without rounds. -/
def registryWithLottery : QuizGameManager :=
  NewQuizGameManager.AddLottery (lotteryRecord 2 1 5)

/-- Rounds g1 and g2 are added, g1 is replaced by a second version, g2 is removed and g1 is
replaced again. -/
def replaceAndRemoveRun : List LotteryEvent :=
  [LotteryEvent.addGame (newQuizGame (roundRecord "g1")) true,
   LotteryEvent.addGame (newQuizGame (roundRecord "g2")) true,
   LotteryEvent.addGame (newQuizGame (roundRecordRevised "g1")) true,
   LotteryEvent.removeGame "g2" true,
   LotteryEvent.addGame (newQuizGame (roundRecord "g1")) true]

/-! ## Terminate with its effects (`quiz_game_manager.go`, lines 677-696) -/

/-- What a call of `Terminate` leaves behind: the error returned, the round afterwards, and
whether `ChannelMessageDelete` was called. -/
structure TerminateOutcome where
  err : Option TerminateError
  round : quizGame
  retractionAttempted : Bool
  deriving DecidableEq, Repr

/-- The method `quizGame.Terminate` with its effects; `deleteOk` tells whether
`ChannelMessageDelete` succeeds when it is called.  Calling `cancelFunc` is recorded as
`cancelled := true`. -/
def quizGame.TerminateTraced (g : quizGame) (deleteOk : Bool) : TerminateOutcome :=
  match g.Status with
  | .NotStarted =>
    { err := none, round := { g with cancelled := true }, retractionAttempted := false }
  | .InProgress =>
    match g.QuestionMessageID with
    | none =>
      { err := some .ErrorUnableToTerminateGame, round := g, retractionAttempted := false }
    | some _ =>
      if deleteOk then
        { err := none, round := { g with cancelled := true }, retractionAttempted := true }
      else
        { err := some .ErrorUnableToTerminateGame, round := g, retractionAttempted := true }
  | .Finished =>
    { err := some .ErrorGameFinished, round := g, retractionAttempted := false }

/-! ## The orchestrator's loop (`quiz_game_manager.go`, lines 253-279) -/

/-- The case of the `select` of `Start` that is taken: the context is done, the hourly ticker
fires, or a signal is received from `finalizeLotteryChan`. -/
inductive StartEvent where
  | done
  | tick
  | finalize
  deriving DecidableEq, Repr

/-- How `Start` returns: cancelled, terminating on a tick, or after finalizing the lottery. -/
inductive StartReturn where
  | canceled
  | terminating
  | finalized
  deriving DecidableEq, Repr

/-- One iteration of the loop of `Start`: `none` when the loop goes on, otherwise the way
`Start` returns. -/
def quizGameLottery.StartIteration (l : quizGameLottery) : StartEvent → Option StartReturn
  | .done => some .canceled
  | .tick =>
    if l.games.length = 0 then none
    else if l.wait2BeFinishedGameCount = 0 then some .terminating
    else none
  | .finalize => some .finalized

/-! ## Announcing a finished lottery (`quiz_game_manager.go`, lines 353-374)

The outcomes of the calls of `finishLottery` and `notifyLotteryFinished` are given by two
functions: the value at `k` is the outcome of the call number `k`, counted from zero. -/

/-- The progress of `announceFinished`: the two flags, and for each step the outcomes of the
attempts made so far, in order. -/
structure AnnounceTrace where
  finished : Bool
  notified : Bool
  finishAttempts : List Bool
  notifyAttempts : List Bool
  deriving DecidableEq, Repr

/-- The body of the loop of `announceFinished` up to the test that ends it: each step is
attempted unless it has succeeded before. -/
def announceAttempt (finishOutcome notifyOutcome : Nat → Bool) (t : AnnounceTrace) :
    AnnounceTrace :=
  let t1 : AnnounceTrace :=
    if t.finished = false then
      { t with finished := finishOutcome t.finishAttempts.length,
               finishAttempts := t.finishAttempts ++ [finishOutcome t.finishAttempts.length] }
    else t
  if t1.notified = false then
    { t1 with notified := notifyOutcome t1.notifyAttempts.length,
              notifyAttempts := t1.notifyAttempts ++ [notifyOutcome t1.notifyAttempts.length] }
  else t1

/-- The loop `for i := 0; i < maxTry; i++` of `announceFinished`, with the iterations left. -/
def announceLoop (finishOutcome notifyOutcome : Nat → Bool) :
    Nat → AnnounceTrace → AnnounceTrace
  | 0, t => t
  | left + 1, t =>
    if (announceAttempt finishOutcome notifyOutcome t).finished = true ∧
        (announceAttempt finishOutcome notifyOutcome t).notified = true then
      announceAttempt finishOutcome notifyOutcome t
    else announceLoop finishOutcome notifyOutcome left
      (announceAttempt finishOutcome notifyOutcome t)

/-- The method `announceFinished`: the winners are stored in the lottery and the two steps are
tried, `maxTry = 3` times at most. -/
def quizGameLottery.announceFinished (l : quizGameLottery) (winners : List String)
    (finishOutcome notifyOutcome : Nat → Bool) : quizGameLottery × AnnounceTrace :=
  ({ l with Winners := winners },
    announceLoop finishOutcome notifyOutcome 3
      { finished := false, notified := false, finishAttempts := [], notifyAttempts := [] })

/-- The 1-based index of the first successful attempt among the attempts `k+1, k+2, ...`,
looking at `fuel` of them; one more than the last index looked at when none succeeds. -/
def firstSuccessFrom (outcome : Nat → Bool) : Nat → Nat → Nat
  | 0, k => k + 1
  | fuel + 1, k => if outcome k = true then k + 1 else firstSuccessFrom outcome fuel (k + 1)

/-- The 1-based index of the first successful attempt among the first `bound` attempts, and
`bound + 1` when none of them succeeds. -/
def firstSuccessWithin (outcome : Nat → Bool) (bound : Nat) : Nat :=
  firstSuccessFrom outcome bound 0

/-- The outcomes: fail, fail, succeed. -/
def succeedsThird : Nat → Bool :=
  fun k => decide (k = 2)

/-- The outcomes: succeed at once. -/
def succeedsFirst : Nat → Bool :=
  fun _ => true

/-- The outcomes: never succeed. -/
def neverSucceeds : Nat → Bool :=
  fun _ => false

/-! ## Persisting a finished lottery (`quiz_game_manager.go`, lines 376-462, `quiz_game.go`, lines 69-78)

Two databases are written: `CommunityPostgres` holds the lottery rows, `PublicPostgres` the
quests and whitelists.  Of a lottery row only the status column is modelled.  What the
environment supplies (the end instant, the fresh whitelist id, the hash of the lottery id and
the formatted date) is gathered in `QuestEnv`. -/

/-- The record `CommunityQuestTemplate`, with the whitelist id of its requirements. -/
structure CommunityQuestTemplate where
  QuestID : String
  QuestName : String
  Dragonball : Int
  ClaimableDurationHours : Int
  QuestDescription : String
  StartTime : Int
  EndTime : Int
  RequiredWhitelistID : String
  deriving DecidableEq, Repr

/-- The record `CommunityQuestWhitelist`. -/
structure CommunityQuestWhitelist where
  WhitelistID : String
  WhitelistName : String
  deriving DecidableEq, Repr

/-- The record `CommunityQuestWhitelistUser`. -/
structure CommunityQuestWhitelistUser where
  WhitelistID : String
  IdentityType : String
  Identity : String
  deriving DecidableEq, Repr

/-- What the two databases hold: the status of the lottery rows by lottery id, and the three
reward tables. -/
structure Databases where
  lotteryStatus : List (String × DiscordQuizGameLotteryStatus)
  quests : List CommunityQuestTemplate
  whitelists : List CommunityQuestWhitelist
  whitelistUsers : List CommunityQuestWhitelistUser
  deriving DecidableEq, Repr

/-- What `createCommunityQuest` takes from its environment: `EndedAt` in nanoseconds, the
string of `uuid.NewString()`, the value of `common.SHA256HexString` on the lottery id and the
date formatted as `Jan.02`. -/
structure QuestEnv where
  endedAt : Int
  whitelistID : String
  questID : String
  date : String
  deriving DecidableEq, Repr

/-- How the transaction of `createCommunityQuest` ends: committed, or failed at one of its
three `Create` calls or at the commit; a failed transaction is rolled back. -/
inductive TxOutcome where
  | committed
  | questFails
  | whitelistFails
  | usersFail
  | commitFails
  deriving DecidableEq, Repr

/-- The method `UpdateFinished` when its statement succeeds: the row of the lottery, if there
is one, gets the status Finished. -/
def UpdateFinished (l : quizGameLottery) (db : Databases) : Databases :=
  match mapGet db.lotteryStatus l.LotteryID with
  | none => db
  | some _ => { db with lotteryStatus := mapPut db.lotteryStatus l.LotteryID .Finished }

/-- The quest that `createCommunityQuest` builds. -/
def questOf (l : quizGameLottery) (env : QuestEnv) : CommunityQuestTemplate :=
  { QuestID := env.questID,
    QuestName := env.date ++ " Q&A",
    Dragonball := l.RewardAmount,
    ClaimableDurationHours := 24 * 15,
    QuestDescription :=
      if l.TotalQuizNum = l.WinnerRequiredCorrectQuizNum then "Answer all Q&A correctly"
      else "Answer " ++ toString l.WinnerRequiredCorrectQuizNum ++ " out of " ++
        toString l.TotalQuizNum ++ " Q&A correctly",
    StartTime := Int.tdiv env.endedAt 1000000,
    EndTime := Int.tdiv (env.endedAt + 3 * 24 * 3600 * nanosPerSecond) 1000000,
    RequiredWhitelistID := env.whitelistID }

/-- The method `createCommunityQuest`: whether it succeeded, and the databases afterwards.
The quest, the whitelist and the whitelist users are created in one transaction. -/
def quizGameLottery.createCommunityQuest (l : quizGameLottery) (db : Databases)
    (env : QuestEnv) (tx : TxOutcome) : Bool × Databases :=
  match tx with
  | .committed =>
    (true, { db with
      quests := db.quests ++ [questOf l env],
      whitelists := db.whitelists ++
        [{ WhitelistID := env.whitelistID, WhitelistName := env.date ++ " Q&A Winners" }],
      whitelistUsers := db.whitelistUsers ++ l.Winners.map (fun did =>
        { WhitelistID := env.whitelistID, IdentityType := "discord_ids", Identity := did }) })
  | _ => (false, db)

/-- The method `finishLottery`: `updateOk` tells whether the statement of `UpdateFinished`
succeeds (a failed statement changes nothing), `tx` how the transaction of
`createCommunityQuest` ends. -/
def quizGameLottery.finishLottery (l : quizGameLottery) (db : Databases) (env : QuestEnv)
    (updateOk : Bool) (tx : TxOutcome) : Bool × Databases :=
  if updateOk = false then (false, db)
  else l.createCommunityQuest (UpdateFinished l db) env tx

/-- The databases when Scenario A is about to be finished: the row of the lottery is there,
not finished, and no reward exists. -/
def databasesBeforeFinish : Databases :=
  { lotteryStatus := [("L", .NotStarted)], quests := [], whitelists := [],
    whitelistUsers := [] }

/-- An environment for `createCommunityQuest`. -/
def questEnv : QuestEnv :=
  { endedAt := 1000000000, whitelistID := "w", questID := "h", date := "Jan.02" }

/-! ## Option ids (`quiz_game_manager.go`, lines 698-705)

`strconv.Itoa` of a natural number is its decimal string, `toString`.  `strconv.ParseInt` with
base 10 and 64 bits accepts an optional sign followed by one decimal digit or more, and
rejects a value outside the range of a 64-bit integer. -/

/-- The value of a decimal digit. -/
def digitValue (c : Char) : Option Nat :=
  if '0' ≤ c ∧ c ≤ '9' then some (c.toNat - '0'.toNat) else none

/-- The digits of a decimal string read from the left, `acc` being the value read so far. -/
def parseDigits : List Char → Nat → Option Nat
  | [], acc => some acc
  | c :: cs, acc =>
    match digitValue c with
    | none => none
    | some d => parseDigits cs (acc * 10 + d)

/-- The call `strconv.ParseInt(s, 10, 64)`: `none` when it returns an error. -/
def ParseInt (s : String) : Option Int :=
  match s.toList with
  | [] => none
  | c :: cs =>
    if c = '-' then
      if cs = [] then none
      else
        match parseDigits cs 0 with
        | none => none
        | some n => if n ≤ 2 ^ 63 then some (-(n : Int)) else none
    else if c = '+' then
      if cs = [] then none
      else
        match parseDigits cs 0 with
        | none => none
        | some n => if n < 2 ^ 63 then some (n : Int) else none
    else
      match parseDigits (c :: cs) 0 with
      | none => none
      | some n => if n < 2 ^ 63 then some (n : Int) else none

/-- The method `answerOptionFromOptionID`: the empty string for an id that does not parse,
otherwise the option at the 1-based position; an index outside the slice panics. -/
def quizGame.answerOptionFromOptionID (g : quizGame) (id : String) : Except Panic String :=
  match ParseInt id with
  | none => .ok ""
  | some idInt =>
    if idInt - 1 < 0 then .error .indexOutOfRange
    else
      match g.AnswerOptions.get? (idInt - 1).toNat with
      | none => .error .indexOutOfRange
      | some option => .ok option

/-! ## AddLottery with its effects (`quiz_game_manager.go`, lines 83-97) -/

/-- What a call of `AddLottery` leaves behind: the registry afterwards, and the orchestrator it
created and for which it spawned the goroutine running `Start` (`none` when it returned
before creating one). -/
structure AddLotteryOutcome where
  manager : QuizGameManager
  started : Option quizGameLottery
  deriving DecidableEq, Repr

/-- The method `AddLottery` with its effects.  For a tracked LotteryID the record pointer of
the orchestrator found is assigned and the method returns; otherwise `newQuizGameLottery`
builds an orchestrator, it is entered in the lottery index and its goroutine is spawned. -/
def QuizGameManager.AddLotteryTraced (m : QuizGameManager) (lottery : DiscordQuizGameLottery) :
    AddLotteryOutcome :=
  match mapGet m.lotteries lottery.LotteryID with
  | some gl =>
    { manager :=
        { m with lotteries :=
            mapPut m.lotteries lottery.LotteryID { gl with toDiscordQuizGameLottery := lottery } },
      started := none }
  | none =>
    { manager :=
        { m with lotteries := mapPut m.lotteries lottery.LotteryID (newQuizGameLottery lottery) },
      started := some (newQuizGameLottery lottery) }

/-- The keys of a map, in the order of its entries. -/
def mapKeys {β : Type} (m : List (String × β)) : List String :=
  m.map (fun e => e.1)

/-- A second configuration of the lottery `L`: other reward and winner numbers. -/
def lotteryRecordRevised : DiscordQuizGameLottery :=
  { LotteryID := "L", Status := .NotStarted, AllowedWinnerNum := 7, RewardAmount := 3,
    TotalQuizNum := 2, WinnerRequiredCorrectQuizNum := 2, Winners := [] }

/-! ## A GameID whose rounds were removed -/

/-- The GameID is marked in `gameSet` while no round of the games list has it: what a
successful `RemoveGame` of a held GameID leaves behind. -/
def quizGameLottery.retired (l : quizGameLottery) (gameID : String) : Prop :=
  gameID ∈ l.gameSet ∧ gameID ∉ gameIDs l.games

instance instDecidableRetired (l : quizGameLottery) (gameID : String) :
    Decidable (l.retired gameID) :=
  inferInstanceAs (Decidable (gameID ∈ l.gameSet ∧ gameID ∉ gameIDs l.games))

/-- After a removal: a third round is added, the task of the first round of the games list
enters `Play`, and the removal is asked for once more. -/
def afterRemovalRun : List LotteryEvent :=
  [LotteryEvent.addGame (newQuizGame (roundRecord "g3")) true,
   LotteryEvent.task (TaskRef.inGames 0) TaskEvent.playBegin,
   LotteryEvent.removeGame "g1" true]

/-- The lottery with two rounds after the round g1 was removed and `afterRemovalRun` took
place. -/
def lotteryAfterRemoval : quizGameLottery :=
  (lotteryWithTwoRounds.RemoveGame "g1" true).2.run afterRemovalRun

/-- A registry that tracks `lotteryAfterRemoval`; its round index holds the round g2. -/
def registryAfterRemoval : QuizGameManager :=
  { lotteries := [("L", lotteryAfterRemoval)],
    ongoingGames := [("g2", newQuizGame (roundRecord "g2"))] }

/-! ## Reading one entry of the participation store (`quiz_game_manager.go`, lines 660-670, 785-807) -/

/-- The command `HGET key field`: `none` stands for the reply `redis.Nil` (no such key, or no
such field in the hash). -/
def redisHGet (c : RedisCache) (key field : String) : Option String :=
  (redisHGetAll c key).lookup field

/-- The key of a round's participation record: the expression
`fmt.Sprintf("%v%v", quizGameParticipantsKeyPrefix, g.GameID)`. -/
def quizGame.gameKey (g : quizGame) : String :=
  quizGameParticipantsKeyPrefix ++ g.GameID

/-- The value `participate` stores for a vote: the expression
`fmt.Sprintf("%v&%v", optionID, time.Now().UnixNano()/1e6)`, `stamp` being the instant read. -/
def participateInfo (optionID : String) (stamp : Int) : String :=
  optionID ++ "&" ++ toString (Int.tdiv stamp 1000000)

/-- A store in which the round g1 has the votes of two users and another round has one. -/
def storeWithVotes : RedisCache :=
  [("quiz_game_participants:g0", [("u", "2&1")]),
   ("quiz_game_participants:g1", [("u", "2&3"), ("v", "1&4")])]

/-! ## The close step with its effects (`quiz_game_manager.go`, lines 611-634, 754-783) -/

/-- What `ToSendAnswerMessage` reads of the round's results: the two lengths
`len(*g.Participants)` and `len(*g.Winners)` that go into the text of the message.  The
pointers are dereferenced in that order, and a nil pointer panics. -/
def quizGame.ToSendAnswerMessage (g : quizGame) : Except Panic (Nat × Nat) :=
  match g.Participants with
  | none => .error .nilPointerDereference
  | some participants =>
    match g.Winners with
    | none => .error .nilPointerDereference
    | some winners => .ok (participants.length, winners.length)

/-- What a call of `ongoing` leaves behind: the round afterwards, whether the call ended in a
panic (caught by the deferred function of `Play`), and whether `UpdateGameFinished` was
called. -/
structure OngoingOutcome where
  round : quizGame
  panicked : Bool
  updateGameFinishedCalled : Bool
  deriving DecidableEq, Repr

/-- The method `ongoing` with its effects.  The three early returns (Status not InProgress, no
question message id, context done) and the return after a failed `finalizeParticipateInfo`
leave the method before its last statement, the call of `UpdateGameFinished`; so does a panic
of `ToSendAnswerMessage`. -/
def quizGame.ongoingTraced (g : quizGame) (ev : OngoingEvent) : OngoingOutcome :=
  if g.Status.Is .InProgress = false then
    { round := g, panicked := false, updateGameFinishedCalled := false }
  else if g.QuestionMessageID = none then
    { round := g, panicked := false, updateGameFinishedCalled := false }
  else
    match ev with
    | .done => { round := g, panicked := false, updateGameFinishedCalled := false }
    | .timer read answer =>
      let closed : quizGame := { g with Status := .Finished }
      match closed.finalizeParticipateInfo read with
      | (true, g2) => { round := g2, panicked := false, updateGameFinishedCalled := false }
      | (false, g2) =>
        match g2.ToSendAnswerMessage with
        | .error _ => { round := g2, panicked := true, updateGameFinishedCalled := false }
        | .ok _ =>
          match answer with
          | none => { round := g2, panicked := false, updateGameFinishedCalled := true }
          | some msgID =>
            { round := { g2 with AnswerMessageID := some msgID }, panicked := false,
              updateGameFinishedCalled := true }

/-! ## Play, statement by statement (`quiz_game_manager.go`, lines 543-658)

The round task of the transition system above runs `ongoing` in one step.  Here the close is
followed statement by statement, so that the states between the assignment of Status and the
two assignments of the results are states of the model.  `Terminate`, called by another
goroutine, may come between any two statements. -/

/-- Where the goroutine of a round stands inside `Play`.

* `entry`: at the Status test of `Play`.
* `atUpcoming`, `atOngoing`: at the call of `upcoming`, of `ongoing`.
* `closing`: in `ongoing`, the timer fired; next is `g.Status = Finished`.
* `finalizing`: next is the message edit and the read of `finalizeParticipateInfo`.
* `writingParticipants`: the loop of `finalizeParticipateInfo` has filled its two local
  slices; next is `g.Participants = &participants`.
* `writingWinners`: next is `g.Winners = &winners`.
* `answering`: `finalizeParticipateInfo` returned nil; next is `ToSendAnswerMessage` and the
  send of the result message.
* `updating`: next is `UpdateGameFinished`.
* `returned`: `Play` has returned. -/
inductive PlayPoint where
  | entry
  | atUpcoming
  | atOngoing
  | closing
  | finalizing
  | writingParticipants (participants winners : List String)
  | writingWinners (winners : List String)
  | answering
  | updating
  | returned
  deriving DecidableEq, Repr

/-- The round and the point its goroutine has reached. -/
structure PlayState where
  round : quizGame
  point : PlayPoint
  deriving DecidableEq, Repr

/-- What can happen next to a round: its goroutine executes the statement it stands at, the
environment supplying whether the timer of the `select` has fired and the outcomes of
publishing the question, of reading the store and of publishing the result message; or
another goroutine calls `Terminate`, `deleteOk` telling whether the retraction succeeds. -/
inductive PlayEvent where
  | advance (timerFired : Bool) (publish : Option String) (read : Option RedisHash)
      (answer : Option String)
  | terminate (deleteOk : Bool)
  deriving DecidableEq, Repr

/-- The return from `Play` once the deferred function is installed: it calls `cancelFunc`. -/
def PlayState.leave (s : PlayState) : PlayState :=
  { round := { s.round with cancelled := true }, point := .returned }

/-- One statement of the goroutine. -/
def PlayState.advance (s : PlayState) (timerFired : Bool) (publish : Option String)
    (read : Option RedisHash) (answer : Option String) : PlayState :=
  match s.point with
  | .entry =>
    if s.round.Status.Is .Finished then { s with point := .returned }
    else { round := { s.round with cancelled := false }, point := .atUpcoming }
  | .atUpcoming =>
    if timerFired then { round := s.round.upcoming (.timer publish), point := .atOngoing }
    else if s.round.upcomingEnabled .done then
      { round := s.round.upcoming .done, point := .atOngoing }
    else s
  | .atOngoing =>
    if s.round.Status.Is .InProgress = false then s.leave
    else if s.round.QuestionMessageID = none then s.leave
    else if timerFired then { s with point := .closing }
    else if s.round.cancelled then s.leave
    else s
  | .closing => { round := { s.round with Status := .Finished }, point := .finalizing }
  | .finalizing =>
    match read with
    | none => s.leave
    | some participates =>
      if participates.length = 0 then { s with point := .answering }
      else
        { round := s.round,
          point :=
            PlayPoint.writingParticipants (participates.map (fun e => e.1))
              ((participates.filter (fun e =>
                decide (recordedOption e.2 = s.round.CorrectAnswerOptionCustomID))).map
                  (fun e => e.1)) }
  | .writingParticipants participants winners =>
    { round := { s.round with Participants := some participants },
      point := .writingWinners winners }
  | .writingWinners winners =>
    { round := { s.round with Winners := some winners }, point := .answering }
  | .answering =>
    match s.round.ToSendAnswerMessage with
    | .error _ => s.leave
    | .ok _ =>
      match answer with
      | none => { s with point := .updating }
      | some msgID => { round := { s.round with AnswerMessageID := some msgID }, point := .updating }
  | .updating => s.leave
  | .returned => s

/-- The state after an event. -/
def PlayState.step (s : PlayState) : PlayEvent → PlayState
  | .advance timerFired publish read answer => s.advance timerFired publish read answer
  | .terminate deleteOk =>
    match s.round.Terminate deleteOk with
    | .ok g2 => { s with round := g2 }
    | .error _ => s

/-- The state after a sequence of events. -/
def PlayState.run (s : PlayState) (events : List PlayEvent) : PlayState :=
  events.foldl PlayState.step s

/-- The state in which the goroutine of a newly constructed round enters `Play`. -/
def PlayState.start (game : DiscordQuizGame) : PlayState :=
  { round := newQuizGame game, point := .entry }

/-- Whether the goroutine stands at the assignment of Participants. -/
def PlayPoint.writesParticipants : PlayPoint → Bool
  | .writingParticipants _ _ => true
  | _ => false

/-- Whether the goroutine stands at the assignment of Winners. -/
def PlayPoint.writesWinners : PlayPoint → Bool
  | .writingWinners _ => true
  | _ => false

/-- Whether the goroutine has not yet passed the assignment of Participants. -/
def PlayPoint.beforeWrites : PlayPoint → Bool
  | .entry | .atUpcoming | .atOngoing | .closing | .finalizing => true
  | .writingParticipants _ _ => true
  | _ => false

/-- Whether the goroutine is inside the close, past the assignment of Status. -/
def PlayPoint.afterStatus : PlayPoint → Bool
  | .finalizing | .answering | .updating => true
  | .writingParticipants _ _ => true
  | .writingWinners _ => true
  | _ => false

/-- What holds of a round whose results were unset when it was constructed, at every point of
`Play`: results that are set belong to a Finished round, up to the assignment of Participants
both results are unset, at the assignment of Winners the Winners are unset, and inside the
close, from the assignment of Status on, the Status is Finished. -/
def PlayState.Inv (s : PlayState) : Prop :=
  ((s.round.Winners ≠ none ∨ s.round.Participants ≠ none) → s.round.Status = .Finished) ∧
    (s.point.beforeWrites = true → s.round.Participants = none ∧ s.round.Winners = none) ∧
    (s.point.writesWinners = true → s.round.Winners = none) ∧
    (s.point.afterStatus = true → s.round.Status = .Finished)

/-- The timer fires, the question is published as message `q`, the store holds two votes and
the result message is published as `a`. -/
def playOn : PlayEvent :=
  PlayEvent.advance true (some "q") (some [("u", "1&5"), ("v", "2&6")]) (some "a")

/-- A round is played through to the assignment of its Participants, with a call of
`Terminate` that fails on the way. -/
def playToParticipants : List PlayEvent :=
  [playOn, playOn, PlayEvent.terminate false, playOn, playOn, playOn, playOn]

/-! ## Counting starts and returns (`quiz_game_manager.go`, lines 229-240) -/

/-- Whether the event is a call of `AddGame` that reaches `StartGame`: `addNewGameLocked`
always calls it, `updateGameLocked` calls it once the round held was terminated. -/
def quizGameLottery.startsRound (l : quizGameLottery) : LotteryEvent → Bool
  | .addGame game deleteOk =>
    if game.GameID ∈ l.gameSet then
      match replaceGame game deleteOk l.games with
      | some (.ok _) => true
      | _ => false
    else true
  | _ => false

/-- Whether the event is the step by which a round task returns from `Play` (a natural
finish, a return on a cancelled context, or the return of `Play` on a Finished round): the
task is running before the step and no longer after it. -/
def quizGameLottery.taskReturns (l : quizGameLottery) : LotteryEvent → Bool
  | .task ref ev =>
    match l.roundAt ref with
    | none => false
    | some g =>
      g.taskRunning &&
        !(taskStep l.wait2BeFinishedGameCount l.finalizeLotteryChan g ev).1.taskRunning
  | _ => false

/-- How many of the events, taken in order from the state `l`, are calls that reach
`StartGame`. -/
def quizGameLottery.startedCount (l : quizGameLottery) : List LotteryEvent → Nat
  | [] => 0
  | e :: rest => (if l.startsRound e then 1 else 0) + (l.step e).startedCount rest

/-- How many of the events, taken in order from the state `l`, are returns of a round task
from `Play`. -/
def quizGameLottery.returnedCount (l : quizGameLottery) : List LotteryEvent → Nat
  | [] => 0
  | e :: rest => (if l.taskReturns e then 1 else 0) + (l.step e).returnedCount rest

/-- The task of the first round of the games list returns from `ongoing` on the branch of the
`select` that needs no timer. -/
def firstRoundReturn : LotteryEvent :=
  LotteryEvent.task (TaskRef.inGames 0) (TaskEvent.ongoingStep OngoingEvent.done)

/-- Two rounds are added and the task of the first one, unable to publish its question, is
about to return from `Play`. -/
def beforeFirstReturnRun : List LotteryEvent :=
  [LotteryEvent.addGame (newQuizGame (roundRecord "g1")) true,
   LotteryEvent.addGame (newQuizGame (roundRecord "g2")) true,
   LotteryEvent.task (TaskRef.inGames 0) TaskEvent.playBegin,
   LotteryEvent.task (TaskRef.inGames 0) (TaskEvent.upcomingStep (UpcomingEvent.timer none))]

/-- After the task of the first round has returned and decremented the counter, the task of
the second round does the same; only then does the first task load the counter. -/
def secondReturnsFirstLoadsRun : List LotteryEvent :=
  beforeFirstReturnRun ++
    [firstRoundReturn,
     LotteryEvent.task (TaskRef.inGames 1) TaskEvent.playBegin,
     LotteryEvent.task (TaskRef.inGames 1) (TaskEvent.upcomingStep (UpcomingEvent.timer none)),
     LotteryEvent.task (TaskRef.inGames 1) (TaskEvent.ongoingStep OngoingEvent.done),
     firstRoundLoad]

/-! ## The admin API: saving a lottery (`quiz_game_crud.go`, lines 17-86, `quiz_game.go`, lines 17-33) -/

/-- The request body `saveQuizGameLotteryRequest`. -/
structure saveQuizGameLotteryRequest where
  LotteryID : String
  RewardType : String
  RewardAmount : Int
  WinnerNum : Int
  TotalQuizNum : Int
  WinnerRequiredCorrectQuizNum : Int
  deriving DecidableEq, Repr

/-- The method `DiscordQuizGameLotteryRewardType.IsValid`. -/
def DiscordQuizGameLotteryRewardTypeIsValid (rewardType : String) : Bool :=
  if rewardType = "arc_token" then true
  else if rewardType = "dragonball" then true
  else false

/-- What a call of `SaveQuizGameLottery` leaves behind: the status code and the text of the
response, the record on which `Save` was called and the record handed to `AddLottery` (`none`
when the call was not reached). -/
structure SaveLotteryOutcome where
  status : Nat
  body : String
  saveCalled : Option DiscordQuizGameLottery
  addLotteryCalled : Option DiscordQuizGameLottery
  deriving DecidableEq, Repr

/-- A response sent before `Save` is reached. -/
def SaveLotteryOutcome.reject (status : Nat) (body : String) : SaveLotteryOutcome :=
  { status := status, body := body, saveCalled := none, addLotteryCalled := none }

/-- The record `SaveQuizGameLottery` builds from a request; of its fields the reward type and
the creation time are not among those the engine reads. -/
def saveQuizGameLotteryRequest.toRecord (lottery : saveQuizGameLotteryRequest) :
    DiscordQuizGameLottery :=
  { LotteryID := lottery.LotteryID, Status := .NotStarted,
    AllowedWinnerNum := lottery.WinnerNum, RewardAmount := lottery.RewardAmount,
    TotalQuizNum := lottery.TotalQuizNum,
    WinnerRequiredCorrectQuizNum := lottery.WinnerRequiredCorrectQuizNum, Winners := [] }

/-- The handler `SaveQuizGameLottery` on the registry `m`.  `bound` is the outcome of
`ShouldBindJSON` (`none` when it fails), `saveOk` tells whether `Save` succeeds. -/
def SaveQuizGameLottery (m : QuizGameManager) (bound : Option saveQuizGameLotteryRequest)
    (saveOk : Bool) : SaveLotteryOutcome × QuizGameManager :=
  match bound with
  | none => (.reject 400 "invalid request", m)
  | some lottery =>
    if lottery.WinnerNum ≤ 0 then (.reject 400 "invalid winner numbers", m)
    else if lottery.LotteryID = "" then (.reject 400 "invalid lottery id", m)
    else if DiscordQuizGameLotteryRewardTypeIsValid lottery.RewardType = false then
      (.reject 400 "invalid reward type", m)
    else if lottery.RewardAmount ≤ 0 then (.reject 400 "invalid reward amount", m)
    else if lottery.TotalQuizNum ≤ 0 then (.reject 400 "invalid total quiz num", m)
    else if lottery.WinnerRequiredCorrectQuizNum ≤ 0 then
      (.reject 400 "invalid correct quiz num", m)
    else if lottery.WinnerRequiredCorrectQuizNum > lottery.TotalQuizNum then
      (.reject 400 "correct quiz num must not greater than total quiz num", m)
    else if saveOk = false then
      ({ status := 500, body := "internal error", saveCalled := some lottery.toRecord,
         addLotteryCalled := none }, m)
    else
      ({ status := 200, body := "success", saveCalled := some lottery.toRecord,
         addLotteryCalled := some lottery.toRecord }, m.AddLottery lottery.toRecord)

/-- The conditions of `SaveQuizGameLottery` on a request. -/
def saveQuizGameLotteryRequest.valid (lottery : saveQuizGameLotteryRequest) : Prop :=
  lottery.WinnerNum > 0 ∧ lottery.LotteryID ≠ "" ∧
    DiscordQuizGameLotteryRewardTypeIsValid lottery.RewardType = true ∧
    lottery.RewardAmount > 0 ∧ lottery.TotalQuizNum > 0 ∧
    0 < lottery.WinnerRequiredCorrectQuizNum ∧
    lottery.WinnerRequiredCorrectQuizNum ≤ lottery.TotalQuizNum

instance instDecidableRequestValid (lottery : saveQuizGameLotteryRequest) :
    Decidable lottery.valid :=
  inferInstanceAs (Decidable (lottery.WinnerNum > 0 ∧ lottery.LotteryID ≠ "" ∧
    DiscordQuizGameLotteryRewardTypeIsValid lottery.RewardType = true ∧
    lottery.RewardAmount > 0 ∧ lottery.TotalQuizNum > 0 ∧
    0 < lottery.WinnerRequiredCorrectQuizNum ∧
    lottery.WinnerRequiredCorrectQuizNum ≤ lottery.TotalQuizNum))

/-- A request for a lottery of three rounds of which two must be answered correctly. -/
def lotteryRequest : saveQuizGameLotteryRequest :=
  { LotteryID := "L", RewardType := "dragonball", RewardAmount := 10, WinnerNum := 5,
    TotalQuizNum := 3, WinnerRequiredCorrectQuizNum := 2 }

/-- A request that asks for more correct answers than there are rounds. -/
def lotteryRequestTooMany : saveQuizGameLotteryRequest :=
  { LotteryID := "L", RewardType := "dragonball", RewardAmount := 10, WinnerNum := 5,
    TotalQuizNum := 3, WinnerRequiredCorrectQuizNum := 4 }

/-! ## The admin API: validating a round (`quiz_game_crud.go`, lines 88-236)

`AnswerOptions` is a `JSONBArray`, a slice of `interface{}`: bound from JSON, an entry is any
JSON value. -/

/-- A value of type `interface{}` as the JSON decoder produces it; arrays and objects are not
told apart. -/
inductive JSONValue where
  | str (s : String)
  | number (n : Int)
  | bool (b : Bool)
  | null
  | composite
  deriving DecidableEq, Repr

/-- The request body `saveQuizGameRequest`, with the fields of the embedded record that the
validation reads or writes.  `SendQuizAt` is the request's own field (milliseconds),
`RecordSendQuizAt` the field of the embedded record (an instant in nanoseconds). -/
structure saveQuizGameRequest where
  GameID : String
  LotteryID : String
  GuildID : String
  ChannelID : String
  TimeLimitSec : Int
  SendQuizAt : Int
  RecordSendQuizAt : Int
  Status : DiscordQuizGameStatus
  QuestionDescription : String
  AnswerOptions : List JSONValue
  CorrectAnswerOption : String
  deriving DecidableEq, Repr

/-- The outcome of a query for one row as the handler sees it: an error, or the row found
(`none` for a nil pointer). -/
inductive Lookup (α : Type) where
  | failed
  | row (r : Option α)
  deriving DecidableEq, Repr

/-- What `validateSaveQuizGameRequest` gets from its collaborators: the lottery row, whether
Discord knows the guild and the channel, the round row, how many rounds the lottery has
(`none` when the query fails) and the string of `common.NewCutUUIDString()`. -/
structure SaveQuizGameEnv where
  lottery : Lookup DiscordQuizGameLottery
  guildKnown : Bool
  channelKnown : Bool
  game : Lookup DiscordQuizGame
  lotteryGames : Option Nat
  newGameID : String
  deriving DecidableEq, Repr

/-- How `validateSaveQuizGameRequest` ends: a response was sent and `false` returned, the
type assertion `ans.(string)` panicked, or `true` is returned with the request. -/
inductive ValidateResult where
  | rejected (status : Nat) (body : String)
  | panicked
  | accepted (game : saveQuizGameRequest)
  deriving DecidableEq, Repr

/-- The loop over `game.AnswerOptions`: `found` is `foundAnswer`, `dedup` the keys of
`dedupAnswers`; `none` when the type assertion panics. -/
def answerOptionsLoop (correct : String) :
    List JSONValue → Bool → List String → Option (Bool × List String)
  | [], found, dedup => some (found, dedup)
  | ans :: rest, found, dedup =>
    match ans with
    | .str s =>
      answerOptionsLoop correct rest (found || decide (ans = JSONValue.str correct))
        (if s ∈ dedup then dedup else dedup ++ [s])
    | _ => none

/-- The end of `validateSaveQuizGameRequest`, from the test `game.GameID != ""` on. -/
def validateGameID (env : SaveQuizGameEnv) (lottery : DiscordQuizGameLottery)
    (game : saveQuizGameRequest) : ValidateResult :=
  if game.GameID ≠ "" then
    match env.game with
    | .failed => .rejected 500 "internal error"
    | .row none => .rejected 400 "game not found"
    | .row (some one) =>
      if one.Status.Is .NotStarted = false then .rejected 400 "game already started"
      else .accepted { game with Status := .NotStarted }
  else
    match env.lotteryGames with
    | none => .rejected 500 "internal error"
    | some count =>
      if (count : Int) ≥ lottery.TotalQuizNum then .rejected 400 "too many games in lottery"
      else .accepted { game with GameID := env.newGameID, Status := .NotStarted }

/-- The part of `validateSaveQuizGameRequest` on the answer options, and what follows it. -/
def validateAnswerOptions (env : SaveQuizGameEnv) (lottery : DiscordQuizGameLottery)
    (game : saveQuizGameRequest) : ValidateResult :=
  if game.AnswerOptions.length ≤ 1 ∨ game.AnswerOptions.length > 9 then
    .rejected 400 "answer option size should be [2,9]"
  else if game.CorrectAnswerOption = "" then .rejected 400 "correct answer not present"
  else
    match answerOptionsLoop game.CorrectAnswerOption game.AnswerOptions false [] with
    | none => .panicked
    | some (foundAnswer, dedupAnswers) =>
      if foundAnswer = false then .rejected 400 "correct answer not found in answer options"
      else if dedupAnswers.length ≠ game.AnswerOptions.length then
        .rejected 400 "duplicate answer option found"
      else validateGameID env lottery game

/-- The function `validateSaveQuizGameRequest`; `bound` is the outcome of `ShouldBindJSON`
(`none` when it fails). -/
def validateSaveQuizGameRequest (env : SaveQuizGameEnv) (bound : Option saveQuizGameRequest) :
    ValidateResult :=
  match bound with
  | none => .rejected 400 "invalid request"
  | some game =>
    if game.LotteryID = "" then .rejected 400 "lottery id not present"
    else
      match env.lottery with
      | .failed => .rejected 500 "internal error"
      | .row none => .rejected 400 "unknown lottery"
      | .row (some lottery) =>
        if lottery.Status = .Finished then .rejected 400 "lottery already finished"
        else if game.GuildID = "" then .rejected 400 "guild id not present"
        else if env.guildKnown = false then .rejected 400 "unknown guild"
        else if game.ChannelID = "" then .rejected 400 "channel id not present"
        else if env.channelKnown = false then .rejected 400 "unknown channel"
        else if game.TimeLimitSec ≤ 0 then .rejected 400 "invalid game time limit"
        else if game.SendQuizAt < 0 then .rejected 400 "invalid send quiz time"
        else if game.QuestionDescription = "" then
          .rejected 400 "question description not present"
        else
          validateAnswerOptions env lottery
            { game with RecordSendQuizAt := game.SendQuizAt * 1000000 }

/-- The conditions on the answer options of a request: between 2 and 9 entries, pairwise
distinct, and the correct option, not empty, among them. -/
def saveQuizGameRequest.answersValid (game : saveQuizGameRequest) : Prop :=
  2 ≤ game.AnswerOptions.length ∧ game.AnswerOptions.length ≤ 9 ∧
    game.AnswerOptions.Nodup ∧ game.CorrectAnswerOption ≠ "" ∧
    JSONValue.str game.CorrectAnswerOption ∈ game.AnswerOptions

instance instDecidableAnswersValid (game : saveQuizGameRequest) :
    Decidable game.answersValid :=
  inferInstanceAs (Decidable (2 ≤ game.AnswerOptions.length ∧
    game.AnswerOptions.length ≤ 9 ∧ game.AnswerOptions.Nodup ∧
    game.CorrectAnswerOption ≠ "" ∧
    JSONValue.str game.CorrectAnswerOption ∈ game.AnswerOptions))

/-- A request for a new round with three answer options. -/
def roundRequest : saveQuizGameRequest :=
  { GameID := "", LotteryID := "L", GuildID := "guild", ChannelID := "c", TimeLimitSec := 30,
    SendQuizAt := 5000, RecordSendQuizAt := 0, Status := .NotStarted,
    QuestionDescription := "which one", AnswerOptions := [.str "x", .str "y", .str "z"],
    CorrectAnswerOption := "y" }

/-- The request `roundRequest` with one answer option given twice. -/
def roundRequestDuplicate : saveQuizGameRequest :=
  { roundRequest with AnswerOptions := [.str "x", .str "y", .str "x"] }

/-- Collaborators that know the lottery, the guild and the channel; the lottery has no round
yet. -/
def saveQuizGameEnv : SaveQuizGameEnv :=
  { lottery := .row (some (lotteryRecord 3 2 5)), guildKnown := true, channelKnown := true,
    game := .row none, lotteryGames := some 0, newGameID := "g9" }

/-! ## A user's result (`quiz_game_manager.go`, lines 785-816) -/

/-- The struct `participation`. -/
structure participation where
  participated : Bool
  chosenOptionID : String
  participateTime : String
  chosenAnswer : String
  correctAnswer : String
  win : Bool
  deriving DecidableEq, Repr

/-- The reply to `HGet`: `redis.Nil` (no entry), another error, or the value of the entry. -/
inductive HGetReply where
  | missing
  | failed
  | value (result : String)
  deriving DecidableEq, Repr

/-- The call `strings.Split(s, "&")` on the characters of `s`: the pieces between the
separators, one piece more than there are separators. -/
def splitAmpersand : List Char → List (List Char)
  | [] => [[]]
  | c :: cs =>
    if c = '&' then [] :: splitAmpersand cs
    else
      match splitAmpersand cs with
      | [] => [[c]]
      | piece :: pieces => (c :: piece) :: pieces

/-- The method `participationInfo`; `reply` is the reply to its `HGet`.  `none` stands for a
nil result returned with an error; indexing `arr[1]` and `g.AnswerOptions[i-1]` panics when
the index is out of range. -/
def quizGame.participationInfo (g : quizGame) (reply : HGetReply) :
    Except Panic (Option participation) :=
  match reply with
  | .missing =>
    .ok (some { participated := false, chosenOptionID := "", participateTime := "",
                chosenAnswer := "", correctAnswer := "", win := false })
  | .failed => .ok none
  | .value result =>
    match (splitAmpersand result.toList).map String.mk with
    | chosenOptionID :: participateTime :: _ =>
      match ParseInt chosenOptionID with
      | none => .ok none
      | some i =>
        if i - 1 < 0 then .error .indexOutOfRange
        else
          match g.AnswerOptions.get? (i - 1).toNat with
          | none => .error .indexOutOfRange
          | some chosenAnswer =>
            .ok (some { participated := true, chosenOptionID := chosenOptionID,
                        participateTime := participateTime, chosenAnswer := chosenAnswer,
                        correctAnswer := g.CorrectAnswerOption,
                        win := decide (chosenAnswer = g.CorrectAnswerOption) })
    | _ => .error .indexOutOfRange

/-! ## What the combination generator enumerates -/

/-- A combination of indices below `n`: strictly increasing, every entry below `n`. -/
def IsCombination (n : Nat) (s : List Nat) : Prop :=
  s.Sorted (fun a b => a < b) ∧ ∀ x ∈ s, x < n

/-- The last combination of its length: the position `j` holds `n - k + j`, `k` being the
length.  On it `nextCombination` changes nothing. -/
def LastCombination (n : Nat) (s : List Nat) : Prop :=
  ∀ j, j < s.length → s.getD j 0 + s.length = n + j

/-- The Winners of the round at index `i` of a slice (empty when the index is out of range or
the Winners are unset). -/
def winnersAt (games : List quizGame) (i : Nat) : List String :=
  match games.get? i with
  | none => []
  | some g => g.Winners.getD []

/-- The lexicographic order on combinations. -/
abbrev LexLt (s t : List Nat) : Prop :=
  List.Lex (fun a b => a < b) s t

/-- The run `a, a+1, ..., a+k-1`. -/
def runFrom (a k : Nat) : List Nat :=
  (List.range k).map (fun d => a + d)

/-! ## The deadline of a round as `Play` and `ongoing` compute it

`quiz_game_manager.go`, lines 557-560 and 604. -/

/-- The test of `Play` that stands under the TODO comment saying that the game is already over
(its body is empty), at the instant `now`: the number of whole seconds since `SendQuizAt`, the one `Expired` uses,
compared with `>=`. -/
def quizGame.alreadyOver (g : quizGame) (now : Int) : Bool :=
  decide (Int.tdiv (now - g.SendQuizAt) nanosPerSecond ≥ g.TimeLimitSec)

/-- The instant `until` of `ongoing`,
`g.SendQuizAt.Add(time.Second * time.Duration(g.TimeLimitSec))`: when it is reached the timer fires and the round is closed. -/
def quizGame.closeInstant (g : quizGame) : Int :=
  g.SendQuizAt + nanosPerSecond * g.TimeLimitSec

/-! ## Further rounds, runs and requests used in the statements -/

/-- The timer of `ongoing` fires, the participation record is read as empty and the result
message would be published as `a`. -/
def emptyRecordClose : OngoingEvent :=
  OngoingEvent.timer (some []) (some "a")

/-- A round is added and removed at once, before its goroutine has entered `Play`. -/
def removedBeforePlayRun : List LotteryEvent :=
  [LotteryEvent.addGame (newQuizGame (roundRecord "g1")) true,
   LotteryEvent.removeGame "g1" true]

/-- The task of the first detached round enters `Play`. -/
def detachedPlayBegin : LotteryEvent :=
  LotteryEvent.task (TaskRef.inDetached 0) TaskEvent.playBegin

/-- The task of the first detached round tries the branch `<-g.ctx.Done()` of `upcoming`. -/
def detachedContextDone : LotteryEvent :=
  LotteryEvent.task (TaskRef.inDetached 0) (TaskEvent.upcomingStep UpcomingEvent.done)

/-- The timer of the first detached round fires in `upcoming` and the question is published
as message `q`. -/
def detachedPublish : LotteryEvent :=
  LotteryEvent.task (TaskRef.inDetached 0)
    (TaskEvent.upcomingStep (UpcomingEvent.timer (some "q")))

/-- After the round g1 was added: its task enters `Play` and publishes the question as
message `q`. -/
def publishFirstRun : List LotteryEvent :=
  [LotteryEvent.task (TaskRef.inGames 0) TaskEvent.playBegin,
   LotteryEvent.task (TaskRef.inGames 0)
     (TaskEvent.upcomingStep (UpcomingEvent.timer (some "q")))]

/-- The lottery in which the first version of the round g1 was added and then published by its
task. -/
def lotteryWithPublishedRound : quizGameLottery :=
  ((newQuizGameLottery (lotteryRecord 2 1 5)).AddGame (newQuizGame (roundRecord "g1"))
    true).2.run publishFirstRun

/-- The first version of the round g1 as it stands once published: in progress, with its
question message recorded, its task at `ongoing`. -/
def publishedFirstVersion : quizGame :=
  { newQuizGame (roundRecord "g1") with
    Status := .InProgress, QuestionMessageID := some "q", phase := .ongoing }

/-- A registry that tracks `lotteryWithPublishedRound`; its round index holds the first version
of g1. -/
def registryWithPublishedRound : QuizGameManager :=
  { lotteries := [("L", lotteryWithPublishedRound)],
    ongoingGames := [("g1", newQuizGame (roundRecord "g1"))] }

/-- The request `roundRequest` with two answer options that are numbers, and equal. -/
def roundRequestNumbers : saveQuizGameRequest :=
  { roundRequest with AnswerOptions := [.number 1, .number 1, .str "y"] }

/-! ## Facts about the set helpers -/

theorem mem_addIntoSet (ids s : List String) (x : String) :
    x ∈ addIntoSet s ids ↔ x ∈ s ∨ x ∈ ids := by
  unfold addIntoSet
  induction ids generalizing s with
  | nil => simp
  | cons id rest ih =>
    rw [List.foldl_cons, ih]
    by_cases h : id ∈ s
    · simp only [h, if_true, List.mem_cons]
      constructor
      · rintro (h1 | h1)
        · exact Or.inl h1
        · exact Or.inr (Or.inr h1)
      · rintro (h1 | h1 | h1)
        · exact Or.inl h1
        · exact Or.inl (h1 ▸ h)
        · exact Or.inr h1
    · simp only [h, if_false, List.mem_append, List.mem_singleton, List.mem_cons]
      tauto

theorem mem_setIntersection (set1 set2 : List String) (x : String) :
    x ∈ setIntersection set1 set2 ↔ x ∈ set1 ∧ x ∈ set2 := by
  unfold setIntersection setUnion
  simp only [List.mem_filter, mem_addIntoSet, Bool.and_eq_true, decide_eq_true_eq]
  tauto

theorem intersectCombination_subset (games : List quizGame) (combination : List Nat)
    (intersection r : List String)
    (h : intersectCombination games combination intersection = .ok r) :
    ∀ x ∈ r, x ∈ intersection := by
  induction combination generalizing intersection with
  | nil =>
    simp only [intersectCombination, Except.ok.injEq] at h
    subst h
    exact fun x hx => hx
  | cons comb rest ih =>
    simp only [intersectCombination] at h
    cases hw : derefWinners games comb with
    | error p => rw [hw] at h; cases h
    | ok w =>
      rw [hw] at h
      intro x hx
      exact ((mem_setIntersection _ _ x).1 (ih _ h x hx)).1

theorem calculateQuizGamesWinnersInCombination_mem (games : List quizGame)
    (combination : List Nat) (winners r w0 : List String)
    (h0 : derefWinners games 0 = .ok w0)
    (h : calculateQuizGamesWinnersInCombination games combination winners = .ok r) :
    ∀ x ∈ r, x ∈ winners ∨ x ∈ w0 := by
  unfold calculateQuizGamesWinnersInCombination at h
  rw [h0] at h
  dsimp only at h
  cases hi : intersectCombination games combination (addIntoSet [] w0) with
  | error p => rw [hi] at h; cases h
  | ok inter =>
    rw [hi] at h
    simp only [Except.ok.injEq] at h
    subst h
    intro x hx
    rcases (mem_addIntoSet _ _ x).1 hx with h1 | h1
    · exact Or.inl h1
    · have h2 := intersectCombination_subset games combination _ _ hi x h1
      rcases (mem_addIntoSet _ _ x).1 h2 with h3 | h3
      · cases h3
      · exact Or.inr h3

theorem collectWinners_mem (games : List quizGame) (combinations : List (List Nat))
    (winners r w0 : List String)
    (h0 : derefWinners games 0 = .ok w0)
    (h : collectWinners games combinations winners = .ok r) :
    ∀ x ∈ r, x ∈ winners ∨ x ∈ w0 := by
  induction combinations generalizing winners with
  | nil =>
    simp only [collectWinners, Except.ok.injEq] at h
    subst h
    exact fun x hx => Or.inl hx
  | cons c rest ih =>
    simp only [collectWinners] at h
    cases hc : calculateQuizGamesWinnersInCombination games c winners with
    | error p => rw [hc] at h; cases h
    | ok w2 =>
      rw [hc] at h
      intro x hx
      rcases ih _ h x hx with h1 | h1
      · exact calculateQuizGamesWinnersInCombination_mem games c winners w2 w0 h0 hc x h1
      · exact Or.inr h1

theorem downgrade_games (l : quizGameLottery) : (downgrade l).games = l.games := by
  unfold downgrade
  dsimp only
  split_ifs <;> rfl

/-- Every user the Winner Calculator returns is a winner of round 0. -/
theorem calculateAllQuizGamesWinners_subset_first (l l2 : quizGameLottery)
    (ws w0 : List String) (h0 : derefWinners l.games 0 = .ok w0)
    (h : calculateAllQuizGamesWinners l = .ok (ws, l2)) :
    ∀ x ∈ ws, x ∈ w0 := by
  unfold calculateAllQuizGamesWinners at h
  split_ifs at h with hlen
  · rw [h0] at h
    simp only [Except.ok.injEq, Prod.mk.injEq] at h
    rw [← h.1]
    exact fun x hx => hx
  · dsimp only at h
    cases hg : NewCombinationGenerator (downgrade l).TotalQuizNum
        (downgrade l).WinnerRequiredCorrectQuizNum with
    | error p => rw [hg] at h; cases h
    | ok nk =>
      obtain ⟨n, k⟩ := nk
      rw [hg] at h
      dsimp only at h
      cases hc : collectWinners (downgrade l).games (generatedCombinations n k) [] with
      | error p => rw [hc] at h; cases h
      | ok winners =>
        rw [hc] at h
        simp only [Except.ok.injEq, Prod.mk.injEq] at h
        rw [← h.1]
        rw [downgrade_games] at hc
        intro x hx
        rcases collectWinners_mem l.games _ [] winners w0 h0 hc x hx with h1 | h1
        · cases h1
        · exact h1

/-! ## The Winner Calculator returns -/

theorem range_inRange (n k : Nat) (h : k ≤ n) : CombinationInRange n k (List.range k) := by
  refine ⟨List.length_range k, ?_⟩
  intro j hj
  have : (List.range k).getD j 0 = j := by
    rw [List.getD_eq_getElem?_getD, List.getElem?_range hj]
    rfl
  omega

theorem nextCombinationFrom_inRange (n k : Nat) (s : List Nat)
    (hs : CombinationInRange n k s) (j : Nat) (hj : j ≤ k) :
    CombinationInRange n k (nextCombinationFrom s n k j) := by
  induction j with
  | zero => exact hs
  | succ i ih =>
    simp only [nextCombinationFrom]
    split_ifs with hmax
    · exact ih (by omega)
    · obtain ⟨hlen, hb⟩ := hs
      constructor
      · simp only [List.length_append, List.length_take, List.length_map, List.length_range]
        omega
      · intro p hp
        have hi := hb i (by omega)
        by_cases hpi : p < i
        · rw [List.getD_append _ _ _ _ (by simp only [List.length_take]; omega)]
          have : (List.take i s).getD p 0 = s.getD p 0 := by
            simp only [List.getD_eq_getElem?_getD, List.getElem?_take, hpi, if_true]
          rw [this]
          exact hb p hp
        · rw [List.getD_append_right _ _ _ _ (by simp only [List.length_take]; omega)]
          have hl : (List.take i s).length = i := by simp only [List.length_take]; omega
          rw [hl]
          have : (List.map (fun d => s.getD i 0 + 1 + d) (List.range (k - i))).getD (p - i) 0
              = s.getD i 0 + 1 + (p - i) := by
            rw [List.getD_eq_getElem?_getD, List.getElem?_map,
              List.getElem?_range (by omega)]
            rfl
          rw [this]
          omega

theorem inRange_mem_lt (n k : Nat) (s : List Nat) (hs : CombinationInRange n k s) :
    ∀ x ∈ s, x < n := by
  intro x hx
  obtain ⟨hlen, hb⟩ := hs
  obtain ⟨j, hj, hjx⟩ := List.getElem_of_mem hx
  have h1 := hb j (by omega)
  have h2 : s.getD j 0 = x := by
    rw [List.getD_eq_getElem?_getD, List.getElem?_eq_getElem hj, hjx]
    rfl
  omega

theorem combinationsAfter_inRange (n k : Nat) (remaining : Nat) (prev : List Nat)
    (hp : CombinationInRange n k prev) :
    ∀ c ∈ combinationsAfter n k remaining prev, CombinationInRange n k c := by
  induction remaining generalizing prev with
  | zero => intro c hc; cases hc
  | succ r ih =>
    intro c hc
    simp only [combinationsAfter, List.mem_cons] at hc
    have hnext : CombinationInRange n k (nextCombination prev n k) :=
      nextCombinationFrom_inRange n k prev hp k (Nat.le_refl k)
    rcases hc with h1 | h1
    · rw [h1]; exact hnext
    · exact ih _ hnext c h1

theorem generatedCombinations_lt (n k : Nat) (h : k ≤ n) :
    ∀ c ∈ generatedCombinations n k, ∀ x ∈ c, x < n := by
  intro c hc
  apply inRange_mem_lt n k
  unfold generatedCombinations at hc
  split at hc
  · cases hc
  · rcases List.mem_cons.1 hc with h1 | h1
    · rw [h1]; exact range_inRange n k h
    · exact combinationsAfter_inRange n k _ _ (range_inRange n k h) c h1

theorem derefWinners_ok (games : List quizGame) (hw : ∀ g ∈ games, g.Winners ≠ none)
    (i : Nat) (hi : i < games.length) : ∃ w, derefWinners games i = .ok w := by
  unfold derefWinners
  rw [List.get?_eq_get hi]
  cases hg : (games.get ⟨i, hi⟩).Winners with
  | none => exact absurd hg (hw _ (List.get_mem games i hi))
  | some w => exact ⟨w, by simp only [hg]⟩

theorem intersectCombination_ok (games : List quizGame)
    (hw : ∀ g ∈ games, g.Winners ≠ none) (combination : List Nat)
    (hc : ∀ x ∈ combination, x < games.length) (intersection : List String) :
    ∃ r, intersectCombination games combination intersection = .ok r := by
  induction combination generalizing intersection with
  | nil => exact ⟨intersection, rfl⟩
  | cons comb rest ih =>
    obtain ⟨w, hwd⟩ := derefWinners_ok games hw comb (hc comb (List.mem_cons_self _ _))
    simp only [intersectCombination, hwd]
    exact ih (fun x hx => hc x (List.mem_cons_of_mem _ hx)) _

theorem collectWinners_ok (games : List quizGame) (hne : games ≠ [])
    (hw : ∀ g ∈ games, g.Winners ≠ none) (combinations : List (List Nat))
    (hc : ∀ c ∈ combinations, ∀ x ∈ c, x < games.length) (winners : List String) :
    ∃ r, collectWinners games combinations winners = .ok r := by
  induction combinations generalizing winners with
  | nil => exact ⟨winners, rfl⟩
  | cons c rest ih =>
    obtain ⟨w0, h0⟩ := derefWinners_ok games hw 0 (List.length_pos.2 hne)
    obtain ⟨inter, hi⟩ := intersectCombination_ok games hw c (hc c (List.mem_cons_self _ _))
      (addIntoSet [] w0)
    simp only [collectWinners, calculateQuizGamesWinnersInCombination, h0, hi]
    exact ih (fun c2 hc2 => hc c2 (List.mem_cons_of_mem _ hc2)) _

theorem downgrade_bounds (l : quizGameLottery) (hT : 0 ≤ l.TotalQuizNum)
    (hK : 0 ≤ l.WinnerRequiredCorrectQuizNum) :
    0 ≤ (downgrade l).WinnerRequiredCorrectQuizNum ∧
      (downgrade l).WinnerRequiredCorrectQuizNum ≤ (downgrade l).TotalQuizNum ∧
      (downgrade l).TotalQuizNum ≤ (l.games.length : Int) := by
  unfold downgrade
  dsimp only
  split_ifs with h1 h2 h3 <;> simp only at * <;> omega

/-- With every round's Winners written and non-negative configured counts, the Winner
Calculator returns: no index leaves the games list and the generator accepts its arguments. -/
theorem calculateAllQuizGamesWinners_returns (l : quizGameLottery) (hne : l.games ≠ [])
    (hw : ∀ g ∈ l.games, g.Winners ≠ none) (hT : 0 ≤ l.TotalQuizNum)
    (hK : 0 ≤ l.WinnerRequiredCorrectQuizNum) :
    ∃ ws l2, calculateAllQuizGamesWinners l = .ok (ws, l2) := by
  unfold calculateAllQuizGamesWinners
  split_ifs with hlen
  · obtain ⟨w, h0⟩ := derefWinners_ok l.games hw 0 (List.length_pos.2 hne)
    exact ⟨w, l, by rw [h0]⟩
  · obtain ⟨hb1, hb2, hb3⟩ := downgrade_bounds l hT hK
    have hgen : NewCombinationGenerator (downgrade l).TotalQuizNum
        (downgrade l).WinnerRequiredCorrectQuizNum =
        .ok ((downgrade l).TotalQuizNum.toNat,
          (downgrade l).WinnerRequiredCorrectQuizNum.toNat) := by
      unfold NewCombinationGenerator
      rw [if_neg (by omega), if_neg (by omega)]
    have hcomb : ∀ c ∈ generatedCombinations (downgrade l).TotalQuizNum.toNat
        (downgrade l).WinnerRequiredCorrectQuizNum.toNat, ∀ x ∈ c,
        x < (downgrade l).games.length := by
      intro c hc x hx
      have := generatedCombinations_lt _ _ (by omega) c hc x hx
      rw [downgrade_games]
      omega
    obtain ⟨r, hr⟩ := collectWinners_ok (downgrade l).games
      (by rw [downgrade_games]; exact hne) (by rw [downgrade_games]; exact hw) _ hcomb []
    dsimp only
    rw [hgen]
    dsimp only
    rw [hr]
    exact ⟨r, downgrade l, rfl⟩

/-! ## Claims about the Winner Calculator -/

/-- C1 (the code departs from the claim): on Scenario A, rounds with Winners {A,B}, {A,C},
{B,C} and K = 2, `calculateAllQuizGamesWinners` returns A and B only, although C is among
the Winners of two of the three rounds; the K-of-N rule would return {A,B,C}. -/
theorem C1_scenarioA_omits_C :
    (calculateAllQuizGamesWinners scenarioA).map Prod.fst = .ok ["A", "B"] ∧
      scenarioA.TotalQuizNum = 3 ∧ scenarioA.WinnerRequiredCorrectQuizNum = 2 ∧
      correctRoundCount scenarioA.games "C" = 2 := by
  decide

/-- C4: for a lottery with exactly one round whose Winners are written, whatever the
configured `TotalQuizNum` and `WinnerRequiredCorrectQuizNum`, `calculateAllQuizGamesWinners`
returns that round's Winners unchanged (and leaves the lottery as it was). -/
theorem C4_single_round_verbatim (l : quizGameLottery) (g : quizGame) (w : List String)
    (hg : l.games = [g]) (hw : g.Winners = some w) :
    calculateAllQuizGamesWinners l = .ok (w, l) := by
  unfold calculateAllQuizGamesWinners derefWinners
  simp [hg, hw]

theorem C4_single_round_verbatim_witness :
    calculateAllQuizGamesWinners (lotteryOf [closedRound "g1" ["B", "A", "B"]] 5 3 2) =
      .ok (["B", "A", "B"], lotteryOf [closedRound "g1" ["B", "A", "B"]] 5 3 2) :=
  C4_single_round_verbatim _ (closedRound "g1" ["B", "A", "B"]) _ rfl rfl

/-- C5 (the code departs from the claim): a lottery configured with `TotalQuizNum = 3` and
`WinnerRequiredCorrectQuizNum = 2` that held a single round leaves
`calculateAllQuizGamesWinners` with both values untouched, so the required count 2 exceeds
the one round held. -/
theorem C5_single_round_keeps_required :
    (calculateAllQuizGamesWinners (lotteryOf [closedRound "g1" ["A"]] 3 2 5)).map
        (fun r => (r.2.WinnerRequiredCorrectQuizNum, r.2.TotalQuizNum, r.2.games.length)) =
      .ok (2, 3, 1) := by
  decide

/-- With two rounds or more the downgrade does run: afterwards the required count is at
most the number of rounds. -/
theorem downgrade_required_le (l : quizGameLottery) :
    (downgrade l).WinnerRequiredCorrectQuizNum ≤ (l.games.length : Int) := by
  unfold downgrade
  dsimp only
  split_ifs with h1 h2 h3 <;> simp only at * <;> omega

/-- C6 (the code departs from the claim): a round whose Winners were never written makes
`calculateAllQuizGamesWinners` panic on the nil dereference, alone in its lottery or next to
a closed round, whereas the same lotteries with an empty Winners list return normally. -/
theorem C6_unwritten_winners_panic :
    calculateAllQuizGamesWinners (lotteryOf [unclosedRound "g1"] 1 1 5) =
        .error .nilPointerDereference ∧
      (calculateAllQuizGamesWinners (lotteryOf [closedRound "g1" []] 1 1 5)).map Prod.fst =
        .ok [] ∧
      calculateAllQuizGamesWinners
          (lotteryOf [closedRound "g1" ["A"], unclosedRound "g2"] 2 1 5) =
        .error .nilPointerDereference ∧
      (calculateAllQuizGamesWinners
          (lotteryOf [closedRound "g1" ["A"], closedRound "g2" []] 2 1 5)).map Prod.fst =
        .ok ["A"] := by
  decide

/-! ## Claims about the down-select -/

theorem sampleWinners_inv {α : Type} (allowed : Int) (winners : List α)
    (draws : List (Fin winners.length)) (dedup : List Nat) (results r : List α)
    (rest : List (Fin winners.length))
    (hinv : SampleInv allowed winners dedup results)
    (h : sampleWinners allowed winners draws dedup results = some (r, rest)) :
    ∃ dedup2, SampleInv allowed winners dedup2 r ∧ (r.length : Int) ≥ allowed := by
  induction draws generalizing dedup results with
  | nil =>
    simp only [sampleWinners] at h
    split_ifs at h with hge
    simp only [Option.some.injEq, Prod.mk.injEq] at h
    rw [← h.1]
    exact ⟨dedup, hinv, hge⟩
  | cons idx tail ih =>
    simp only [sampleWinners] at h
    split_ifs at h with hge hmem
    · simp only [Option.some.injEq, Prod.mk.injEq] at h
      rw [← h.1]
      exact ⟨dedup, hinv, hge⟩
    · exact ih dedup results hinv h
    · refine ih (idx.val :: dedup) (results ++ [winners.get idx]) ?_ h
      obtain ⟨taken, hnd, hiff, hres, hlen⟩ := hinv
      refine ⟨taken ++ [idx], ?_, ?_, ?_, ?_⟩
      · rw [List.nodup_append]
        refine ⟨hnd, List.nodup_singleton idx, ?_⟩
        intro a ha hb
        rw [List.mem_singleton] at hb
        subst hb
        exact hmem ((hiff a).2 ha)
      · intro i
        simp only [List.mem_cons, List.mem_append, List.mem_singleton, List.mem_nil_iff,
          or_false, hiff i]
        constructor
        · rintro (h1 | h1)
          · exact Or.inr (Fin.ext h1)
          · exact Or.inl h1
        · rintro (h1 | h1)
          · exact Or.inr h1
          · exact Or.inl (congrArg Fin.val h1)
      · rw [hres, List.map_append, List.map_singleton]
      · have hl : results.length = taken.length := by rw [hres, List.length_map]
        rw [List.length_append, List.length_singleton]
        push_cast
        rw [hl] at hge
        omega

theorem sampleWinners_enough {α : Type} (allowed : Int) (winners : List α)
    (draws : List (Fin winners.length)) (dedup : List Nat) (results : List α)
    (hnd : draws.Nodup) (hfresh : ∀ i ∈ draws, i.val ∉ dedup)
    (hlen : allowed ≤ (results.length : Int) + (draws.length : Int)) :
    (sampleWinners allowed winners draws dedup results).isSome = true := by
  induction draws generalizing dedup results with
  | nil =>
    simp only [sampleWinners]
    have : (results.length : Int) ≥ allowed := by simpa using hlen
    simp [this]
  | cons idx tail ih =>
    simp only [sampleWinners]
    split_ifs with hge hmem
    · rfl
    · exact absurd hmem (hfresh idx (List.mem_cons_self _ _))
    · rw [List.nodup_cons] at hnd
      apply ih _ _ hnd.2
      · intro i hi
        rw [List.mem_cons, not_or]
        refine ⟨?_, hfresh i (List.mem_cons_of_mem _ hi)⟩
        intro heq
        exact hnd.1 (Fin.ext heq ▸ hi)
      · rw [List.length_append, List.length_singleton]
        rw [List.length_cons] at hlen
        push_cast at hlen ⊢
        omega

/-- C2: for a duplicate-free winner list longer than `AllowedWinnerNum >= 1`, some sequence of
draws ends the loop, and on every sequence of draws that ends it `finalizeQuizGamesWinners`
returns exactly `AllowedWinnerNum` entries, pairwise distinct, each an element of the input
list. -/
theorem C2_down_select_above_cap {α : Type} (l : quizGameLottery) (winners : List α)
    (hnodup : winners.Nodup) (hcap : (winners.length : Int) > l.AllowedWinnerNum)
    (hpos : 1 ≤ l.AllowedWinnerNum) :
    (∃ draws, (finalizeQuizGamesWinners l winners draws).isSome = true) ∧
      ∀ draws r rest, finalizeQuizGamesWinners l winners draws = some (r, rest) →
        (r.length : Int) = l.AllowedWinnerNum ∧ r.Nodup ∧ ∀ x ∈ r, x ∈ winners := by
  have hnot : ¬ (winners.length : Int) ≤ l.AllowedWinnerNum := not_le.2 hcap
  constructor
  · refine ⟨List.finRange winners.length, ?_⟩
    unfold finalizeQuizGamesWinners
    rw [if_neg hnot]
    apply sampleWinners_enough _ _ _ _ _ (List.nodup_finRange _)
    · intro i _ hi
      cases hi
    · simp only [List.length_nil, List.length_finRange]
      push_cast
      omega
  · intro draws r rest h
    unfold finalizeQuizGamesWinners at h
    rw [if_neg hnot] at h
    have hinit : SampleInv l.AllowedWinnerNum winners [] ([] : List α) :=
      ⟨[], List.nodup_nil, fun i => by simp, rfl, by simpa using (by omega : (0 : Int) ≤ l.AllowedWinnerNum)⟩
    obtain ⟨dedup2, ⟨taken, hnd, _, hres, hlen⟩, hge⟩ :=
      sampleWinners_inv _ _ _ _ _ _ _ hinit h
    have hl : r.length = taken.length := by rw [hres, List.length_map]
    refine ⟨?_, ?_, ?_⟩
    · rw [hl] at hge ⊢
      omega
    · rw [hres]
      exact hnd.map (List.nodup_iff_injective_get.1 hnodup)
    · intro x hx
      rw [hres, List.mem_map] at hx
      obtain ⟨i, _, hi⟩ := hx
      rw [← hi]
      exact List.get_mem winners i.val i.isLt

theorem C2_down_select_above_cap_witness :
    (["A", "B", "C"] : List String).Nodup ∧
      ((["A", "B", "C"] : List String).length : Int) > scenarioA.AllowedWinnerNum ∧
      1 ≤ scenarioA.AllowedWinnerNum ∧
      finalizeQuizGamesWinners scenarioA ["A", "B", "C"] ([2, 2, 0, 1] : List (Fin 3)) =
        some (["C", "A"], ([1] : List (Fin 3))) ∧
      (((["C", "A"] : List String).length : Int) = scenarioA.AllowedWinnerNum ∧
        (["C", "A"] : List String).Nodup ∧
        ∀ x ∈ (["C", "A"] : List String), x ∈ (["A", "B", "C"] : List String)) :=
  ⟨by decide, by decide, by decide, by decide,
    (C2_down_select_above_cap scenarioA ["A", "B", "C"] (by decide) (by decide)
      (by decide)).2 ([2, 2, 0, 1] : List (Fin 3)) ["C", "A"] ([1] : List (Fin 3)) (by decide)⟩

/-- C3: a winner list no longer than `AllowedWinnerNum` is returned unchanged, same elements
in the same order, and no draw is consumed. -/
theorem C3_at_or_below_cap_identity {α : Type} (l : quizGameLottery) (winners : List α)
    (draws : List (Fin winners.length))
    (hcap : (winners.length : Int) ≤ l.AllowedWinnerNum) :
    finalizeQuizGamesWinners l winners draws = some (winners, draws) := by
  unfold finalizeQuizGamesWinners
  rw [if_pos hcap]

theorem C3_at_or_below_cap_identity_witness :
    ((["B", "A"] : List String).length : Int) ≤ scenarioA.AllowedWinnerNum ∧
      finalizeQuizGamesWinners scenarioA ["B", "A"] ([1, 1, 0] : List (Fin 2)) =
        some (["B", "A"], ([1, 1, 0] : List (Fin 2))) :=
  ⟨by decide, C3_at_or_below_cap_identity scenarioA ["B", "A"] ([1, 1, 0] : List (Fin 2))
    (by decide)⟩

theorem sampleWinners_subset {α : Type} (allowed : Int) (winners : List α)
    (draws : List (Fin winners.length)) (dedup : List Nat) (results r : List α)
    (rest : List (Fin winners.length)) (hres : ∀ x ∈ results, x ∈ winners)
    (h : sampleWinners allowed winners draws dedup results = some (r, rest)) :
    ∀ x ∈ r, x ∈ winners := by
  induction draws generalizing dedup results with
  | nil =>
    simp only [sampleWinners] at h
    split_ifs at h
    simp only [Option.some.injEq, Prod.mk.injEq] at h
    rw [← h.1]
    exact hres
  | cons idx tail ih =>
    simp only [sampleWinners] at h
    split_ifs at h
    · simp only [Option.some.injEq, Prod.mk.injEq] at h
      rw [← h.1]
      exact hres
    · exact ih dedup results hres h
    · refine ih _ _ ?_ h
      intro x hx
      rcases List.mem_append.1 hx with h1 | h1
      · exact hres x h1
      · rw [List.mem_singleton] at h1
        rw [h1]
        exact List.get_mem winners idx.val idx.isLt

theorem finalizeQuizGamesWinners_subset {α : Type} (l : quizGameLottery) (winners : List α)
    (draws : List (Fin winners.length)) (r : List α) (rest : List (Fin winners.length))
    (h : finalizeQuizGamesWinners l winners draws = some (r, rest)) :
    ∀ x ∈ r, x ∈ winners := by
  unfold finalizeQuizGamesWinners at h
  split_ifs at h
  · simp only [Option.some.injEq, Prod.mk.injEq] at h
    rw [← h.1]
    exact fun x hx => hx
  · exact sampleWinners_subset _ _ _ _ _ _ _ (fun x hx => by cases hx) h

/-- C9: for a lottery with at least one round and all rounds' Winners written, whenever
`calculateAllQuizGamesWinners` returns a list and `finalizeQuizGamesWinners`, applied to that
list in any order and with any draws, returns the final winners, every final winner is in the
Winners of some round of the lottery. -/
theorem C9_final_winners_from_round_winners (l l2 : quizGameLottery)
    (ws ordered : List String) (draws : List (Fin ordered.length)) (r : List String)
    (rest : List (Fin ordered.length)) (hne : l.games ≠ [])
    (hwritten : ∀ g ∈ l.games, g.Winners ≠ none)
    (hcalc : calculateAllQuizGamesWinners l = .ok (ws, l2)) (hperm : ordered.Perm ws)
    (hfin : finalizeQuizGamesWinners l2 ordered draws = some (r, rest)) :
    ∀ u ∈ r, ∃ g ∈ l.games, ∃ w, g.Winners = some w ∧ u ∈ w := by
  cases hgames : l.games with
  | nil => exact absurd hgames hne
  | cons g0 tail =>
    have hg0 : g0 ∈ l.games := by rw [hgames]; exact List.mem_cons_self _ _
    cases hw : g0.Winners with
    | none => exact absurd hw (hwritten g0 hg0)
    | some w0 =>
      have h0 : derefWinners l.games 0 = .ok w0 := by
        unfold derefWinners
        simp [hgames, hw]
      intro u hu
      have h1 := finalizeQuizGamesWinners_subset l2 ordered draws r rest hfin u hu
      have h2 := calculateAllQuizGamesWinners_subset_first l l2 ws w0 h0 hcalc u
        (hperm.mem_iff.1 h1)
      exact ⟨g0, List.mem_cons_self _ _, w0, hw, h2⟩

theorem C9_final_winners_from_round_winners_witness :
    (lotteryOf scenarioA.games 3 2 1).games ≠ [] ∧
      (∀ g ∈ (lotteryOf scenarioA.games 3 2 1).games, g.Winners ≠ none) ∧
      calculateAllQuizGamesWinners (lotteryOf scenarioA.games 3 2 1) =
        .ok (["A", "B"], lotteryOf scenarioA.games 3 2 1) ∧
      (["B", "A"] : List String).Perm ["A", "B"] ∧
      finalizeQuizGamesWinners (lotteryOf scenarioA.games 3 2 1) ["B", "A"]
        ([1, 1, 0] : List (Fin 2)) = some (["A"], ([1, 0] : List (Fin 2))) ∧
      ∀ u ∈ (["A"] : List String),
        ∃ g ∈ (lotteryOf scenarioA.games 3 2 1).games, ∃ w, g.Winners = some w ∧ u ∈ w :=
  ⟨by decide, by decide, by decide, by decide, by decide,
    C9_final_winners_from_round_winners (lotteryOf scenarioA.games 3 2 1)
      (lotteryOf scenarioA.games 3 2 1) ["A", "B"] ["B", "A"] ([1, 1, 0] : List (Fin 2)) ["A"]
      ([1, 0] : List (Fin 2)) (by decide) (by decide) (by decide) (by decide) (by decide)⟩

/-! ## Claims about a round's window and close -/

theorem Expired_of_second_past (g : quizGame) (now : Int)
    (h : g.SendQuizAt + (g.TimeLimitSec + 1) * nanosPerSecond ≤ now) :
    g.Expired now = true := by
  unfold quizGame.Expired
  unfold nanosPerSecond at h ⊢
  simp only [gt_iff_lt, decide_eq_true_eq]
  have h0 : 0 ≤ now - g.SendQuizAt ∨ now - g.SendQuizAt < 0 := by omega
  rcases h0 with h0 | h0
  · rw [Int.tdiv_eq_ediv h0 (by norm_num)]
    omega
  · have hneg : now - g.SendQuizAt = -(-(now - g.SendQuizAt)) := by omega
    rw [hneg, Int.neg_tdiv, Int.tdiv_eq_ediv (by omega) (by norm_num)]
    omega

/-- C7 (the code departs from the claim): a round is due at instant 0 with a limit of 30
seconds, so `ongoing` closes it at 30 s.  Half a second later the test of `Play` for a game
that is already over holds, yet `Expired` is false, and a vote cast then is accepted and
written to the store. -/
theorem C7_accepted_after_deadline :
    (openRound "g1" none).SendQuizAt + (openRound "g1" none).TimeLimitSec * nanosPerSecond <
        30500000000 ∧
      (openRound "g1" none).closeInstant < 30500000000 ∧
      (openRound "g1" none).alreadyOver 30500000000 = true ∧
      (openRound "g1" none).Expired 30500000000 = false ∧
      ((openRound "g1" none).participate [] 30500000000 30500000000 true "u" "1").participated
        = true ∧
      ((openRound "g1" none).participate [] 30500000000 30500000000 true "u" "1").failed
        = false ∧
      ((openRound "g1" none).participate [] 30500000000 30500000000 true "u" "1").cache =
        [("quiz_game_participants:g1", [("u", "1&30500")])] := by
  decide

/-- For every round and every instant `now` at least one whole second past the deadline,
that is `now >= SendQuizAt + (TimeLimitSec + 1)` seconds, `participate` returns not-accepted
without error and leaves the store unchanged; a vote is accepted only if
`now < SendQuizAt + (TimeLimitSec + 1)` seconds. -/
theorem participate_window (g : quizGame) (cache : RedisCache) (now stamp : Int)
    (redisOk : Bool) (discordUserID optionID : String) :
    (g.SendQuizAt + (g.TimeLimitSec + 1) * nanosPerSecond ≤ now →
        g.participate cache now stamp redisOk discordUserID optionID =
          { participated := false, failed := false, cache := cache }) ∧
      ((g.participate cache now stamp redisOk discordUserID optionID).participated = true →
        now < g.SendQuizAt + (g.TimeLimitSec + 1) * nanosPerSecond) := by
  constructor
  · intro h
    unfold quizGame.participate
    rw [if_pos (Expired_of_second_past g now h)]
  · intro h
    by_contra hlt
    have hexp := Expired_of_second_past g now (not_lt.1 hlt)
    unfold quizGame.participate at h
    rw [if_pos hexp] at h
    cases h

theorem participate_window_witness :
    ((openRound "g1" none).SendQuizAt + ((openRound "g1" none).TimeLimitSec + 1) * nanosPerSecond
        ≤ 31000000000 ∧
      (openRound "g1" none).participate [] 31000000000 31000000000 true "u" "1" =
        { participated := false, failed := false, cache := [] }) ∧
      (((openRound "g1" none).participate [] 30999999999 30999999999 true "u" "1").participated
          = true ∧
        30999999999 < (openRound "g1" none).SendQuizAt +
          ((openRound "g1" none).TimeLimitSec + 1) * nanosPerSecond) :=
  ⟨⟨by decide, (participate_window (openRound "g1" none) [] 31000000000 31000000000
      true "u" "1").1 (by decide)⟩,
    ⟨by decide, (participate_window (openRound "g1" none) [] 30999999999 30999999999
      true "u" "1").2 (by decide)⟩⟩

/-- C8 (the claim as stated fails): on an empty participation record `finalizeParticipateInfo`
writes nothing.  A round whose record already lists X among its Winners keeps X, who has no
entry; a round with unset results keeps them unset. -/
theorem C8_empty_record_writes_nothing :
    ((openRound "g1" (some ["X"])).finalizeParticipateInfo (some [])).2.Winners = some ["X"] ∧
      ((openRound "g1" (some ["X"])).finalizeParticipateInfo (some [])).2.Participants =
        some ["X"] ∧
      ((openRound "g1" none).finalizeParticipateInfo (some [])).2.Winners = none ∧
      ((openRound "g1" none).finalizeParticipateInfo (some [])).2.Participants = none := by
  decide

/-- C8 (amended): for every non-empty participation record read at a round's close,
`finalizeParticipateInfo` sets Participants to exactly the users with an entry and Winners to
exactly the users whose recorded option id equals the round's correct option id, so Winners
is a subset of Participants and a user with no entry is in neither; for an empty record it
returns without error and leaves the round as it was. -/
theorem C8_close_partition (g : quizGame) (participates : RedisHash) :
    (participates ≠ [] →
      ∃ ps ws, (g.finalizeParticipateInfo (some participates)).1 = false ∧
        (g.finalizeParticipateInfo (some participates)).2.Participants = some ps ∧
        (g.finalizeParticipateInfo (some participates)).2.Winners = some ws ∧
        (∀ u, u ∈ ps ↔ ∃ info, (u, info) ∈ participates) ∧
        (∀ u, u ∈ ws ↔ ∃ info, (u, info) ∈ participates ∧
          recordedOption info = g.CorrectAnswerOptionCustomID) ∧
        (∀ u ∈ ws, u ∈ ps) ∧
        (∀ u, (¬ ∃ info, (u, info) ∈ participates) → u ∉ ps ∧ u ∉ ws)) ∧
      (participates = [] → g.finalizeParticipateInfo (some participates) = (false, g)) := by
  constructor
  · intro hne
    have hlen : ¬ participates.length = 0 := fun h => hne (List.length_eq_zero.1 h)
    have hps : ∀ u, u ∈ participates.map (fun e => e.1) ↔ ∃ info, (u, info) ∈ participates := by
      intro u
      simp only [List.mem_map, Prod.exists, exists_and_right, exists_eq_right]
    have hws : ∀ u, u ∈ (participates.filter
        (fun e => decide (recordedOption e.2 = g.CorrectAnswerOptionCustomID))).map
          (fun e => e.1) ↔ ∃ info, (u, info) ∈ participates ∧
            recordedOption info = g.CorrectAnswerOptionCustomID := by
      intro u
      simp only [List.mem_map, List.mem_filter, decide_eq_true_eq, Prod.exists,
        exists_and_right, exists_eq_right]
    refine ⟨_, _, ?_, ?_, ?_, hps, hws, ?_, ?_⟩
    · simp only [quizGame.finalizeParticipateInfo, if_neg hlen]
    · simp only [quizGame.finalizeParticipateInfo, if_neg hlen]
    · simp only [quizGame.finalizeParticipateInfo, if_neg hlen]
    · intro u hu
      obtain ⟨info, hin, _⟩ := (hws u).1 hu
      exact (hps u).2 ⟨info, hin⟩
    · intro u hno
      refine ⟨fun h => hno ((hps u).1 h), fun h => hno ?_⟩
      obtain ⟨info, hin, _⟩ := (hws u).1 h
      exact ⟨info, hin⟩
  · intro he
    subst he
    rfl

theorem C8_close_partition_witness :
    (([("u1", "1&5"), ("u2", "2&6")] : RedisHash) ≠ [] ∧
      (∃ ps ws,
        ((openRound "g1" none).finalizeParticipateInfo
            (some [("u1", "1&5"), ("u2", "2&6")])).1 = false ∧
        ((openRound "g1" none).finalizeParticipateInfo
            (some [("u1", "1&5"), ("u2", "2&6")])).2.Participants = some ps ∧
        ((openRound "g1" none).finalizeParticipateInfo
            (some [("u1", "1&5"), ("u2", "2&6")])).2.Winners = some ws ∧
        (∀ u, u ∈ ps ↔ ∃ info, (u, info) ∈ ([("u1", "1&5"), ("u2", "2&6")] : RedisHash)) ∧
        (∀ u, u ∈ ws ↔ ∃ info, (u, info) ∈ ([("u1", "1&5"), ("u2", "2&6")] : RedisHash) ∧
          recordedOption info = (openRound "g1" none).CorrectAnswerOptionCustomID) ∧
        (∀ u ∈ ws, u ∈ ps) ∧
        (∀ u, (¬ ∃ info, (u, info) ∈ ([("u1", "1&5"), ("u2", "2&6")] : RedisHash)) →
          u ∉ ps ∧ u ∉ ws))) ∧
      (([] : RedisHash) = [] ∧
        (openRound "g1" none).finalizeParticipateInfo (some []) =
          (false, openRound "g1" none)) :=
  ⟨⟨by decide, (C8_close_partition (openRound "g1" none)
      [("u1", "1&5"), ("u2", "2&6")]).1 (by decide)⟩,
    ⟨rfl, (C8_close_partition (openRound "g1" none) []).2 rfl⟩⟩

/-! ## The counter and the ready-to-finalize signal -/

theorem runningCount_cons (g : quizGame) (rest : List quizGame) :
    runningCount (g :: rest) = runningOne g + runningCount rest := rfl

theorem runningCount_append (a b : List quizGame) :
    runningCount (a ++ b) = runningCount a + runningCount b := by
  induction a with
  | nil => simp [runningCount]
  | cons g rest ih =>
    rw [List.cons_append, runningCount_cons, runningCount_cons, ih]
    omega

theorem runningCount_eq_zero (gs : List quizGame) (h : runningCount gs = 0) :
    ∀ g ∈ gs, g.taskRunning = false := by
  induction gs with
  | nil => intro g hg; cases hg
  | cons g0 rest ih =>
    rw [runningCount_cons] at h
    intro g hg
    rcases List.mem_cons.1 hg with h1 | h1
    · subst h1
      unfold runningOne at h
      cases ht : g.taskRunning with
      | false => rfl
      | true => rw [ht] at h; simp at h
    · exact ih (by omega) g h1

theorem Terminate_running (g g2 : quizGame) (deleteOk : Bool)
    (h : g.Terminate deleteOk = .ok g2) : runningOne g2 = runningOne g := by
  unfold quizGame.Terminate at h
  split at h
  · simp only [Except.ok.injEq] at h
    rw [← h]
    rfl
  · split at h
    · cases h
    · split_ifs at h
      · simp only [Except.ok.injEq] at h
        rw [← h]
        rfl
  · cases h

theorem replaceGame_running (game : quizGame) (deleteOk : Bool) (gs gs2 : List quizGame)
    (old : quizGame) (h : replaceGame game deleteOk gs = some (.ok (gs2, old))) :
    runningCount gs2 + runningOne old = runningCount gs + 1 := by
  induction gs generalizing gs2 with
  | nil => simp [replaceGame] at h
  | cons curr rest ih =>
    simp only [replaceGame] at h
    split_ifs at h with hid
    · cases ht : curr.Terminate deleteOk with
      | error e => rw [ht] at h; simp at h
      | ok o =>
        rw [ht] at h
        simp only [Option.some.injEq, Except.ok.injEq, Prod.mk.injEq] at h
        obtain ⟨h1, h2⟩ := h
        subst h1
        subst h2
        have hr := Terminate_running curr o deleteOk ht
        have hs : runningOne { game with phase := TaskPhase.spawned } = 1 := rfl
        rw [runningCount_cons, runningCount_cons, hs, hr]
        omega
    · cases hrec : replaceGame game deleteOk rest with
      | none => rw [hrec] at h; simp at h
      | some r =>
        cases r with
        | error e => rw [hrec] at h; simp at h
        | ok pr =>
          obtain ⟨games, o⟩ := pr
          rw [hrec] at h
          simp only [Option.some.injEq, Except.ok.injEq, Prod.mk.injEq] at h
          obtain ⟨h1, h2⟩ := h
          subst h1
          subst h2
          have := ih games hrec
          rw [runningCount_cons, runningCount_cons]
          omega

theorem removeGameLoop_running (gameID : String) (deleteOk : Bool) (gs : List quizGame) :
    match removeGameLoop gameID deleteOk gs with
    | .error (_, gs2) => runningCount gs2 = runningCount gs
    | .ok (kept, removed) => runningCount kept + runningCount removed = runningCount gs := by
  induction gs with
  | nil => simp [removeGameLoop, runningCount]
  | cons g rest ih =>
    simp only [removeGameLoop]
    split_ifs with hid
    · cases ht : g.Terminate deleteOk with
      | error e => simp
      | ok g2 =>
        have hr := Terminate_running g g2 deleteOk ht
        cases hrec : removeGameLoop gameID deleteOk rest with
        | error er =>
          rw [hrec] at ih
          simp only [runningCount_cons] at ih ⊢
          omega
        | ok pr =>
          rw [hrec] at ih
          simp only [runningCount_cons] at ih ⊢
          omega
    · cases hrec : removeGameLoop gameID deleteOk rest with
      | error er =>
        rw [hrec] at ih
        simp only [runningCount_cons] at ih ⊢
        omega
      | ok pr =>
        rw [hrec] at ih
        simp only [runningCount_cons] at ih ⊢
        omega

theorem taskStep_running (count : Int) (chan : Nat) (g : quizGame) (ev : TaskEvent) :
    (runningOne g : Int) =
      (runningOne (taskStep count chan g ev).1 : Int) + (taskStep count chan g ev).2.1 := by
  cases ev with
  | playBegin =>
    simp only [taskStep]
    split_ifs with h1 h2
    · simp [runningOne, quizGame.taskRunning, h1]
    · simp [runningOne, quizGame.taskRunning, h1]
    · simp
  | upcomingStep ev =>
    simp only [taskStep]
    split_ifs with h1
    · simp [runningOne, quizGame.taskRunning, h1.1]
    · simp
  | ongoingStep ev =>
    simp only [taskStep]
    split_ifs with h1
    · simp [runningOne, quizGame.taskRunning, h1.1]
    · simp
  | loadCheck =>
    simp only [taskStep]
    split_ifs with h1 h2
    · simp [runningOne, quizGame.taskRunning, h1]
    · simp [runningOne, quizGame.taskRunning, h1]
    · simp
  | send =>
    simp only [taskStep]
    split_ifs with h1
    · simp [runningOne, quizGame.taskRunning, h1.1]
    · simp

theorem taskStep_signal (count : Int) (chan : Nat) (g : quizGame) (ev : TaskEvent) :
    (taskStep count chan g ev).2.2 = 0 ∨
      ((taskStep count chan g ev).2.2 = 1 ∧ ev = .send ∧ g.phase = .sending) := by
  cases ev with
  | playBegin => simp only [taskStep]; split_ifs <;> simp
  | upcomingStep ev => simp only [taskStep]; split_ifs <;> simp
  | ongoingStep ev => simp only [taskStep]; split_ifs <;> simp
  | loadCheck => simp only [taskStep]; split_ifs <;> simp
  | send =>
    simp only [taskStep]
    split_ifs with h1
    · exact Or.inr ⟨rfl, trivial, h1.1⟩
    · simp

theorem stepTaskAt_running (count : Int) (chan : Nat) (ev : TaskEvent) (gs : List quizGame)
    (i : Nat) :
    (runningCount gs : Int) =
      (runningCount (stepTaskAt count chan ev gs i).1 : Int) +
        (stepTaskAt count chan ev gs i).2.1 := by
  induction gs generalizing i with
  | nil => simp [stepTaskAt, runningCount]
  | cons g rest ih =>
    cases i with
    | zero =>
      simp only [stepTaskAt, runningCount_cons]
      have := taskStep_running count chan g ev
      push_cast
      omega
    | succ j =>
      simp only [stepTaskAt, runningCount_cons]
      have := ih j
      push_cast
      omega

theorem stepTaskAt_signal (count : Int) (chan : Nat) (ev : TaskEvent) (gs : List quizGame)
    (i : Nat) :
    (stepTaskAt count chan ev gs i).2.2 = 0 ∨
      ((stepTaskAt count chan ev gs i).2.2 = 1 ∧ ev = .send ∧
        ∃ g, gs.get? i = some g ∧ g.phase = .sending) := by
  induction gs generalizing i with
  | nil => simp [stepTaskAt]
  | cons g rest ih =>
    cases i with
    | zero =>
      rcases taskStep_signal count chan g ev with h | ⟨h1, h2, h3⟩
      · exact Or.inl h
      · exact Or.inr ⟨h1, h2, g, rfl, h3⟩
    | succ j => exact ih j

theorem stepTaskAt_loadCheck_count (count : Int) (chan : Nat) (gs : List quizGame) (i : Nat) :
    (stepTaskAt count chan .loadCheck gs i).2.1 = 0 := by
  induction gs generalizing i with
  | nil => rfl
  | cons g rest ih =>
    cases i with
    | zero =>
      simp only [stepTaskAt, taskStep]
      split_ifs <;> rfl
    | succ j => exact ih j

theorem stepTaskAt_loadCheck_phase (chan : Nat) (gs : List quizGame) (i : Nat) (g : quizGame)
    (hg : gs.get? i = some g) (hp : g.phase = .decremented) :
    ∃ g2, (stepTaskAt 0 chan .loadCheck gs i).1.get? i = some g2 ∧ g2.phase = .sending := by
  induction gs generalizing i with
  | nil => simp at hg
  | cons g0 rest ih =>
    cases i with
    | zero =>
      simp only [List.get?_cons_zero, Option.some.injEq] at hg
      subst hg
      refine ⟨{ g0 with phase := .sending }, ?_, rfl⟩
      simp [stepTaskAt, taskStep, hp]
    | succ j =>
      simp only [List.get?_cons_succ] at hg
      obtain ⟨g2, h1, h2⟩ := ih j hg
      exact ⟨g2, by simpa [stepTaskAt] using h1, h2⟩

theorem AddGame_chan (l : quizGameLottery) (game : quizGame) (deleteOk : Bool) :
    (l.AddGame game deleteOk).2.finalizeLotteryChan = l.finalizeLotteryChan := by
  unfold quizGameLottery.AddGame quizGameLottery.updateGameLocked
    quizGameLottery.addNewGameLocked quizGameLottery.StartGame
  split_ifs
  · split <;> rfl
  · rfl

theorem RemoveGame_chan (l : quizGameLottery) (gameID : String) (deleteOk : Bool) :
    (l.RemoveGame gameID deleteOk).2.finalizeLotteryChan = l.finalizeLotteryChan := by
  unfold quizGameLottery.RemoveGame
  split_ifs
  · split <;> rfl
  · rfl

theorem AddGame_inv (l : quizGameLottery) (game : quizGame) (deleteOk : Bool)
    (h : CounterInv l) : CounterInv (l.AddGame game deleteOk).2 := by
  unfold CounterInv at h ⊢
  unfold quizGameLottery.AddGame
  split_ifs
  · unfold quizGameLottery.updateGameLocked
    cases hr : replaceGame game deleteOk l.games with
    | none => exact h
    | some r =>
      cases r with
      | error e => exact h
      | ok pr =>
        obtain ⟨games, old⟩ := pr
        have h1 := replaceGame_running game deleteOk l.games games old hr
        simp only [quizGameLottery.StartGame, runningCount_append, runningCount_cons]
        have h2 : runningCount ([] : List quizGame) = 0 := rfl
        rw [h2, h]
        push_cast
        omega
  · simp only [quizGameLottery.addNewGameLocked, quizGameLottery.StartGame,
      runningCount_append, runningCount_cons]
    have h2 : runningCount ([] : List quizGame) = 0 := rfl
    have h3 : runningOne { game with phase := TaskPhase.spawned } = 1 := rfl
    rw [h2, h3, h]
    push_cast
    omega

theorem RemoveGame_inv (l : quizGameLottery) (gameID : String) (deleteOk : Bool)
    (h : CounterInv l) : CounterInv (l.RemoveGame gameID deleteOk).2 := by
  unfold CounterInv at h ⊢
  unfold quizGameLottery.RemoveGame
  split_ifs
  · have h1 := removeGameLoop_running gameID deleteOk l.games
    cases hr : removeGameLoop gameID deleteOk l.games with
    | error er =>
      obtain ⟨e, games⟩ := er
      rw [hr] at h1
      simp only at h1 ⊢
      rw [h1, h]
    | ok pr =>
      obtain ⟨kept, removed⟩ := pr
      rw [hr] at h1
      simp only [runningCount_append] at h1 ⊢
      rw [h]
      push_cast
      omega
  · exact h

theorem stepTask_inv (l : quizGameLottery) (ref : TaskRef) (ev : TaskEvent)
    (h : CounterInv l) : CounterInv (l.stepTask ref ev) := by
  unfold CounterInv at h ⊢
  cases ref with
  | inGames i =>
    have h1 := stepTaskAt_running l.wait2BeFinishedGameCount l.finalizeLotteryChan ev l.games i
    simp only [quizGameLottery.stepTask]
    omega
  | inDetached i =>
    have h1 := stepTaskAt_running l.wait2BeFinishedGameCount l.finalizeLotteryChan ev
      l.detached i
    simp only [quizGameLottery.stepTask]
    omega

theorem step_inv (l : quizGameLottery) (e : LotteryEvent) (h : CounterInv l) :
    CounterInv (l.step e) := by
  cases e with
  | addGame game deleteOk => exact AddGame_inv l game deleteOk h
  | removeGame gameID deleteOk => exact RemoveGame_inv l gameID deleteOk h
  | task ref ev => exact stepTask_inv l ref ev h

theorem run_inv (l : quizGameLottery) (events : List LotteryEvent) (h : CounterInv l) :
    CounterInv (l.run events) := by
  unfold quizGameLottery.run
  induction events generalizing l with
  | nil => exact h
  | cons e rest ih => exact ih (l.step e) (step_inv l e h)

theorem newQuizGameLottery_inv (lottery : DiscordQuizGameLottery) :
    CounterInv (newQuizGameLottery lottery) := by
  simp [CounterInv, newQuizGameLottery, runningCount]

theorem emits_only_by_send (l : quizGameLottery) (e : LotteryEvent)
    (h : l.emits e = true) : ∃ ref, e = .task ref .send ∧ l.phaseAt ref = .sending := by
  unfold quizGameLottery.emits at h
  rw [decide_eq_true_eq] at h
  cases e with
  | addGame game deleteOk =>
    simp only [quizGameLottery.step, AddGame_chan] at h
    omega
  | removeGame gameID deleteOk =>
    simp only [quizGameLottery.step, RemoveGame_chan] at h
    omega
  | task ref ev =>
    cases ref with
    | inGames i =>
      simp only [quizGameLottery.step, quizGameLottery.stepTask] at h
      rcases stepTaskAt_signal l.wait2BeFinishedGameCount l.finalizeLotteryChan ev l.games i
        with h1 | ⟨_, h2, g, h3, h4⟩
      · omega
      · refine ⟨.inGames i, by rw [h2], ?_⟩
        simp only [quizGameLottery.phaseAt, quizGameLottery.roundAt, h3, h4]
    | inDetached i =>
      simp only [quizGameLottery.step, quizGameLottery.stepTask] at h
      rcases stepTaskAt_signal l.wait2BeFinishedGameCount l.finalizeLotteryChan ev l.detached i
        with h1 | ⟨_, h2, g, h3, h4⟩
      · omega
      · refine ⟨.inDetached i, by rw [h2], ?_⟩
        simp only [quizGameLottery.phaseAt, quizGameLottery.roundAt, h3, h4]

theorem readsZero_step (l : quizGameLottery) (e : LotteryEvent) (h : l.readsZero e = true) :
    (l.step e).wait2BeFinishedGameCount = 0 ∧
      ∃ ref, e = .task ref .loadCheck ∧ (l.step e).phaseAt ref = .sending := by
  cases e with
  | addGame game deleteOk => simp [quizGameLottery.readsZero] at h
  | removeGame gameID deleteOk => simp [quizGameLottery.readsZero] at h
  | task ref ev =>
    cases ev with
    | playBegin => simp [quizGameLottery.readsZero] at h
    | upcomingStep ev => simp [quizGameLottery.readsZero] at h
    | ongoingStep ev => simp [quizGameLottery.readsZero] at h
    | send => simp [quizGameLottery.readsZero] at h
    | loadCheck =>
      simp only [quizGameLottery.readsZero, Bool.and_eq_true, decide_eq_true_eq] at h
      obtain ⟨hp, hz⟩ := h
      unfold quizGameLottery.phaseAt at hp
      cases ref with
      | inGames i =>
        cases hr : l.roundAt (.inGames i) with
        | none => rw [hr] at hp; simp at hp
        | some g =>
          rw [hr] at hp
          simp only [quizGameLottery.roundAt] at hr
          simp only at hp
          have hc := stepTaskAt_loadCheck_count l.wait2BeFinishedGameCount
            l.finalizeLotteryChan l.games i
          obtain ⟨g2, h1, h2⟩ := stepTaskAt_loadCheck_phase l.finalizeLotteryChan l.games i g
            hr hp
          refine ⟨?_, .inGames i, rfl, ?_⟩
          · simp only [quizGameLottery.step, quizGameLottery.stepTask, hc]
            omega
          · simp only [quizGameLottery.step, quizGameLottery.stepTask,
              quizGameLottery.phaseAt, quizGameLottery.roundAt, hz, h1, h2]
      | inDetached i =>
        cases hr : l.roundAt (.inDetached i) with
        | none => rw [hr] at hp; simp at hp
        | some g =>
          rw [hr] at hp
          simp only [quizGameLottery.roundAt] at hr
          simp only at hp
          have hc := stepTaskAt_loadCheck_count l.wait2BeFinishedGameCount
            l.finalizeLotteryChan l.detached i
          obtain ⟨g2, h1, h2⟩ := stepTaskAt_loadCheck_phase l.finalizeLotteryChan l.detached
            i g hr hp
          refine ⟨?_, .inDetached i, rfl, ?_⟩
          · simp only [quizGameLottery.step, quizGameLottery.stepTask, hc]
            omega
          · simp only [quizGameLottery.step, quizGameLottery.stepTask,
              quizGameLottery.phaseAt, quizGameLottery.roundAt, hz, h1, h2]

theorem sendingCount_append (a b : List quizGame) :
    sendingCount (a ++ b) = sendingCount a + sendingCount b := by
  induction a with
  | nil => simp [sendingCount]
  | cons g rest ih =>
    rw [List.cons_append]
    show sendingOne g + sendingCount (rest ++ b) = sendingOne g + sendingCount rest + _
    rw [ih]
    omega

theorem Terminate_sending (g g2 : quizGame) (deleteOk : Bool)
    (h : g.Terminate deleteOk = .ok g2) : sendingOne g2 = sendingOne g := by
  unfold quizGame.Terminate at h
  split at h
  · simp only [Except.ok.injEq] at h
    rw [← h]
    rfl
  · split at h
    · cases h
    · split_ifs at h
      · simp only [Except.ok.injEq] at h
        rw [← h]
        rfl
  · cases h

theorem replaceGame_sending (game : quizGame) (deleteOk : Bool) (gs gs2 : List quizGame)
    (old : quizGame) (h : replaceGame game deleteOk gs = some (.ok (gs2, old))) :
    sendingCount gs2 + sendingOne old = sendingCount gs := by
  induction gs generalizing gs2 with
  | nil => simp [replaceGame] at h
  | cons curr rest ih =>
    simp only [replaceGame] at h
    split_ifs at h with hid
    · cases ht : curr.Terminate deleteOk with
      | error e => rw [ht] at h; simp at h
      | ok o =>
        rw [ht] at h
        simp only [Option.some.injEq, Except.ok.injEq, Prod.mk.injEq] at h
        obtain ⟨h1, h2⟩ := h
        subst h1
        subst h2
        have hr := Terminate_sending curr o deleteOk ht
        have hs : sendingOne { game with phase := TaskPhase.spawned } = 0 := rfl
        simp only [sendingCount, hs, hr]
        omega
    · cases hrec : replaceGame game deleteOk rest with
      | none => rw [hrec] at h; simp at h
      | some r =>
        cases r with
        | error e => rw [hrec] at h; simp at h
        | ok pr =>
          obtain ⟨games, o⟩ := pr
          rw [hrec] at h
          simp only [Option.some.injEq, Except.ok.injEq, Prod.mk.injEq] at h
          obtain ⟨h1, h2⟩ := h
          subst h1
          subst h2
          have := ih games hrec
          simp only [sendingCount]
          omega

theorem removeGameLoop_sending (gameID : String) (deleteOk : Bool) (gs : List quizGame) :
    match removeGameLoop gameID deleteOk gs with
    | .error (_, gs2) => sendingCount gs2 = sendingCount gs
    | .ok (kept, removed) => sendingCount kept + sendingCount removed = sendingCount gs := by
  induction gs with
  | nil => simp [removeGameLoop, sendingCount]
  | cons g rest ih =>
    simp only [removeGameLoop]
    split_ifs with hid
    · cases ht : g.Terminate deleteOk with
      | error e => simp
      | ok g2 =>
        have hr := Terminate_sending g g2 deleteOk ht
        cases hrec : removeGameLoop gameID deleteOk rest with
        | error er =>
          rw [hrec] at ih
          simp only [sendingCount] at ih ⊢
          omega
        | ok pr =>
          rw [hrec] at ih
          simp only [sendingCount] at ih ⊢
          omega
    · cases hrec : removeGameLoop gameID deleteOk rest with
      | error er =>
        rw [hrec] at ih
        simp only [sendingCount] at ih ⊢
        omega
      | ok pr =>
        rw [hrec] at ih
        simp only [sendingCount] at ih ⊢
        omega

theorem taskStep_sending (count : Int) (chan : Nat) (g : quizGame) (ev : TaskEvent) :
    sendingOne (taskStep count chan g ev).1 ≤ sendingOne g ∨
      (ev = .loadCheck ∧ g.phase = .decremented ∧ count = 0) := by
  cases ev with
  | playBegin =>
    simp only [taskStep]
    split_ifs with h1 h2
    · simp [sendingOne]
    · simp [sendingOne]
    · simp
  | upcomingStep ev =>
    simp only [taskStep]
    split_ifs with h1
    · simp [sendingOne]
    · simp
  | ongoingStep ev =>
    simp only [taskStep]
    split_ifs with h1
    · simp [sendingOne]
    · simp
  | loadCheck =>
    simp only [taskStep]
    split_ifs with h1 h2
    · exact Or.inr ⟨trivial, h1, h2⟩
    · simp [sendingOne]
    · simp
  | send =>
    simp only [taskStep]
    split_ifs with h1
    · simp [sendingOne]
    · simp

theorem stepTaskAt_sending (count : Int) (chan : Nat) (ev : TaskEvent) (gs : List quizGame)
    (i : Nat) :
    sendingCount (stepTaskAt count chan ev gs i).1 ≤ sendingCount gs ∨
      (ev = .loadCheck ∧ count = 0 ∧ ∃ g, gs.get? i = some g ∧ g.phase = .decremented) := by
  induction gs generalizing i with
  | nil => simp [stepTaskAt]
  | cons g rest ih =>
    cases i with
    | zero =>
      rcases taskStep_sending count chan g ev with h | ⟨h1, h2, h3⟩
      · left
        simp only [stepTaskAt, sendingCount]
        omega
      · exact Or.inr ⟨h1, h3, g, rfl, h2⟩
    | succ j =>
      rcases ih j with h | ⟨h1, h2, g2, h3, h4⟩
      · left
        simp only [stepTaskAt, sendingCount]
        omega
      · exact Or.inr ⟨h1, h2, g2, by simpa using h3, h4⟩

theorem sending_only_by_reading_zero (l : quizGameLottery) (e : LotteryEvent)
    (h : l.sendingTasks < (l.step e).sendingTasks) : l.readsZero e = true := by
  unfold quizGameLottery.sendingTasks at h
  cases e with
  | addGame game deleteOk =>
    exfalso
    simp only [quizGameLottery.step, quizGameLottery.AddGame] at h
    split_ifs at h
    · unfold quizGameLottery.updateGameLocked at h
      cases hr : replaceGame game deleteOk l.games with
      | none => rw [hr] at h; simp at h
      | some r =>
        cases r with
        | error e => rw [hr] at h; simp at h
        | ok pr =>
          obtain ⟨games, old⟩ := pr
          rw [hr] at h
          have h1 := replaceGame_sending game deleteOk l.games games old hr
          simp only [quizGameLottery.StartGame, sendingCount_append, sendingCount] at h
          omega
    · have h3 : sendingOne { game with phase := TaskPhase.spawned } = 0 := rfl
      simp only [quizGameLottery.addNewGameLocked, quizGameLottery.StartGame,
        sendingCount_append, sendingCount, h3] at h
      omega
  | removeGame gameID deleteOk =>
    exfalso
    simp only [quizGameLottery.step, quizGameLottery.RemoveGame] at h
    split_ifs at h
    · have h1 := removeGameLoop_sending gameID deleteOk l.games
      cases hr : removeGameLoop gameID deleteOk l.games with
      | error er =>
        obtain ⟨e, games⟩ := er
        rw [hr] at h1 h
        simp only at h1 h
        omega
      | ok pr =>
        obtain ⟨kept, removed⟩ := pr
        rw [hr] at h1 h
        simp only [sendingCount_append] at h1 h
        omega
    · simp only at h
      omega
  | task ref ev =>
    cases ref with
    | inGames i =>
      simp only [quizGameLottery.step, quizGameLottery.stepTask] at h
      rcases stepTaskAt_sending l.wait2BeFinishedGameCount l.finalizeLotteryChan ev l.games i
        with h1 | ⟨h1, h2, g, h3, h4⟩
      · omega
      · subst h1
        simp only [quizGameLottery.readsZero, quizGameLottery.phaseAt,
          quizGameLottery.roundAt, h3, h4, h2, decide_True, Bool.and_self]
    | inDetached i =>
      simp only [quizGameLottery.step, quizGameLottery.stepTask] at h
      rcases stepTaskAt_sending l.wait2BeFinishedGameCount l.finalizeLotteryChan ev l.detached i
        with h1 | ⟨h1, h2, g, h3, h4⟩
      · omega
      · subst h1
        simp only [quizGameLottery.readsZero, quizGameLottery.phaseAt,
          quizGameLottery.roundAt, h3, h4, h2, decide_True, Bool.and_self]

theorem ongoing_natural_close (g : quizGame) (record : RedisHash) (answer : Option String)
    (hs : g.Status = .InProgress) (hq : g.QuestionMessageID ≠ none) (hr : record ≠ []) :
    (g.ongoing (.timer (some record) answer)).closed = true := by
  have hlen : ¬ record.length = 0 := fun h => hr (List.length_eq_zero.1 h)
  unfold quizGame.ongoing
  simp only [hs, DiscordQuizGameStatus.Is, decide_True, Bool.true_eq_false, if_false, hq,
    quizGame.finalizeParticipateInfo, hlen]
  cases answer <;> rfl

theorem upcoming_results (g : quizGame) (ev : UpcomingEvent) :
    (g.upcoming ev).Participants = g.Participants ∧ (g.upcoming ev).Winners = g.Winners := by
  unfold quizGame.upcoming
  split_ifs
  · exact ⟨rfl, rfl⟩
  · rcases ev with _ | (_ | _) <;> exact ⟨rfl, rfl⟩

theorem ongoing_keeps_results (g : quizGame) (ev : OngoingEvent)
    (h : g.Status ≠ .InProgress ∨ g.QuestionMessageID = none ∨
      ∀ record answer, ev = .timer (some record) answer → record = []) :
    (g.ongoing ev).Winners = g.Winners ∧ (g.ongoing ev).Participants = g.Participants := by
  unfold quizGame.ongoing
  split_ifs with h1 h2
  · exact ⟨rfl, rfl⟩
  · exact ⟨rfl, rfl⟩
  · cases ev with
    | done => exact ⟨rfl, rfl⟩
    | timer read answer =>
      cases read with
      | none => exact ⟨rfl, rfl⟩
      | some record =>
        have hs : g.Status = .InProgress := by
          cases hg : g.Status <;> simp [hg, DiscordQuizGameStatus.Is] at h1 ⊢
        rcases h with h | h | h
        · exact absurd hs h
        · exact absurd h h2
        · have hr := h record answer rfl
          subst hr
          simp only [quizGame.finalizeParticipateInfo, List.length_nil, if_true]
          cases hp : g.Participants <;> cases hw : g.Winners <;> cases answer <;>
            simp [hp, hw]

theorem ongoing_timer_finished (g : quizGame) (read : Option RedisHash)
    (answer : Option String) (hs : g.Status = .InProgress) (hq : g.QuestionMessageID ≠ none) :
    (g.ongoing (.timer read answer)).Status = .Finished := by
  unfold quizGame.ongoing
  simp only [hs, DiscordQuizGameStatus.Is, decide_True, Bool.true_eq_false, if_false, hq]
  cases read with
  | none => rfl
  | some record =>
    simp only [quizGame.finalizeParticipateInfo]
    split_ifs
    · cases hp : g.Participants <;> cases hw : g.Winners <;> cases answer <;> simp [hp, hw]
    · cases answer <;> rfl

/-- C10 (the claim as stated fails): a lottery gets one round whose question cannot be
published; its task returns and reads the counter as zero, and the signal is emitted while the
round, still in the games list, is NotStarted with neither Winners nor Participants
written. -/
theorem C10_signal_with_unfinished_round :
    ((newQuizGameLottery (lotteryRecord 1 1 5)).run failedPublishRun).emits
        firstRoundSend = true ∧
      ((((newQuizGameLottery (lotteryRecord 1 1 5)).run failedPublishRun).step
        firstRoundSend).allRoundsClosed = false) ∧
      (((newQuizGameLottery (lotteryRecord 1 1 5)).run failedPublishRun).step
        firstRoundSend).games.map
          (fun g => (g.GameID, g.Status, g.Winners, g.Participants)) =
        [("g1", .NotStarted, none, none)] := by
  decide

/-- Between the read of the counter and the send another round can be added: the signal is
then emitted while that round's task is running. -/
theorem signal_emitted_while_round_running :
    ((newQuizGameLottery (lotteryRecord 2 1 5)).run lateSendRun).emits
        firstRoundSend = true ∧
      (((newQuizGameLottery (lotteryRecord 2 1 5)).run lateSendRun).step
        firstRoundSend).games.map
          (fun g => (g.GameID, g.Status, g.taskRunning)) =
        [("g1", .Finished, false), ("g2", .NotStarted, true)] := by
  decide

/-- C10 (amended): in every state reached from a new lottery by a sequence of AddGame,
RemoveGame and round-task steps, the ready-to-finalize signal is emitted only by a round task
that is about to send, a task comes to be about to send only by reading the counter of
unfinished rounds as zero, and whenever a task reads it as zero the task of every round, in
the games list or detached from it, has returned from `Play`.  A task that closes a round
naturally on a non-empty participation record leaves it Finished with Winners and
Participants written; `upcoming`, and `ongoing` on every other way through it (context done,
round not in progress or without a question message, failed read, empty record), leave Winners
and Participants as they were; and whenever the timer of `ongoing` fires on a round in
progress with a question message, the round is left with Status Finished, also when the read
fails or the record is empty. -/
theorem C10_signal_after_tasks_returned (lottery : DiscordQuizGameLottery)
    (events : List LotteryEvent) (e : LotteryEvent) :
    (((newQuizGameLottery lottery).run events).emits e = true →
      ∃ ref, e = .task ref .send ∧
        ((newQuizGameLottery lottery).run events).phaseAt ref = .sending) ∧
      (((newQuizGameLottery lottery).run events).sendingTasks <
          (((newQuizGameLottery lottery).run events).step e).sendingTasks →
        ((newQuizGameLottery lottery).run events).readsZero e = true) ∧
      (((newQuizGameLottery lottery).run events).readsZero e = true →
        (∃ ref, e = .task ref .loadCheck ∧
          (((newQuizGameLottery lottery).run events).step e).phaseAt ref = .sending) ∧
        (((newQuizGameLottery lottery).run events).step e).wait2BeFinishedGameCount = 0 ∧
        (∀ g ∈ (((newQuizGameLottery lottery).run events).step e).games,
          g.taskRunning = false) ∧
        (∀ g ∈ (((newQuizGameLottery lottery).run events).step e).detached,
          g.taskRunning = false)) ∧
      (∀ (g : quizGame) (record : RedisHash) (answer : Option String),
        g.Status = .InProgress → g.QuestionMessageID ≠ none → record ≠ [] →
        (g.ongoing (.timer (some record) answer)).closed = true) ∧
      (∀ (g : quizGame) (ev : UpcomingEvent),
        (g.upcoming ev).Winners = g.Winners ∧ (g.upcoming ev).Participants = g.Participants) ∧
      (∀ (g : quizGame) (ev : OngoingEvent),
        (g.Status ≠ .InProgress ∨ g.QuestionMessageID = none ∨
          ∀ record answer, ev = .timer (some record) answer → record = []) →
        (g.ongoing ev).Winners = g.Winners ∧ (g.ongoing ev).Participants = g.Participants) ∧
      (∀ (g : quizGame) (read : Option RedisHash) (answer : Option String),
        g.Status = .InProgress → g.QuestionMessageID ≠ none →
        (g.ongoing (.timer read answer)).Status = .Finished) := by
  refine ⟨emits_only_by_send _ e, sending_only_by_reading_zero _ e, ?_,
    ongoing_natural_close, (fun g ev => ⟨(upcoming_results g ev).2, (upcoming_results g ev).1⟩),
    ongoing_keeps_results, ongoing_timer_finished⟩
  intro hread
  obtain ⟨hzero, href⟩ := readsZero_step _ e hread
  have hinv := step_inv _ e (run_inv _ events (newQuizGameLottery_inv lottery))
  unfold CounterInv at hinv
  rw [hzero] at hinv
  refine ⟨href, hzero, ?_, ?_⟩
  · exact runningCount_eq_zero _ (by omega)
  · exact runningCount_eq_zero _ (by omega)

theorem C10_signal_after_tasks_returned_witness :
    (((newQuizGameLottery (lotteryRecord 1 1 5)).run closeAndLoadRun).emits firstRoundSend =
        true ∧
      ∃ ref, firstRoundSend = .task ref .send ∧
        ((newQuizGameLottery (lotteryRecord 1 1 5)).run closeAndLoadRun).phaseAt ref =
          .sending) ∧
      (((newQuizGameLottery (lotteryRecord 1 1 5)).run naturalCloseRun).sendingTasks <
          (((newQuizGameLottery (lotteryRecord 1 1 5)).run naturalCloseRun).step
            firstRoundLoad).sendingTasks ∧
        ((newQuizGameLottery (lotteryRecord 1 1 5)).run naturalCloseRun).readsZero
          firstRoundLoad = true) ∧
      (((newQuizGameLottery (lotteryRecord 1 1 5)).run naturalCloseRun).readsZero
          firstRoundLoad = true ∧
        ((∃ ref, firstRoundLoad = .task ref .loadCheck ∧
          (((newQuizGameLottery (lotteryRecord 1 1 5)).run naturalCloseRun).step
            firstRoundLoad).phaseAt ref = .sending) ∧
        (((newQuizGameLottery (lotteryRecord 1 1 5)).run naturalCloseRun).step
          firstRoundLoad).wait2BeFinishedGameCount = 0 ∧
        (∀ g ∈ (((newQuizGameLottery (lotteryRecord 1 1 5)).run naturalCloseRun).step
          firstRoundLoad).games, g.taskRunning = false) ∧
        (∀ g ∈ (((newQuizGameLottery (lotteryRecord 1 1 5)).run naturalCloseRun).step
          firstRoundLoad).detached, g.taskRunning = false))) ∧
      ((openRound "g1" none).Status = .InProgress ∧
        (openRound "g1" none).QuestionMessageID ≠ none ∧
        ([("u", "1&5")] : RedisHash) ≠ [] ∧
        ((openRound "g1" none).ongoing (.timer (some [("u", "1&5")]) (some "a"))).closed =
          true) ∧
      ((∀ record answer, emptyRecordClose = OngoingEvent.timer (some record) answer →
          record = []) ∧
        ((openRound "g1" none).ongoing emptyRecordClose).Winners =
          (openRound "g1" none).Winners ∧
        ((openRound "g1" none).ongoing emptyRecordClose).Participants =
          (openRound "g1" none).Participants) ∧
      ((openRound "g1" none).Status = .InProgress ∧
        (openRound "g1" none).QuestionMessageID ≠ none ∧
        ((openRound "g1" none).ongoing (.timer none (some "a"))).Status = .Finished) :=
  ⟨⟨by decide, (C10_signal_after_tasks_returned (lotteryRecord 1 1 5) closeAndLoadRun
      firstRoundSend).1 (by decide)⟩,
    ⟨by decide, (C10_signal_after_tasks_returned (lotteryRecord 1 1 5) naturalCloseRun
      firstRoundLoad).2.1 (by decide)⟩,
    ⟨by decide, (C10_signal_after_tasks_returned (lotteryRecord 1 1 5) naturalCloseRun
      firstRoundLoad).2.2.1 (by decide)⟩,
    ⟨by decide, by decide, by decide,
      (C10_signal_after_tasks_returned (lotteryRecord 1 1 5) naturalCloseRun
        firstRoundLoad).2.2.2.1 (openRound "g1" none) [("u", "1&5")] (some "a")
        (by decide) (by decide) (by decide)⟩,
    ⟨(fun record answer h => by cases h; rfl),
      ((C10_signal_after_tasks_returned (lotteryRecord 1 1 5) naturalCloseRun
        firstRoundLoad).2.2.2.2.2.1 (openRound "g1" none) emptyRecordClose
        (Or.inr (Or.inr (fun record answer h => by cases h; rfl)))).1,
      ((C10_signal_after_tasks_returned (lotteryRecord 1 1 5) naturalCloseRun
        firstRoundLoad).2.2.2.2.2.1 (openRound "g1" none) emptyRecordClose
        (Or.inr (Or.inr (fun record answer h => by cases h; rfl)))).2⟩,
    ⟨by decide, by decide,
      (C10_signal_after_tasks_returned (lotteryRecord 1 1 5) naturalCloseRun
        firstRoundLoad).2.2.2.2.2.2 (openRound "g1" none) none (some "a")
        (by decide) (by decide)⟩⟩

/-! ## Facts about maps -/

theorem mapGet_mapPut_same {β : Type} (m : List (String × β)) (key : String) (v : β) :
    mapGet (mapPut m key v) key = some v := by
  induction m with
  | nil => simp [mapPut, mapGet]
  | cons e rest ih =>
    obtain ⟨k, v0⟩ := e
    by_cases h : k = key
    · simp [mapPut, mapGet, h]
    · simp [mapPut, mapGet, h, ih]

theorem mapGet_mapPut_other {β : Type} (m : List (String × β)) (key other : String) (v : β)
    (h : other ≠ key) : mapGet (mapPut m key v) other = mapGet m other := by
  induction m with
  | nil => simp only [mapPut, mapGet, if_neg (Ne.symm h)]
  | cons e rest ih =>
    obtain ⟨k, v0⟩ := e
    by_cases hk : k = key
    · subst hk
      simp only [mapPut, if_true, mapGet, if_neg (Ne.symm h)]
    · by_cases ho : k = other
      · simp only [mapPut, if_neg hk, mapGet, if_pos ho]
      · simp only [mapPut, if_neg hk, mapGet, if_neg ho, ih]

theorem mapPut_of_mapGet {β : Type} (m : List (String × β)) (key : String) (v : β)
    (h : mapGet m key = some v) : mapPut m key v = m := by
  induction m with
  | nil => simp [mapGet] at h
  | cons e rest ih =>
    obtain ⟨k, v0⟩ := e
    by_cases hk : k = key
    · simp only [mapGet, hk, if_true, Option.some.injEq] at h
      subst hk
      subst h
      simp only [mapPut, if_true]
    · simp only [mapGet, hk, if_false] at h
      simp only [mapPut, if_neg hk, ih h]

theorem mapGet_mapDelete_same {β : Type} (m : List (String × β)) (key : String) :
    mapGet (mapDelete m key) key = none := by
  induction m with
  | nil => rfl
  | cons e rest ih =>
    obtain ⟨k, v0⟩ := e
    by_cases hk : k = key
    · simp only [mapDelete, if_pos hk, ih]
    · simp only [mapDelete, if_neg hk, mapGet, ih]

theorem mapGet_mapDelete_other {β : Type} (m : List (String × β)) (key other : String)
    (h : other ≠ key) : mapGet (mapDelete m key) other = mapGet m other := by
  induction m with
  | nil => rfl
  | cons e rest ih =>
    obtain ⟨k, v0⟩ := e
    by_cases hk : k = key
    · subst hk
      simp only [mapDelete, if_true, mapGet, if_neg (Ne.symm h), ih]
    · by_cases ho : k = other
      · simp only [mapDelete, if_neg hk, mapGet, if_pos ho]
      · simp only [mapDelete, if_neg hk, mapGet, if_neg ho, ih]

/-! ## GameIDs in the games list -/

theorem Terminate_ok_eq (g g2 : quizGame) (deleteOk : Bool)
    (h : g.Terminate deleteOk = .ok g2) : g2 = { g with cancelled := true } := by
  unfold quizGame.Terminate at h
  split at h
  · simp only [Except.ok.injEq] at h
    exact h.symm
  · split at h
    · cases h
    · split_ifs at h
      · simp only [Except.ok.injEq] at h
        exact h.symm
  · cases h

theorem Terminate_GameID (g g2 : quizGame) (deleteOk : Bool)
    (h : g.Terminate deleteOk = .ok g2) : g2.GameID = g.GameID := by
  rw [Terminate_ok_eq g g2 deleteOk h]

theorem finalizeParticipateInfo_GameID (g : quizGame) (read : Option RedisHash) :
    (g.finalizeParticipateInfo read).2.GameID = g.GameID := by
  unfold quizGame.finalizeParticipateInfo
  split
  · rfl
  · split_ifs <;> rfl

theorem upcoming_GameID (g : quizGame) (ev : UpcomingEvent) :
    (g.upcoming ev).GameID = g.GameID := by
  unfold quizGame.upcoming
  split_ifs
  · rfl
  · split <;> rfl

theorem ongoing_GameID (g : quizGame) (ev : OngoingEvent) :
    (g.ongoing ev).GameID = g.GameID := by
  unfold quizGame.ongoing
  split_ifs
  · rfl
  · rfl
  · cases ev with
    | done => rfl
    | timer read answer =>
      have h := finalizeParticipateInfo_GameID { g with Status := .Finished } read
      simp only at h ⊢
      split
      · next g2 heq => rw [heq] at h; exact h
      · next g2 heq =>
        rw [heq] at h
        split <;> exact h

theorem taskStep_GameID (count : Int) (chan : Nat) (g : quizGame) (ev : TaskEvent) :
    (taskStep count chan g ev).1.GameID = g.GameID := by
  cases ev with
  | playBegin => simp only [taskStep]; split_ifs <;> rfl
  | upcomingStep ev =>
    simp only [taskStep]
    split_ifs
    · exact upcoming_GameID g ev
    · rfl
  | ongoingStep ev =>
    simp only [taskStep]
    split_ifs
    · exact ongoing_GameID g ev
    · rfl
  | loadCheck => simp only [taskStep]; split_ifs <;> rfl
  | send => simp only [taskStep]; split_ifs <;> rfl

theorem stepTaskAt_gameIDs (count : Int) (chan : Nat) (ev : TaskEvent) (gs : List quizGame)
    (i : Nat) : gameIDs (stepTaskAt count chan ev gs i).1 = gameIDs gs := by
  induction gs generalizing i with
  | nil => rfl
  | cons g rest ih =>
    cases i with
    | zero =>
      simp only [stepTaskAt, gameIDs, List.map_cons, taskStep_GameID]
    | succ j =>
      have := ih j
      simp only [gameIDs] at this
      simp only [stepTaskAt, gameIDs, List.map_cons, this]

theorem replaceGame_at (game curr old : quizGame) (deleteOk : Bool) (pre post : List quizGame)
    (hpre : ∀ g ∈ pre, g.GameID ≠ game.GameID) (hid : curr.GameID = game.GameID)
    (ht : curr.Terminate deleteOk = .ok old) :
    replaceGame game deleteOk (pre ++ curr :: post) =
      some (.ok (pre ++ { game with phase := .spawned } :: post, old)) := by
  induction pre with
  | nil => simp only [List.nil_append, replaceGame, if_pos hid, ht]
  | cons g rest ih =>
    have hg : ¬ g.GameID = game.GameID := hpre g (List.mem_cons_self _ _)
    have := ih (fun x hx => hpre x (List.mem_cons_of_mem _ hx))
    simp only [List.cons_append, replaceGame, if_neg hg, List.append_eq, this]

theorem replaceGame_ok_split (game : quizGame) (deleteOk : Bool) (gs gs2 : List quizGame)
    (old : quizGame) (h : replaceGame game deleteOk gs = some (.ok (gs2, old))) :
    ∃ pre curr post, gs = pre ++ curr :: post ∧ (∀ g ∈ pre, g.GameID ≠ game.GameID) ∧
      curr.GameID = game.GameID ∧ curr.Terminate deleteOk = .ok old ∧
      gs2 = pre ++ { game with phase := .spawned } :: post := by
  induction gs generalizing gs2 with
  | nil => simp [replaceGame] at h
  | cons curr rest ih =>
    simp only [replaceGame] at h
    split_ifs at h with hid
    · cases ht : curr.Terminate deleteOk with
      | error e => rw [ht] at h; simp at h
      | ok o =>
        rw [ht] at h
        simp only [Option.some.injEq, Except.ok.injEq, Prod.mk.injEq] at h
        obtain ⟨h1, h2⟩ := h
        subst h1
        subst h2
        exact ⟨[], curr, rest, rfl, (fun g hg => by cases hg), hid, ht, rfl⟩
    · cases hrec : replaceGame game deleteOk rest with
      | none => rw [hrec] at h; simp at h
      | some r =>
        cases r with
        | error e => rw [hrec] at h; simp at h
        | ok pr =>
          obtain ⟨games, o⟩ := pr
          rw [hrec] at h
          simp only [Option.some.injEq, Except.ok.injEq, Prod.mk.injEq] at h
          obtain ⟨h1, h2⟩ := h
          subst h1
          subst h2
          obtain ⟨pre, c, post, e1, e2, e3, e4, e5⟩ := ih games hrec
          refine ⟨curr :: pre, c, post, by rw [e1]; rfl, ?_, e3, e4, by rw [e5]; rfl⟩
          intro g hg
          rcases List.mem_cons.1 hg with hg1 | hg1
          · rw [hg1]; exact hid
          · exact e2 g hg1

theorem replaceGame_of_first_fails (game old : quizGame) (e : TerminateError)
    (deleteOk : Bool) (gs : List quizGame)
    (hheld : gs.find? (fun r => decide (r.GameID = game.GameID)) = some old)
    (hfail : old.Terminate deleteOk = .error e) :
    replaceGame game deleteOk gs = some (.error e) := by
  induction gs with
  | nil => simp at hheld
  | cons g rest ih =>
    by_cases hid : g.GameID = game.GameID
    · simp only [List.find?, hid, decide_True, Option.some.injEq] at hheld
      subst hheld
      simp only [replaceGame, if_pos hid, hfail]
    · simp only [List.find?, hid, decide_False] at hheld
      simp only [replaceGame, if_neg hid, ih hheld]

theorem removeGameLoop_of_first_fails (gameID : String) (old : quizGame) (e : TerminateError)
    (deleteOk : Bool) (gs : List quizGame)
    (hheld : gs.find? (fun r => decide (r.GameID = gameID)) = some old)
    (hfail : old.Terminate deleteOk = .error e) :
    removeGameLoop gameID deleteOk gs = .error (e, gs) := by
  induction gs with
  | nil => simp at hheld
  | cons g rest ih =>
    by_cases hid : g.GameID = gameID
    · simp only [List.find?, hid, decide_True, Option.some.injEq] at hheld
      subst hheld
      simp only [removeGameLoop, if_pos hid, hfail]
    · simp only [List.find?, hid, decide_False] at hheld
      simp only [removeGameLoop, if_neg hid, ih hheld]

theorem removeGameLoop_kept (gameID : String) (deleteOk : Bool) (gs : List quizGame) :
    match removeGameLoop gameID deleteOk gs with
    | .error (_, gs2) => gameIDs gs2 = gameIDs gs
    | .ok (kept, _) => kept = gs.filter (fun g => decide (g.GameID ≠ gameID)) := by
  induction gs with
  | nil => simp [removeGameLoop]
  | cons g rest ih =>
    simp only [removeGameLoop]
    split_ifs with hid
    · cases ht : g.Terminate deleteOk with
      | error e => simp
      | ok g2 =>
        have hg2 := Terminate_GameID g g2 deleteOk ht
        cases hrec : removeGameLoop gameID deleteOk rest with
        | error er =>
          rw [hrec] at ih
          simp only [gameIDs, List.map_cons] at ih ⊢
          rw [ih, hg2]
        | ok pr =>
          rw [hrec] at ih
          simp only at ih ⊢
          rw [ih]
          simp [List.filter, hid]
    · cases hrec : removeGameLoop gameID deleteOk rest with
      | error er =>
        rw [hrec] at ih
        simp only [gameIDs, List.map_cons] at ih ⊢
        rw [ih]
      | ok pr =>
        rw [hrec] at ih
        simp only at ih ⊢
        rw [ih]
        simp [List.filter, hid]

theorem mem_gameIDs (gs : List quizGame) (id : String) :
    id ∈ gameIDs gs ↔ ∃ g ∈ gs, g.GameID = id := by
  unfold gameIDs
  simp only [List.mem_map]

theorem gamesIndexed_of_gameIDs (l l2 : quizGameLottery) (h : l.gamesIndexed)
    (hids : ∀ id ∈ gameIDs l2.games, id ∈ gameIDs l.games)
    (hset : ∀ id ∈ l.gameSet, id ∈ l2.gameSet) : l2.gamesIndexed := by
  intro g hg
  obtain ⟨g0, hg0, hid⟩ := (mem_gameIDs l.games g.GameID).1
    (hids _ ((mem_gameIDs l2.games g.GameID).2 ⟨g, hg, rfl⟩))
  rw [← hid]
  exact hset _ (h g0 hg0)

theorem AddGame_wellIndexed (l : quizGameLottery) (game : quizGame) (deleteOk : Bool)
    (h : l.wellIndexed) : (l.AddGame game deleteOk).2.wellIndexed := by
  obtain ⟨hidx, hnd⟩ := h
  unfold quizGameLottery.AddGame
  split_ifs with hfound
  · unfold quizGameLottery.updateGameLocked
    cases hr : replaceGame game deleteOk l.games with
    | none => exact ⟨hidx, hnd⟩
    | some r =>
      cases r with
      | error e => exact ⟨hidx, hnd⟩
      | ok pr =>
        obtain ⟨games, old⟩ := pr
        obtain ⟨pre, curr, post, e1, _, e3, _, e5⟩ :=
          replaceGame_ok_split game deleteOk l.games games old hr
        have hids : gameIDs games = gameIDs l.games := by
          rw [e1, e5]
          simp only [gameIDs, List.map_append, List.map_cons, e3]
        constructor
        · apply gamesIndexed_of_gameIDs l _ hidx
          · intro id hid
            simp only [quizGameLottery.StartGame] at hid
            rw [hids] at hid
            exact hid
          · intro id hid
            exact hid
        · simp only [quizGameLottery.StartGame]
          rw [hids]
          exact hnd
  · have hnot : game.GameID ∉ gameIDs l.games := by
      intro hmem
      obtain ⟨g0, hg0, hid⟩ := (mem_gameIDs l.games game.GameID).1 hmem
      exact hfound (hid ▸ hidx g0 hg0)
    simp only [quizGameLottery.addNewGameLocked, quizGameLottery.StartGame, if_neg hfound]
    constructor
    · intro g hg
      simp only [List.mem_append, List.mem_singleton] at hg ⊢
      rcases hg with hg | hg
      · exact Or.inl (hidx g hg)
      · right
        rw [hg]
    · simp only [gameIDs, List.map_append, List.map_cons, List.map_nil]
      rw [List.nodup_append]
      refine ⟨hnd, List.nodup_singleton _, ?_⟩
      intro a ha hb
      rw [List.mem_singleton] at hb
      subst hb
      exact hnot ha

theorem RemoveGame_wellIndexed (l : quizGameLottery) (gameID : String) (deleteOk : Bool)
    (h : l.wellIndexed) : (l.RemoveGame gameID deleteOk).2.wellIndexed := by
  obtain ⟨hidx, hnd⟩ := h
  unfold quizGameLottery.RemoveGame
  split_ifs with hfound
  · have hk := removeGameLoop_kept gameID deleteOk l.games
    cases hr : removeGameLoop gameID deleteOk l.games with
    | error er =>
      obtain ⟨e, games⟩ := er
      rw [hr] at hk
      simp only at hk ⊢
      constructor
      · apply gamesIndexed_of_gameIDs l _ hidx
        · intro id hid
          simp only at hid
          rw [hk] at hid
          exact hid
        · intro id hid
          exact hid
      · simp only
        rw [hk]
        exact hnd
    | ok pr =>
      obtain ⟨kept, removed⟩ := pr
      rw [hr] at hk
      simp only at hk ⊢
      subst hk
      constructor
      · intro g hg
        exact hidx g (List.mem_filter.1 hg).1
      · simp only [gameIDs]
        exact (List.Nodup.sublist ((List.filter_sublist _).map _) hnd)
  · exact ⟨hidx, hnd⟩

theorem stepTask_wellIndexed (l : quizGameLottery) (ref : TaskRef) (ev : TaskEvent)
    (h : l.wellIndexed) : (l.stepTask ref ev).wellIndexed := by
  obtain ⟨hidx, hnd⟩ := h
  cases ref with
  | inGames i =>
    have hids := stepTaskAt_gameIDs l.wait2BeFinishedGameCount l.finalizeLotteryChan ev
      l.games i
    constructor
    · apply gamesIndexed_of_gameIDs l _ hidx
      · intro id hid
        simp only [quizGameLottery.stepTask] at hid
        rw [hids] at hid
        exact hid
      · intro id hid
        exact hid
    · simp only [quizGameLottery.stepTask]
      rw [hids]
      exact hnd
  | inDetached i => exact ⟨hidx, hnd⟩

theorem step_wellIndexed (l : quizGameLottery) (e : LotteryEvent) (h : l.wellIndexed) :
    (l.step e).wellIndexed := by
  cases e with
  | addGame game deleteOk => exact AddGame_wellIndexed l game deleteOk h
  | removeGame gameID deleteOk => exact RemoveGame_wellIndexed l gameID deleteOk h
  | task ref ev => exact stepTask_wellIndexed l ref ev h

theorem run_wellIndexed (l : quizGameLottery) (events : List LotteryEvent)
    (h : l.wellIndexed) : (l.run events).wellIndexed := by
  unfold quizGameLottery.run
  induction events generalizing l with
  | nil => exact h
  | cons e rest ih => exact ih (l.step e) (step_wellIndexed l e h)

theorem newQuizGameLottery_wellIndexed (lottery : DiscordQuizGameLottery) :
    (newQuizGameLottery lottery).wellIndexed :=
  ⟨(fun g hg => by cases hg), List.nodup_nil⟩

/-! ## The registry's calls -/

theorem manager_AddGame_ok (m : QuizGameManager) (game : DiscordQuizGame) (deleteOk : Bool)
    (gl : quizGameLottery) (ht : mapGet m.lotteries game.LotteryID = some gl)
    (hok : (gl.AddGame (newQuizGame game) deleteOk).1 = none) :
    m.AddGame game deleteOk =
      (none, { lotteries := mapPut m.lotteries game.LotteryID
                 (gl.AddGame (newQuizGame game) deleteOk).2,
               ongoingGames := mapPut m.ongoingGames game.GameID (newQuizGame game) }) := by
  unfold QuizGameManager.AddGame
  rw [ht]
  rcases hres : gl.AddGame (newQuizGame game) deleteOk with ⟨_ | e, gl2⟩
  · simp only [hres]
    rfl
  · rw [hres] at hok
    cases hok

theorem manager_AddGame_err (m : QuizGameManager) (game : DiscordQuizGame) (deleteOk : Bool)
    (gl : quizGameLottery) (e : GameError)
    (ht : mapGet m.lotteries game.LotteryID = some gl)
    (herr : (gl.AddGame (newQuizGame game) deleteOk).1 = some e) :
    m.AddGame game deleteOk =
      (some (.orchestrator e),
        { m with lotteries :=
            mapPut m.lotteries game.LotteryID (gl.AddGame (newQuizGame game) deleteOk).2 }) := by
  unfold QuizGameManager.AddGame
  rw [ht]
  rcases hres : gl.AddGame (newQuizGame game) deleteOk with ⟨_ | e2, gl2⟩
  · rw [hres] at herr
    cases herr
  · rw [hres] at herr
    simp only [Option.some.injEq] at herr
    subst herr
    simp only [hres]

theorem manager_RemoveGame_ok (m : QuizGameManager) (game : DiscordQuizGame)
    (deleteOk : Bool) (gl : quizGameLottery)
    (ht : mapGet m.lotteries game.LotteryID = some gl)
    (hok : (gl.RemoveGame game.GameID deleteOk).1 = none) :
    m.RemoveGame game deleteOk =
      (none, { lotteries := mapPut m.lotteries game.LotteryID
                 (gl.RemoveGame game.GameID deleteOk).2,
               ongoingGames := mapDelete m.ongoingGames game.GameID }) := by
  unfold QuizGameManager.RemoveGame
  rw [ht]
  rcases hres : gl.RemoveGame game.GameID deleteOk with ⟨_ | e, gl2⟩
  · simp only [hres]
  · rw [hres] at hok
    cases hok

theorem manager_RemoveGame_err (m : QuizGameManager) (game : DiscordQuizGame)
    (deleteOk : Bool) (gl : quizGameLottery) (e : GameError)
    (ht : mapGet m.lotteries game.LotteryID = some gl)
    (herr : (gl.RemoveGame game.GameID deleteOk).1 = some e) :
    m.RemoveGame game deleteOk =
      (some (.orchestrator e),
        { m with lotteries :=
            mapPut m.lotteries game.LotteryID (gl.RemoveGame game.GameID deleteOk).2 }) := by
  unfold QuizGameManager.RemoveGame
  rw [ht]
  rcases hres : gl.RemoveGame game.GameID deleteOk with ⟨_ | e2, gl2⟩
  · rw [hres] at herr
    cases herr
  · rw [hres] at herr
    simp only [Option.some.injEq] at herr
    subst herr
    simp only [hres]

/-- C12 (the claim as stated fails): a registry tracks a lottery whose record has Status
Finished; `AddGame` of a round of that lottery returns no error, the round is started (the
counter of unfinished rounds becomes 1) and it is entered in the round index. -/
theorem C12_finished_lottery_accepts_round :
    (mapGet (NewQuizGameManager.AddLottery finishedLotteryRecord).lotteries "L").map
        (fun gl => gl.Status) = some .Finished ∧
      ((NewQuizGameManager.AddLottery finishedLotteryRecord).AddGame (roundRecord "g1")
        true).1 = none ∧
      (((NewQuizGameManager.AddLottery finishedLotteryRecord).AddGame (roundRecord "g1")
        true).2.GetGame "g1").isSome = true ∧
      (mapGet ((NewQuizGameManager.AddLottery finishedLotteryRecord).AddGame
        (roundRecord "g1") true).2.lotteries "L").map
          (fun gl => (gl.wait2BeFinishedGameCount, gameIDs gl.games)) = some (1, ["g1"]) := by
  decide

/-- C12 (amended): for every round whose LotteryID is not tracked, the registry's `AddGame`
returns the lottery-not-found error and leaves the lottery index and the round index
unchanged, so no round is started; for a tracked lottery, whatever its Status, it delegates
to that lottery's orchestrator: the orchestrator's error is returned and the round index is
left as it was, or on success the round is entered in the round index under its GameID. -/
theorem C12_AddGame_untracked_or_delegates (m : QuizGameManager) (game : DiscordQuizGame)
    (deleteOk : Bool) :
    (mapGet m.lotteries game.LotteryID = none →
        m.AddGame game deleteOk = (some (.lotteryNotFoundWhenAddGame game.LotteryID), m)) ∧
      (∀ gl, mapGet m.lotteries game.LotteryID = some gl →
        (m.AddGame game deleteOk).1 =
            (gl.AddGame (newQuizGame game) deleteOk).1.map ManagerError.orchestrator ∧
          mapGet (m.AddGame game deleteOk).2.lotteries game.LotteryID =
            some (gl.AddGame (newQuizGame game) deleteOk).2 ∧
          ((gl.AddGame (newQuizGame game) deleteOk).1 = none →
            (m.AddGame game deleteOk).2.GetGame game.GameID = some (newQuizGame game)) ∧
          ((gl.AddGame (newQuizGame game) deleteOk).1 ≠ none →
            (m.AddGame game deleteOk).2.ongoingGames = m.ongoingGames)) := by
  constructor
  · intro hnone
    unfold QuizGameManager.AddGame
    rw [hnone]
  · intro gl ht
    cases hres : (gl.AddGame (newQuizGame game) deleteOk).1 with
    | none =>
      rw [manager_AddGame_ok m game deleteOk gl ht hres]
      refine ⟨rfl, mapGet_mapPut_same _ _ _, fun _ => ?_, fun h => absurd rfl h⟩
      exact mapGet_mapPut_same _ _ _
    | some e =>
      rw [manager_AddGame_err m game deleteOk gl e ht hres]
      refine ⟨rfl, mapGet_mapPut_same _ _ _, (fun h => by cases h), fun _ => rfl⟩

theorem C12_AddGame_untracked_or_delegates_witness :
    (mapGet NewQuizGameManager.lotteries (roundRecord "g1").LotteryID = none ∧
      NewQuizGameManager.AddGame (roundRecord "g1") true =
        (some (.lotteryNotFoundWhenAddGame (roundRecord "g1").LotteryID),
          NewQuizGameManager)) ∧
      (mapGet (NewQuizGameManager.AddLottery (lotteryRecord 1 1 5)).lotteries
          (roundRecord "g1").LotteryID = some (newQuizGameLottery (lotteryRecord 1 1 5)) ∧
        ((NewQuizGameManager.AddLottery (lotteryRecord 1 1 5)).AddGame (roundRecord "g1")
              true).1 =
            ((newQuizGameLottery (lotteryRecord 1 1 5)).AddGame
              (newQuizGame (roundRecord "g1")) true).1.map ManagerError.orchestrator ∧
        ((newQuizGameLottery (lotteryRecord 1 1 5)).AddGame
          (newQuizGame (roundRecord "g1")) true).1 = none ∧
        ((NewQuizGameManager.AddLottery (lotteryRecord 1 1 5)).AddGame (roundRecord "g1")
          true).2.GetGame (roundRecord "g1").GameID = some (newQuizGame (roundRecord "g1"))) :=
  ⟨⟨by decide, (C12_AddGame_untracked_or_delegates NewQuizGameManager (roundRecord "g1")
      true).1 (by decide)⟩,
    ⟨by decide,
      ((C12_AddGame_untracked_or_delegates (NewQuizGameManager.AddLottery (lotteryRecord 1 1 5))
        (roundRecord "g1") true).2 (newQuizGameLottery (lotteryRecord 1 1 5))
        (by decide)).1,
      by decide,
      ((C12_AddGame_untracked_or_delegates (NewQuizGameManager.AddLottery (lotteryRecord 1 1 5))
        (roundRecord "g1") true).2 (newQuizGameLottery (lotteryRecord 1 1 5))
        (by decide)).2.2.1 (by decide)⟩⟩

theorem manager_eta (m : QuizGameManager) :
    ({ m with lotteries := m.lotteries } : QuizGameManager) = m := by
  cases m
  rfl

/-- C17: for a lottery that holds a round with GameID g (marked in `gameSet`, the first
round with that GameID being the one held) whose `Terminate` fails, the orchestrator's
`AddGame` of a new round with GameID g and its `RemoveGame` of g both return that error and
leave the lottery as it was (games list, counter of unfinished rounds); the registry's
`AddGame` and `RemoveGame` return the same error and leave the lottery index and the round
index unchanged. -/
theorem C17_failed_terminate_changes_nothing (m : QuizGameManager) (l : quizGameLottery)
    (game : DiscordQuizGame) (old : quizGame) (e : TerminateError) (deleteOk : Bool)
    (htracked : mapGet m.lotteries game.LotteryID = some l)
    (hset : game.GameID ∈ l.gameSet)
    (hheld : l.games.find? (fun r => decide (r.GameID = game.GameID)) = some old)
    (hfail : old.Terminate deleteOk = .error e) :
    l.AddGame (newQuizGame game) deleteOk = (some (.terminate e), l) ∧
      l.RemoveGame game.GameID deleteOk = (some (.terminate e), l) ∧
      m.AddGame game deleteOk = (some (.orchestrator (.terminate e)), m) ∧
      m.RemoveGame game deleteOk = (some (.orchestrator (.terminate e)), m) := by
  have hadd : l.AddGame (newQuizGame game) deleteOk = (some (.terminate e), l) := by
    have hset2 : (newQuizGame game).GameID ∈ l.gameSet := hset
    unfold quizGameLottery.AddGame
    rw [if_pos hset2]
    unfold quizGameLottery.updateGameLocked
    rw [replaceGame_of_first_fails (newQuizGame game) old e deleteOk l.games hheld hfail]
  have hrem : l.RemoveGame game.GameID deleteOk = (some (.terminate e), l) := by
    unfold quizGameLottery.RemoveGame
    rw [if_pos hset, removeGameLoop_of_first_fails game.GameID old e deleteOk l.games hheld
      hfail]
  refine ⟨hadd, hrem, ?_, ?_⟩
  · rw [manager_AddGame_err m game deleteOk l (.terminate e) htracked (by rw [hadd]), hadd,
      mapPut_of_mapGet _ _ _ htracked, manager_eta]
  · rw [manager_RemoveGame_err m game deleteOk l (.terminate e) htracked (by rw [hrem]), hrem,
      mapPut_of_mapGet _ _ _ htracked, manager_eta]

theorem C17_failed_terminate_changes_nothing_witness :
    mapGet registryWithOpenRound.lotteries (inProgressRecord "g1").LotteryID =
        some lotteryWithOpenRound ∧
      (inProgressRecord "g1").GameID ∈ lotteryWithOpenRound.gameSet ∧
      lotteryWithOpenRound.games.find?
          (fun r => decide (r.GameID = (inProgressRecord "g1").GameID)) =
        some openRoundTask ∧
      openRoundTask.Terminate false = .error .ErrorUnableToTerminateGame ∧
      (lotteryWithOpenRound.AddGame (newQuizGame (inProgressRecord "g1")) false =
          (some (.terminate .ErrorUnableToTerminateGame), lotteryWithOpenRound) ∧
        lotteryWithOpenRound.RemoveGame (inProgressRecord "g1").GameID false =
          (some (.terminate .ErrorUnableToTerminateGame), lotteryWithOpenRound) ∧
        registryWithOpenRound.AddGame (inProgressRecord "g1") false =
          (some (.orchestrator (.terminate .ErrorUnableToTerminateGame)),
            registryWithOpenRound) ∧
        registryWithOpenRound.RemoveGame (inProgressRecord "g1") false =
          (some (.orchestrator (.terminate .ErrorUnableToTerminateGame)),
            registryWithOpenRound)) :=
  ⟨by decide, by decide, by decide, by decide,
    C17_failed_terminate_changes_nothing registryWithOpenRound lotteryWithOpenRound
      (inProgressRecord "g1") openRoundTask .ErrorUnableToTerminateGame false
      (by decide) (by decide) (by decide) (by decide)⟩

theorem RemoveGame_ok_games (l : quizGameLottery) (gameID : String) (deleteOk : Bool)
    (hidx : l.gamesIndexed) (hok : (l.RemoveGame gameID deleteOk).1 = none) :
    (l.RemoveGame gameID deleteOk).2.games =
      l.games.filter (fun g => decide (g.GameID ≠ gameID)) := by
  unfold quizGameLottery.RemoveGame at hok ⊢
  split_ifs at hok ⊢ with hfound
  · have hk := removeGameLoop_kept gameID deleteOk l.games
    cases hr : removeGameLoop gameID deleteOk l.games with
    | error er =>
      rw [hr] at hok
      cases hok
    | ok pr =>
      obtain ⟨kept, removed⟩ := pr
      rw [hr] at hk
      exact hk
  · symm
    apply List.filter_eq_self.2
    intro g hg
    have hne : g.GameID ≠ gameID := fun h => hfound (h ▸ hidx g hg)
    simp only [hne, ne_eq, not_false_eq_true, decide_True]

/-- C19: when the round's LotteryID is not tracked, the registry's `RemoveGame` returns the
lottery-not-found error and leaves both indexes unchanged; when it is tracked (the lottery's
games all marked in `gameSet`) and the orchestrator's `RemoveGame` succeeds, the registry's
call returns nil, the lottery's games list keeps exactly the rounds with another GameID, so
the named round is no longer in it, `GetGame` of its GameID returns nil afterwards and
`GetGame` of every other GameID returns what it returned before. -/
theorem C19_RemoveGame_contract (m : QuizGameManager) (game : DiscordQuizGame)
    (deleteOk : Bool) :
    (mapGet m.lotteries game.LotteryID = none →
        m.RemoveGame game deleteOk =
          (some (.lotteryNotFoundWhenRemoveGame game.LotteryID), m)) ∧
      (∀ l, mapGet m.lotteries game.LotteryID = some l → l.gamesIndexed →
        (l.RemoveGame game.GameID deleteOk).1 = none →
        (m.RemoveGame game deleteOk).1 = none ∧
          mapGet (m.RemoveGame game deleteOk).2.lotteries game.LotteryID =
            some (l.RemoveGame game.GameID deleteOk).2 ∧
          (l.RemoveGame game.GameID deleteOk).2.games =
            l.games.filter (fun g => decide (g.GameID ≠ game.GameID)) ∧
          (∀ g ∈ (l.RemoveGame game.GameID deleteOk).2.games, g.GameID ≠ game.GameID) ∧
          (m.RemoveGame game deleteOk).2.GetGame game.GameID = none ∧
          (∀ other, other ≠ game.GameID →
            (m.RemoveGame game deleteOk).2.GetGame other = m.GetGame other)) := by
  constructor
  · intro hnone
    unfold QuizGameManager.RemoveGame
    rw [hnone]
  · intro l ht hidx hok
    have hgames := RemoveGame_ok_games l game.GameID deleteOk hidx hok
    rw [manager_RemoveGame_ok m game deleteOk l ht hok]
    refine ⟨rfl, mapGet_mapPut_same _ _ _, hgames, ?_, mapGet_mapDelete_same _ _, ?_⟩
    · intro g hg
      rw [hgames] at hg
      have := (List.mem_filter.1 hg).2
      simpa using this
    · intro other hother
      exact mapGet_mapDelete_other _ _ _ hother

theorem C19_RemoveGame_contract_witness :
    (mapGet NewQuizGameManager.lotteries (roundRecord "g1").LotteryID = none ∧
      NewQuizGameManager.RemoveGame (roundRecord "g1") true =
        (some (.lotteryNotFoundWhenRemoveGame (roundRecord "g1").LotteryID),
          NewQuizGameManager)) ∧
      (mapGet registryWithTwoRounds.lotteries (roundRecord "g1").LotteryID =
          some lotteryWithTwoRounds ∧
        (∀ g ∈ lotteryWithTwoRounds.games, g.GameID ∈ lotteryWithTwoRounds.gameSet) ∧
        (lotteryWithTwoRounds.RemoveGame (roundRecord "g1").GameID true).1 = none ∧
        ((registryWithTwoRounds.RemoveGame (roundRecord "g1") true).1 = none ∧
          mapGet (registryWithTwoRounds.RemoveGame (roundRecord "g1") true).2.lotteries
              (roundRecord "g1").LotteryID =
            some (lotteryWithTwoRounds.RemoveGame (roundRecord "g1").GameID true).2 ∧
          (lotteryWithTwoRounds.RemoveGame (roundRecord "g1").GameID true).2.games =
            lotteryWithTwoRounds.games.filter
              (fun g => decide (g.GameID ≠ (roundRecord "g1").GameID)) ∧
          (∀ g ∈ (lotteryWithTwoRounds.RemoveGame (roundRecord "g1").GameID true).2.games,
            g.GameID ≠ (roundRecord "g1").GameID) ∧
          (registryWithTwoRounds.RemoveGame (roundRecord "g1") true).2.GetGame
            (roundRecord "g1").GameID = none ∧
          (registryWithTwoRounds.RemoveGame (roundRecord "g1") true).2.GetGame "g2" =
            registryWithTwoRounds.GetGame "g2")) :=
  ⟨⟨by decide, (C19_RemoveGame_contract NewQuizGameManager (roundRecord "g1") true).1
      (by decide)⟩,
    ⟨by decide, by decide, by decide,
      ((C19_RemoveGame_contract registryWithTwoRounds (roundRecord "g1") true).2
        lotteryWithTwoRounds (by decide) (by decide) (by decide)).1,
      ((C19_RemoveGame_contract registryWithTwoRounds (roundRecord "g1") true).2
        lotteryWithTwoRounds (by decide) (by decide) (by decide)).2.1,
      ((C19_RemoveGame_contract registryWithTwoRounds (roundRecord "g1") true).2
        lotteryWithTwoRounds (by decide) (by decide) (by decide)).2.2.1,
      ((C19_RemoveGame_contract registryWithTwoRounds (roundRecord "g1") true).2
        lotteryWithTwoRounds (by decide) (by decide) (by decide)).2.2.2.1,
      ((C19_RemoveGame_contract registryWithTwoRounds (roundRecord "g1") true).2
        lotteryWithTwoRounds (by decide) (by decide) (by decide)).2.2.2.2.1,
      ((C19_RemoveGame_contract registryWithTwoRounds (roundRecord "g1") true).2
        lotteryWithTwoRounds (by decide) (by decide) (by decide)).2.2.2.2.2 "g2"
        (by decide)⟩⟩

theorem Terminate_ok_of_status (g : quizGame) (deleteOk : Bool)
    (h : g.Status = .NotStarted ∨
      (g.Status = .InProgress ∧ g.QuestionMessageID ≠ none ∧ deleteOk = true)) :
    g.Terminate deleteOk = .ok { g with cancelled := true } := by
  unfold quizGame.Terminate
  rcases h with h | ⟨h1, h2, h3⟩
  · rw [h]
  · rw [h1]
    cases hq : g.QuestionMessageID with
    | none => exact absurd hq h2
    | some q => simp only [h3, if_true]

theorem AddGame_replace_at (l : quizGameLottery) (game curr old : quizGame) (deleteOk : Bool)
    (pre post : List quizGame) (hgames : l.games = pre ++ curr :: post)
    (hpre : ∀ g ∈ pre, g.GameID ≠ game.GameID) (hid : curr.GameID = game.GameID)
    (hset : game.GameID ∈ l.gameSet) (ht : curr.Terminate deleteOk = .ok old) :
    l.AddGame game deleteOk =
      (none, quizGameLottery.StartGame
        { l with games := pre ++ { game with phase := .spawned } :: post,
                 detached := l.detached ++ [old] }) := by
  unfold quizGameLottery.AddGame
  rw [if_pos hset]
  unfold quizGameLottery.updateGameLocked
  rw [hgames, replaceGame_at game curr old deleteOk pre post hpre hid ht]

theorem AddGame_ok_places (l : quizGameLottery) (game : quizGame) (deleteOk : Bool)
    (hwf : l.wellIndexed) (hok : (l.AddGame game deleteOk).1 = none) :
    ∃ pre post, (l.AddGame game deleteOk).2.games =
        pre ++ { game with phase := .spawned } :: post ∧
      (∀ g ∈ pre, g.GameID ≠ game.GameID) ∧ (∀ g ∈ post, g.GameID ≠ game.GameID) ∧
      game.GameID ∈ (l.AddGame game deleteOk).2.gameSet := by
  have hwf2 := AddGame_wellIndexed l game deleteOk hwf
  have hpost : ∀ (pre post : List quizGame),
      (l.AddGame game deleteOk).2.games = pre ++ { game with phase := .spawned } :: post →
      ∀ g ∈ post, g.GameID ≠ game.GameID := by
    intro pre post hg g hgp hid
    have hnd := hwf2.2
    rw [hg] at hnd
    simp only [gameIDs, List.map_append, List.map_cons] at hnd
    have h2 := (List.nodup_cons.1 (List.nodup_append.1 hnd).2.1).1
    apply h2
    rw [← hid]
    exact List.mem_map_of_mem _ hgp
  unfold quizGameLottery.AddGame at hok hpost ⊢
  split_ifs at hok hpost ⊢ with hfound
  · unfold quizGameLottery.updateGameLocked at hok hpost ⊢
    cases hr : replaceGame game deleteOk l.games with
    | none => rw [hr] at hok; cases hok
    | some r =>
      cases r with
      | error e => rw [hr] at hok; cases hok
      | ok pr =>
        obtain ⟨games, old⟩ := pr
        obtain ⟨pre, curr, post, e1, e2, e3, e4, e5⟩ :=
          replaceGame_ok_split game deleteOk l.games games old hr
        rw [hr] at hpost
        refine ⟨pre, post, e5, e2, hpost pre post e5, hfound⟩
  · have hnot : ∀ g ∈ l.games, g.GameID ≠ game.GameID :=
      fun g hg hid => hfound (hid ▸ hwf.1 g hg)
    refine ⟨l.games, [], rfl, hnot, (fun g hg => by cases hg), ?_⟩
    simp only [quizGameLottery.addNewGameLocked, quizGameLottery.StartGame, if_neg hfound,
      List.mem_append, List.mem_singleton, or_true]

theorem nodup_gameIDs_split (pre post : List quizGame) (curr : quizGame)
    (h : (gameIDs (pre ++ curr :: post)).Nodup) :
    ∀ g ∈ pre ++ post, g.GameID ≠ curr.GameID := by
  simp only [gameIDs, List.map_append, List.map_cons] at h
  have h1 := List.nodup_append.1 h
  have h2 := List.nodup_cons.1 h1.2.1
  intro g hg hid
  rcases List.mem_append.1 hg with hp | hp
  · exact h1.2.2 (List.mem_map_of_mem _ hp) (by rw [hid]; exact List.mem_cons_self _ _)
  · exact h2.1 (by rw [← hid]; exact List.mem_map_of_mem _ hp)

theorem replaceGame_at_fails (game curr : quizGame) (e : TerminateError) (deleteOk : Bool)
    (pre post : List quizGame) (hpre : ∀ g ∈ pre, g.GameID ≠ game.GameID)
    (hid : curr.GameID = game.GameID) (ht : curr.Terminate deleteOk = .error e) :
    replaceGame game deleteOk (pre ++ curr :: post) = some (.error e) := by
  induction pre with
  | nil => simp only [List.nil_append, replaceGame, if_pos hid, ht]
  | cons g rest ih =>
    have hg : ¬ g.GameID = game.GameID := hpre g (List.mem_cons_self _ _)
    have := ih (fun x hx => hpre x (List.mem_cons_of_mem _ hx))
    simp only [List.cons_append, replaceGame, if_neg hg, List.append_eq, this]

theorem AddGame_replace_at_fails (l : quizGameLottery) (game curr : quizGame)
    (e : TerminateError) (deleteOk : Bool) (pre post : List quizGame)
    (hgames : l.games = pre ++ curr :: post)
    (hpre : ∀ g ∈ pre, g.GameID ≠ game.GameID) (hid : curr.GameID = game.GameID)
    (hset : game.GameID ∈ l.gameSet) (ht : curr.Terminate deleteOk = .error e) :
    l.AddGame game deleteOk = (some (.terminate e), l) := by
  unfold quizGameLottery.AddGame
  rw [if_pos hset]
  unfold quizGameLottery.updateGameLocked
  rw [hgames, replaceGame_at_fails game curr e deleteOk pre post hpre hid ht]

/-- C18: a round is added to a lottery whose games list is well indexed, any sequence of
AddGame, RemoveGame and round-task steps follows, and `AddGame` is called with a second
version of the same GameID while the lottery holds a version `curr` of it.  No other round
of the games list has that GameID.  If `curr` is terminable as it then stands (`Terminate`
succeeds on it: not started, or published and retracted), the second call succeeds, the games
list is the one before the call with the second version in the place of `curr`, and the round
index maps the GameID to the second version.  If `Terminate` fails on `curr`, the call returns
that error and registry and lottery stay as they were, `curr` being still the one round of
that GameID.  Moreover, in every state a lottery reaches by calls of AddGame and RemoveGame
and by round-task steps, no two rounds of the games list have the same GameID. -/
theorem C18_one_round_per_GameID :
    (∀ (m : QuizGameManager) (l0 : quizGameLottery) (first second : DiscordQuizGame)
        (d1 d2 : Bool) (between : List LotteryEvent) (pre post : List quizGame)
        (curr : quizGame),
        l0.wellIndexed → (l0.AddGame (newQuizGame first) d1).1 = none →
        mapGet m.lotteries second.LotteryID =
          some ((l0.AddGame (newQuizGame first) d1).2.run between) →
        second.GameID = first.GameID →
        ((l0.AddGame (newQuizGame first) d1).2.run between).games = pre ++ curr :: post →
        curr.GameID = first.GameID →
        (∀ g ∈ pre ++ post, g.GameID ≠ first.GameID) ∧
          (∀ old, curr.Terminate d2 = .ok old →
            (m.AddGame second d2).1 = none ∧
            (∃ l2, mapGet (m.AddGame second d2).2.lotteries second.LotteryID = some l2 ∧
              l2.games = pre ++ { newQuizGame second with phase := .spawned } :: post) ∧
            (m.AddGame second d2).2.GetGame first.GameID = some (newQuizGame second)) ∧
          (∀ e, curr.Terminate d2 = .error e →
            m.AddGame second d2 = (some (.orchestrator (.terminate e)), m))) ∧
      (∀ (lottery : DiscordQuizGameLottery) (events : List LotteryEvent),
        (gameIDs ((newQuizGameLottery lottery).run events).games).Nodup) := by
  constructor
  · intro m l0 first second d1 d2 between pre post curr hwf0 _ ht hid hgames hcurr
    have hwf := run_wellIndexed _ between (AddGame_wellIndexed l0 (newQuizGame first) d1 hwf0)
    have hnd := hwf.2
    rw [hgames] at hnd
    have hothers := nodup_gameIDs_split pre post curr hnd
    have hidq : (newQuizGame second).GameID = curr.GameID := by
      rw [hcurr]
      exact hid
    have hset : (newQuizGame second).GameID ∈
        ((l0.AddGame (newQuizGame first) d1).2.run between).gameSet := by
      rw [hidq]
      apply hwf.1 curr
      rw [hgames]
      exact List.mem_append_right _ (List.mem_cons_self _ _)
    have hpre : ∀ g ∈ pre, g.GameID ≠ (newQuizGame second).GameID :=
      fun g hg => by rw [hidq]; exact hothers g (List.mem_append_left _ hg)
    refine ⟨?_, ?_, ?_⟩
    · intro g hg
      rw [← hcurr]
      exact hothers g hg
    · intro old hterm
      have hadd := AddGame_replace_at _ (newQuizGame second) curr old d2 pre post hgames
        hpre hidq.symm hset hterm
      have hok : (((l0.AddGame (newQuizGame first) d1).2.run between).AddGame
          (newQuizGame second) d2).1 = none := by rw [hadd]
      rw [manager_AddGame_ok m second d2 _ ht hok]
      refine ⟨rfl, ⟨_, mapGet_mapPut_same _ _ _, by rw [hadd]; rfl⟩, ?_⟩
      simp only [QuizGameManager.GetGame]
      rw [hid]
      exact mapGet_mapPut_same _ _ _
    · intro e hterm
      have hadd := AddGame_replace_at_fails _ (newQuizGame second) curr e d2 pre post hgames
        hpre hidq.symm hset hterm
      rw [manager_AddGame_err m second d2 _ (.terminate e) ht (by rw [hadd])]
      rw [hadd]
      simp only
      rw [mapPut_of_mapGet _ _ _ ht, manager_eta]
  · intro lottery events
    exact (run_wellIndexed _ events (newQuizGameLottery_wellIndexed lottery)).2

theorem C18_one_round_per_GameID_witness :
    ((newQuizGameLottery (lotteryRecord 2 1 5)).wellIndexed ∧
      ((newQuizGameLottery (lotteryRecord 2 1 5)).AddGame (newQuizGame (roundRecord "g1"))
        true).1 = none ∧
      mapGet registryWithPublishedRound.lotteries (roundRecordRevised "g1").LotteryID =
        some (((newQuizGameLottery (lotteryRecord 2 1 5)).AddGame
          (newQuizGame (roundRecord "g1")) true).2.run publishFirstRun) ∧
      (roundRecordRevised "g1").GameID = (roundRecord "g1").GameID ∧
      (((newQuizGameLottery (lotteryRecord 2 1 5)).AddGame (newQuizGame (roundRecord "g1"))
        true).2.run publishFirstRun).games = [] ++ publishedFirstVersion :: [] ∧
      publishedFirstVersion.GameID = (roundRecord "g1").GameID ∧
      publishedFirstVersion.Status = .InProgress) ∧
      (publishedFirstVersion.Terminate true =
          .ok { publishedFirstVersion with cancelled := true } ∧
        (registryWithPublishedRound.AddGame (roundRecordRevised "g1") true).1 = none ∧
        (∃ l2, mapGet (registryWithPublishedRound.AddGame (roundRecordRevised "g1")
            true).2.lotteries (roundRecordRevised "g1").LotteryID = some l2 ∧
          l2.games =
            [] ++ { newQuizGame (roundRecordRevised "g1") with phase := .spawned } :: []) ∧
        (registryWithPublishedRound.AddGame (roundRecordRevised "g1") true).2.GetGame
          (roundRecord "g1").GameID = some (newQuizGame (roundRecordRevised "g1"))) ∧
      (publishedFirstVersion.Terminate false = .error .ErrorUnableToTerminateGame ∧
        registryWithPublishedRound.AddGame (roundRecordRevised "g1") false =
          (some (.orchestrator (.terminate .ErrorUnableToTerminateGame)),
            registryWithPublishedRound)) ∧
      (gameIDs ((newQuizGameLottery (lotteryRecord 2 1 5)).run replaceAndRemoveRun).games).Nodup :=
  ⟨⟨newQuizGameLottery_wellIndexed _, by decide, by decide, by decide, by decide, by decide,
      by decide⟩,
    ⟨by decide,
      (C18_one_round_per_GameID.1 registryWithPublishedRound
        (newQuizGameLottery (lotteryRecord 2 1 5)) (roundRecord "g1")
        (roundRecordRevised "g1") true true publishFirstRun [] [] publishedFirstVersion
        (newQuizGameLottery_wellIndexed _) (by decide) (by decide) (by decide) (by decide)
        (by decide)).2.1 { publishedFirstVersion with cancelled := true } (by decide)⟩,
    ⟨by decide,
      (C18_one_round_per_GameID.1 registryWithPublishedRound
        (newQuizGameLottery (lotteryRecord 2 1 5)) (roundRecord "g1")
        (roundRecordRevised "g1") true false publishFirstRun [] [] publishedFirstVersion
        (newQuizGameLottery_wellIndexed _) (by decide) (by decide) (by decide) (by decide)
        (by decide)).2.2 .ErrorUnableToTerminateGame (by decide)⟩,
    C18_one_round_per_GameID.2 (lotteryRecord 2 1 5) replaceAndRemoveRun⟩

/-! ## Claims about Terminate -/

theorem TerminateTraced_agrees (g : quizGame) (deleteOk : Bool) :
    g.Terminate deleteOk =
      match (g.TerminateTraced deleteOk).err with
      | none => .ok (g.TerminateTraced deleteOk).round
      | some e => .error e := by
  unfold quizGame.Terminate quizGame.TerminateTraced
  cases g.Status with
  | NotStarted => rfl
  | InProgress =>
    cases g.QuestionMessageID with
    | none => rfl
    | some q => cases deleteOk <;> rfl
  | Finished => rfl

/-- The outcomes of `Terminate`: it returns nil exactly when Status is NotStarted, or Status is
InProgress with a recorded question message whose retraction succeeds; then the `cancelFunc`
the round holds is called, and from NotStarted no retraction is attempted.  In every other
case it returns an error and leaves the round as it was; on a Finished round the error is
ErrorGameFinished and no retraction is attempted. -/
theorem Terminate_outcome_table (g : quizGame) (deleteOk : Bool) :
    ((g.TerminateTraced deleteOk).err = none ↔
        (g.Status = .NotStarted ∨
          (g.Status = .InProgress ∧ g.QuestionMessageID ≠ none ∧ deleteOk = true))) ∧
      ((g.TerminateTraced deleteOk).err = none →
        (g.TerminateTraced deleteOk).round = { g with cancelled := true } ∧
        g.Terminate deleteOk = .ok { g with cancelled := true }) ∧
      (g.Status = .NotStarted → (g.TerminateTraced deleteOk).retractionAttempted = false) ∧
      (∀ e, (g.TerminateTraced deleteOk).err = some e →
        (g.TerminateTraced deleteOk).round = g ∧ g.Terminate deleteOk = .error e) ∧
      (g.Status = .Finished →
        (g.TerminateTraced deleteOk).err = some .ErrorGameFinished ∧
        (g.TerminateTraced deleteOk).retractionAttempted = false) := by
  have hagree := TerminateTraced_agrees g deleteOk
  unfold quizGame.TerminateTraced at hagree ⊢
  cases hs : g.Status with
  | NotStarted =>
    rw [hs] at hagree
    simp only at hagree ⊢
    simp [hagree]
  | InProgress =>
    rw [hs] at hagree
    cases hq : g.QuestionMessageID with
    | none =>
      rw [hq] at hagree
      simp only at hagree ⊢
      simp [hagree]
    | some q =>
      rw [hq] at hagree
      cases deleteOk with
      | true =>
        simp only [if_true] at hagree ⊢
        simp [hagree]
      | false =>
        simp only [Bool.false_eq_true, if_false] at hagree ⊢
        simp [hagree]
  | Finished =>
    rw [hs] at hagree
    simp only at hagree ⊢
    simp [hagree]

theorem Terminate_outcome_table_witness :
    (((openRound "g1" none).TerminateTraced true).err = none ↔
        ((openRound "g1" none).Status = .NotStarted ∨
          ((openRound "g1" none).Status = .InProgress ∧
            (openRound "g1" none).QuestionMessageID ≠ none ∧ true = true))) ∧
      (((openRound "g1" none).TerminateTraced true).err = none ∧
        ((openRound "g1" none).TerminateTraced true).round =
          { openRound "g1" none with cancelled := true } ∧
        (openRound "g1" none).Terminate true =
          .ok { openRound "g1" none with cancelled := true }) ∧
      (((openRound "g1" none).TerminateTraced false).err =
          some .ErrorUnableToTerminateGame ∧
        ((openRound "g1" none).TerminateTraced false).round = openRound "g1" none ∧
        (openRound "g1" none).Terminate false = .error .ErrorUnableToTerminateGame) ∧
      ((closedRound "g1" ["A"]).Status = .Finished ∧
        ((closedRound "g1" ["A"]).TerminateTraced true).err = some .ErrorGameFinished ∧
        ((closedRound "g1" ["A"]).TerminateTraced true).retractionAttempted = false) :=
  ⟨(Terminate_outcome_table (openRound "g1" none) true).1,
    ⟨by decide, (Terminate_outcome_table (openRound "g1" none) true).2.1 (by decide)⟩,
    ⟨by decide, (Terminate_outcome_table (openRound "g1" none) false).2.2.2.1
      .ErrorUnableToTerminateGame (by decide)⟩,
    ⟨by decide, (Terminate_outcome_table (closedRound "g1" ["A"]) true).2.2.2.2
      (by decide)⟩⟩

/-- C15 (the code departs from the claim): a round not yet started is added and removed before
its goroutine has entered `Play`.  `Terminate` returns nil and calls the `cancelFunc` that
`newQuizGame` installed; then `Play` installs a fresh context and `cancelFunc`, so the round's
task is not cancelled: the branch `<-g.ctx.Done()` of `upcoming` cannot be taken, the timer
fires, and the removed round publishes its question and is in progress, its task still counted
by the lottery. -/
theorem C15_terminate_before_play_cancels_nothing :
    ({ newQuizGame (roundRecord "g1") with phase := .spawned } : quizGame).Terminate true =
        .ok { newQuizGame (roundRecord "g1") with cancelled := true, phase := .spawned } ∧
      (((newQuizGameLottery (lotteryRecord 1 1 5)).AddGame (newQuizGame (roundRecord "g1"))
        true).2.RemoveGame "g1" true).1 = none ∧
      ((newQuizGameLottery (lotteryRecord 1 1 5)).run removedBeforePlayRun).games = [] ∧
      ((newQuizGameLottery (lotteryRecord 1 1 5)).run removedBeforePlayRun).detached.map
          (fun g => (g.GameID, g.Status, g.cancelled, g.phase)) =
        [("g1", .NotStarted, true, .spawned)] ∧
      (((newQuizGameLottery (lotteryRecord 1 1 5)).run removedBeforePlayRun).step
          detachedPlayBegin).detached.map
          (fun g => (g.GameID, g.Status, g.cancelled, g.phase)) =
        [("g1", .NotStarted, false, .upcoming)] ∧
      ((((newQuizGameLottery (lotteryRecord 1 1 5)).run removedBeforePlayRun).step
          detachedPlayBegin).step detachedContextDone) =
        (((newQuizGameLottery (lotteryRecord 1 1 5)).run removedBeforePlayRun).step
          detachedPlayBegin) ∧
      ((((newQuizGameLottery (lotteryRecord 1 1 5)).run removedBeforePlayRun).step
          detachedPlayBegin).step detachedPublish).detached.map
          (fun g => (g.GameID, g.Status, g.QuestionMessageID, g.taskRunning)) =
        [("g1", .InProgress, some "q", true)] ∧
      ((((newQuizGameLottery (lotteryRecord 1 1 5)).run removedBeforePlayRun).step
          detachedPlayBegin).step detachedPublish).wait2BeFinishedGameCount = 1 ∧
      ((PlayState.start (roundRecord "g1")).run
          [PlayEvent.terminate true, playOn, playOn]).round.Status = .InProgress := by
  decide

/-- C16: for every InProgress round with a recorded question message whose retraction fails,
`Terminate` returns ErrorUnableToTerminateGame after attempting the retraction, and the round
is left exactly as it was: Status still InProgress, message handles, Participants and Winners
unchanged, and its context not cancelled by the call. -/
theorem C16_failed_retraction_leaves_round (g : quizGame) (q : String)
    (hs : g.Status = .InProgress) (hq : g.QuestionMessageID = some q) :
    g.TerminateTraced false =
        { err := some .ErrorUnableToTerminateGame, round := g, retractionAttempted := true } ∧
      g.Terminate false = .error .ErrorUnableToTerminateGame ∧
      (g.TerminateTraced false).round.Status = .InProgress ∧
      (g.TerminateTraced false).round.QuestionMessageID = g.QuestionMessageID ∧
      (g.TerminateTraced false).round.AnswerMessageID = g.AnswerMessageID ∧
      (g.TerminateTraced false).round.Participants = g.Participants ∧
      (g.TerminateTraced false).round.Winners = g.Winners ∧
      (g.TerminateTraced false).round.cancelled = g.cancelled := by
  have h1 : g.TerminateTraced false =
      { err := some .ErrorUnableToTerminateGame, round := g, retractionAttempted := true } := by
    unfold quizGame.TerminateTraced
    rw [hs]
    simp only [hq, Bool.false_eq_true, if_false]
  have h2 : g.Terminate false = .error .ErrorUnableToTerminateGame := by
    rw [TerminateTraced_agrees, h1]
  rw [h1]
  exact ⟨rfl, h2, hs, rfl, rfl, rfl, rfl, rfl⟩

theorem C16_failed_retraction_leaves_round_witness :
    (openRound "g1" none).Status = .InProgress ∧
      (openRound "g1" none).QuestionMessageID = some "q" ∧
      ((openRound "g1" none).TerminateTraced false =
          { err := some .ErrorUnableToTerminateGame, round := openRound "g1" none,
            retractionAttempted := true } ∧
        (openRound "g1" none).Terminate false = .error .ErrorUnableToTerminateGame ∧
        ((openRound "g1" none).TerminateTraced false).round.Status = .InProgress ∧
        ((openRound "g1" none).TerminateTraced false).round.QuestionMessageID =
          (openRound "g1" none).QuestionMessageID ∧
        ((openRound "g1" none).TerminateTraced false).round.AnswerMessageID =
          (openRound "g1" none).AnswerMessageID ∧
        ((openRound "g1" none).TerminateTraced false).round.Participants =
          (openRound "g1" none).Participants ∧
        ((openRound "g1" none).TerminateTraced false).round.Winners =
          (openRound "g1" none).Winners ∧
        ((openRound "g1" none).TerminateTraced false).round.cancelled =
          (openRound "g1" none).cancelled) :=
  ⟨by decide, by decide,
    C16_failed_retraction_leaves_round (openRound "g1" none) "q" (by decide) (by decide)⟩

/-! ## Claims about the orchestrator's loop -/

/-- C11 (the claim as stated fails): on a tick, a lottery with three registered rounds and
a count of unfinished rounds of zero terminates, while a lottery with no registered round
does not: its loop goes on. -/
theorem C11_tick_terminates_with_rounds :
    scenarioA.games.length = 3 ∧ scenarioA.wait2BeFinishedGameCount = 0 ∧
      scenarioA.StartIteration .tick = some .terminating ∧
      (newQuizGameLottery (lotteryRecord 3 2 2)).games.length = 0 ∧
      (newQuizGameLottery (lotteryRecord 3 2 2)).StartIteration .tick = none := by
  decide

/-- C11 (amended): on an idle-check tick a lottery terminates if and only if it has at
least one registered round and its count of unfinished rounds is zero; a lottery with no
registered round, and one whose count is not zero, does not terminate on the tick: the loop
goes on. -/
theorem C11_tick_rule (l : quizGameLottery) :
    (l.StartIteration .tick = some .terminating ↔
        (l.games ≠ [] ∧ l.wait2BeFinishedGameCount = 0)) ∧
      (l.games = [] → l.StartIteration .tick = none) ∧
      (l.wait2BeFinishedGameCount ≠ 0 → l.StartIteration .tick = none) ∧
      (l.StartIteration .tick = none ∨ l.StartIteration .tick = some .terminating) := by
  unfold quizGameLottery.StartIteration
  cases hg : l.games with
  | nil => simp
  | cons g rest =>
    by_cases hc : l.wait2BeFinishedGameCount = 0
    · simp [hc]
    · simp [hc]

theorem C11_tick_rule_witness :
    (scenarioA.StartIteration .tick = some .terminating ↔
        (scenarioA.games ≠ [] ∧ scenarioA.wait2BeFinishedGameCount = 0)) ∧
      ((newQuizGameLottery (lotteryRecord 3 2 2)).games = [] ∧
        (newQuizGameLottery (lotteryRecord 3 2 2)).StartIteration .tick = none) ∧
      (lotteryWithOpenRound.wait2BeFinishedGameCount ≠ 0 ∧
        lotteryWithOpenRound.StartIteration .tick = none) :=
  ⟨(C11_tick_rule scenarioA).1,
    ⟨by decide, (C11_tick_rule (newQuizGameLottery (lotteryRecord 3 2 2))).2.1 (by decide)⟩,
    ⟨by decide, (C11_tick_rule lotteryWithOpenRound).2.2.1 (by decide)⟩⟩

/-! ## Claims about announcing -/

theorem announce_finishAttempts (l : quizGameLottery) (winners : List String)
    (fo no : Nat → Bool) :
    (l.announceFinished winners fo no).2.finishAttempts =
      if fo 0 = true then [true] else if fo 1 = true then [false, true]
      else [false, false, fo 2] := by
  unfold quizGameLottery.announceFinished
  cases h0 : fo 0 <;> cases h1 : fo 1 <;> cases h2 : fo 2 <;>
    cases n0 : no 0 <;> cases n1 : no 1 <;> cases n2 : no 2 <;>
    simp [announceLoop, announceAttempt, h0, h1, h2, n0, n1, n2]

theorem announce_notifyAttempts (l : quizGameLottery) (winners : List String)
    (fo no : Nat → Bool) :
    (l.announceFinished winners fo no).2.notifyAttempts =
      if no 0 = true then [true] else if no 1 = true then [false, true]
      else [false, false, no 2] := by
  unfold quizGameLottery.announceFinished
  cases h0 : fo 0 <;> cases h1 : fo 1 <;> cases h2 : fo 2 <;>
    cases n0 : no 0 <;> cases n1 : no 1 <;> cases n2 : no 2 <;>
    simp [announceLoop, announceAttempt, h0, h1, h2, n0, n1, n2]

theorem firstSuccessFrom_gt (outcome : Nat → Bool) (fuel k : Nat) :
    k < firstSuccessFrom outcome fuel k := by
  induction fuel generalizing k with
  | zero => simp [firstSuccessFrom]
  | succ f ih =>
    simp only [firstSuccessFrom]
    split_ifs
    · omega
    · have := ih (k + 1)
      omega

theorem attempts_shape (outcome : Nat → Bool) (attempts : List Bool)
    (h : attempts = if outcome 0 = true then [true] else if outcome 1 = true then [false, true]
      else [false, false, outcome 2]) :
    attempts.length ≤ 3 ∧
      attempts = (List.range attempts.length).map outcome ∧
      (∀ k, k + 1 < attempts.length → outcome k = false) ∧
      (∀ bound, 3 ≤ bound → attempts.length = min 3 (firstSuccessWithin outcome bound)) := by
  have hfs : ∀ bound, 3 ≤ bound → firstSuccessWithin outcome bound =
      if outcome 0 = true then 1 else if outcome 1 = true then 2
      else firstSuccessFrom outcome (bound - 2) 2 := by
    intro bound hb
    obtain ⟨b, rfl⟩ : ∃ b, bound = b + 3 := ⟨bound - 3, by omega⟩
    simp only [firstSuccessWithin, firstSuccessFrom]
  have hgt : ∀ fuel, 2 < firstSuccessFrom outcome fuel 2 := fun fuel =>
    firstSuccessFrom_gt outcome fuel 2
  cases h0 : outcome 0 with
  | true =>
    simp only [h0, if_true] at h
    subst h
    refine ⟨by simp, by simp [List.range_succ, h0], fun k hk => by simp at hk, ?_⟩
    intro bound hb
    rw [hfs bound hb]
    simp [h0]
  | false =>
    cases h1 : outcome 1 with
    | true =>
      simp only [h0, h1, if_true, Bool.false_eq_true, if_false] at h
      subst h
      refine ⟨by simp, by simp [List.range_succ, h0, h1], ?_, ?_⟩
      · intro k hk
        have hk0 : k = 0 := by
          simp only [List.length_cons, List.length_nil] at hk
          omega
        rw [hk0, h0]
      · intro bound hb
        rw [hfs bound hb]
        simp [h0, h1]
    | false =>
      simp only [h0, h1, Bool.false_eq_true, if_false] at h
      subst h
      refine ⟨by simp, by simp [List.range_succ, h0, h1], ?_, ?_⟩
      · intro k hk
        have hk2 : k = 0 ∨ k = 1 := by
          simp only [List.length_cons, List.length_nil] at hk
          omega
        rcases hk2 with hk2 | hk2
        · rw [hk2, h0]
        · rw [hk2, h1]
      · intro bound hb
        rw [hfs bound hb]
        have := hgt (bound - 2)
        simp only [h0, h1, Bool.false_eq_true, if_false, List.length_cons, List.length_nil]
        omega

/-- C14: in `announceFinished`, for every pattern of outcomes of the attempts, each of the
two steps is attempted at most 3 times, its attempts are its outcomes in order, no attempt
follows a successful one, and the number of its attempts is the minimum of 3 and the index of
its first successful attempt, whatever the outcomes of the other step. -/
theorem C14_bounded_independent_retry (l : quizGameLottery) (winners : List String)
    (finishOutcome notifyOutcome : Nat → Bool) :
    ((l.announceFinished winners finishOutcome notifyOutcome).2.finishAttempts.length ≤ 3 ∧
        (l.announceFinished winners finishOutcome notifyOutcome).2.finishAttempts =
          (List.range (l.announceFinished winners finishOutcome
            notifyOutcome).2.finishAttempts.length).map finishOutcome ∧
        (∀ k, k + 1 < (l.announceFinished winners finishOutcome
            notifyOutcome).2.finishAttempts.length → finishOutcome k = false) ∧
        (∀ bound, 3 ≤ bound →
          (l.announceFinished winners finishOutcome notifyOutcome).2.finishAttempts.length =
            min 3 (firstSuccessWithin finishOutcome bound))) ∧
      ((l.announceFinished winners finishOutcome notifyOutcome).2.notifyAttempts.length ≤ 3 ∧
        (l.announceFinished winners finishOutcome notifyOutcome).2.notifyAttempts =
          (List.range (l.announceFinished winners finishOutcome
            notifyOutcome).2.notifyAttempts.length).map notifyOutcome ∧
        (∀ k, k + 1 < (l.announceFinished winners finishOutcome
            notifyOutcome).2.notifyAttempts.length → notifyOutcome k = false) ∧
        (∀ bound, 3 ≤ bound →
          (l.announceFinished winners finishOutcome notifyOutcome).2.notifyAttempts.length =
            min 3 (firstSuccessWithin notifyOutcome bound))) :=
  ⟨attempts_shape finishOutcome _ (announce_finishAttempts l winners finishOutcome notifyOutcome),
    attempts_shape notifyOutcome _ (announce_notifyAttempts l winners finishOutcome
      notifyOutcome)⟩

theorem C14_bounded_independent_retry_witness :
    (scenarioA.announceFinished ["A", "B"] succeedsThird neverSucceeds).2 =
        { finished := true, notified := false, finishAttempts := [false, false, true],
          notifyAttempts := [false, false, false] } ∧
      (scenarioA.announceFinished ["A", "B"] succeedsFirst succeedsThird).2 =
        { finished := true, notified := true, finishAttempts := [true],
          notifyAttempts := [false, false, true] } ∧
      (scenarioA.announceFinished ["A", "B"] succeedsFirst succeedsThird).2.finishAttempts.length
        = min 3 (firstSuccessWithin succeedsFirst 3) ∧
      (scenarioA.announceFinished ["A", "B"] succeedsFirst
          succeedsThird).2.notifyAttempts.length =
        min 3 (firstSuccessWithin succeedsThird 5) ∧
      succeedsThird 1 = false :=
  ⟨by decide, by decide,
    (C14_bounded_independent_retry scenarioA ["A", "B"] succeedsFirst succeedsThird).1.2.2.2 3
      (by decide),
    (C14_bounded_independent_retry scenarioA ["A", "B"] succeedsFirst succeedsThird).2.2.2.2 5
      (by decide),
    (C14_bounded_independent_retry scenarioA ["A", "B"] succeedsFirst succeedsThird).2.2.2.1 1
      (by decide)⟩

/-! ## Claims about persisting a finished lottery -/

/-- C13 (the claim as stated fails): the row of the lottery is marked Finished by
`UpdateFinished`, then the transaction that creates the reward fails at the whitelist users;
`finishLottery` reports failure and the lottery stays persisted as Finished with no quest, no
whitelist and no whitelist user. -/
theorem C13_finished_without_reward :
    (scenarioA.finishLottery databasesBeforeFinish questEnv true .usersFail).1 = false ∧
      mapGet (scenarioA.finishLottery databasesBeforeFinish questEnv true
        .usersFail).2.lotteryStatus "L" = some .Finished ∧
      (scenarioA.finishLottery databasesBeforeFinish questEnv true .usersFail).2.quests = [] ∧
      (scenarioA.finishLottery databasesBeforeFinish questEnv true .usersFail).2.whitelists
        = [] ∧
      (scenarioA.finishLottery databasesBeforeFinish questEnv true
        .usersFail).2.whitelistUsers = [] := by
  decide

/-- C13 (amended): `finishLottery` makes two separate writes.  When the update of the lottery
fails nothing is written and the reward is not attempted.  When it succeeds the lottery row
is persisted as Finished whatever happens next: if the reward transaction fails, the method
reports failure and the quest, whitelist and whitelist-user tables are unchanged, and if it
commits, the method reports success and the quest, the whitelist and one whitelist user for
each winner are added together. -/
theorem C13_two_separate_writes (l : quizGameLottery) (db : Databases) (env : QuestEnv)
    (tx : TxOutcome) :
    l.finishLottery db env false tx = (false, db) ∧
      (l.finishLottery db env true tx).2.lotteryStatus = (UpdateFinished l db).lotteryStatus ∧
      (mapGet db.lotteryStatus l.LotteryID ≠ none →
        mapGet (l.finishLottery db env true tx).2.lotteryStatus l.LotteryID =
          some .Finished) ∧
      (tx ≠ .committed →
        (l.finishLottery db env true tx).1 = false ∧
        (l.finishLottery db env true tx).2.quests = db.quests ∧
        (l.finishLottery db env true tx).2.whitelists = db.whitelists ∧
        (l.finishLottery db env true tx).2.whitelistUsers = db.whitelistUsers) ∧
      (tx = .committed →
        (l.finishLottery db env true tx).1 = true ∧
        (l.finishLottery db env true tx).2.quests = db.quests ++ [questOf l env] ∧
        (l.finishLottery db env true tx).2.whitelists = db.whitelists ++
          [{ WhitelistID := env.whitelistID, WhitelistName := env.date ++ " Q&A Winners" }] ∧
        (l.finishLottery db env true tx).2.whitelistUsers = db.whitelistUsers ++
          l.Winners.map (fun did =>
            { WhitelistID := env.whitelistID, IdentityType := "discord_ids",
              Identity := did })) := by
  have hup : (UpdateFinished l db).quests = db.quests ∧
      (UpdateFinished l db).whitelists = db.whitelists ∧
      (UpdateFinished l db).whitelistUsers = db.whitelistUsers := by
    unfold UpdateFinished
    split <;> exact ⟨rfl, rfl, rfl⟩
  have hst : mapGet db.lotteryStatus l.LotteryID ≠ none →
      mapGet (UpdateFinished l db).lotteryStatus l.LotteryID = some .Finished := by
    intro hrow
    unfold UpdateFinished
    cases hg : mapGet db.lotteryStatus l.LotteryID with
    | none => exact absurd hg hrow
    | some st => exact mapGet_mapPut_same _ _ _
  obtain ⟨hq, hw, hu⟩ := hup
  refine ⟨rfl, ?_, ?_, ?_, ?_⟩
  · cases tx <;> rfl
  · intro hrow
    have := hst hrow
    cases tx <;> exact this
  · intro hne
    cases tx with
    | committed => exact absurd rfl hne
    | questFails => exact ⟨rfl, hq, hw, hu⟩
    | whitelistFails => exact ⟨rfl, hq, hw, hu⟩
    | usersFail => exact ⟨rfl, hq, hw, hu⟩
    | commitFails => exact ⟨rfl, hq, hw, hu⟩
  · intro heq
    subst heq
    simp only [quizGameLottery.finishLottery, quizGameLottery.createCommunityQuest, hq, hw, hu,
      Bool.true_eq_false, if_false, and_self]

theorem C13_two_separate_writes_witness :
    scenarioA.finishLottery databasesBeforeFinish questEnv false .committed =
        (false, databasesBeforeFinish) ∧
      (mapGet databasesBeforeFinish.lotteryStatus scenarioA.LotteryID ≠ none ∧
        mapGet (scenarioA.finishLottery databasesBeforeFinish questEnv true
          .commitFails).2.lotteryStatus scenarioA.LotteryID = some .Finished) ∧
      (TxOutcome.commitFails ≠ .committed ∧
        (scenarioA.finishLottery databasesBeforeFinish questEnv true .commitFails).1 = false ∧
        (scenarioA.finishLottery databasesBeforeFinish questEnv true .commitFails).2.quests =
          databasesBeforeFinish.quests ∧
        (scenarioA.finishLottery databasesBeforeFinish questEnv true
          .commitFails).2.whitelists = databasesBeforeFinish.whitelists ∧
        (scenarioA.finishLottery databasesBeforeFinish questEnv true
          .commitFails).2.whitelistUsers = databasesBeforeFinish.whitelistUsers) ∧
      (scenarioA.finishLottery databasesBeforeFinish questEnv true .committed).1 = true :=
  ⟨(C13_two_separate_writes scenarioA databasesBeforeFinish questEnv .committed).1,
    ⟨by decide, (C13_two_separate_writes scenarioA databasesBeforeFinish questEnv
      .commitFails).2.2.1 (by decide)⟩,
    ⟨by decide, (C13_two_separate_writes scenarioA databasesBeforeFinish questEnv
      .commitFails).2.2.2.1 (by decide)⟩,
    ((C13_two_separate_writes scenarioA databasesBeforeFinish questEnv
      .committed).2.2.2.2 rfl).1⟩

/-! ## Claims about option ids -/

theorem digitValue_digitChar (m : Nat) (h : m < 10) :
    digitValue (Nat.digitChar m) = some m := by
  interval_cases m <;> decide

theorem parseDigits_toDigitsCore (fuel n : Nat) (ds : List Char) (h : n < fuel) :
    parseDigits (Nat.toDigitsCore 10 fuel n ds) 0 = parseDigits ds n := by
  induction fuel generalizing n ds with
  | zero => omega
  | succ f ih =>
    have hd := digitValue_digitChar (n % 10) (Nat.mod_lt n (by decide))
    simp only [Nat.toDigitsCore]
    split_ifs with h0
    · have hn : n % 10 = n := by omega
      rw [hn] at hd
      simp only [parseDigits, hn, hd, Nat.zero_mul, Nat.zero_add]
    · rw [ih (n / 10) _ (by omega)]
      have hn : n / 10 * 10 + n % 10 = n := by omega
      simp only [parseDigits, hd, hn]

theorem toDigitsCore_ne_nil (fuel n : Nat) (ds : List Char) (h : 0 < fuel ∨ ds ≠ []) :
    Nat.toDigitsCore 10 fuel n ds ≠ [] := by
  induction fuel generalizing n ds with
  | zero =>
    rcases h with h | h
    · omega
    · simpa [Nat.toDigitsCore] using h
  | succ f ih =>
    simp only [Nat.toDigitsCore]
    split_ifs
    · simp
    · exact ih _ _ (Or.inr (by simp))

/-- Parsing the decimal string of a natural number below 2^63 gives the number back. -/
theorem ParseInt_toString (n : Nat) (h : n < 2 ^ 63) :
    ParseInt (toString n) = some (n : Int) := by
  have hlist : (toString n).toList = Nat.toDigits 10 n := rfl
  have hparse : parseDigits (Nat.toDigits 10 n) 0 = some n := by
    unfold Nat.toDigits
    rw [parseDigits_toDigitsCore (n + 1) n [] (by omega)]
    rfl
  have hne : Nat.toDigits 10 n ≠ [] := toDigitsCore_ne_nil (n + 1) n [] (Or.inl (by omega))
  unfold ParseInt
  rw [hlist]
  cases hd : Nat.toDigits 10 n with
  | nil => exact absurd hd hne
  | cons c cs =>
    rw [hd] at hparse
    have hdigit : digitValue c ≠ none := by
      intro hnone
      simp only [parseDigits, hnone] at hparse
      cases hparse
    have hminus : c ≠ '-' := by
      intro hc
      rw [hc] at hdigit
      exact hdigit (by decide)
    have hplus : c ≠ '+' := by
      intro hc
      rw [hc] at hdigit
      exact hdigit (by decide)
    simp only [if_neg hminus, if_neg hplus, hparse, if_pos h]

theorem optionCustomIDFrom_first (correct : String) (options : List String) (k : Nat)
    (h : correct ∈ options) :
    ∃ i, options.get? i = some correct ∧ (∀ j, j < i → options.get? j ≠ some correct) ∧
      optionCustomIDFrom correct options k = toString (k + i + 1) := by
  induction options generalizing k with
  | nil => cases h
  | cons opt rest ih =>
    by_cases hc : correct = opt
    · refine ⟨0, by rw [hc]; rfl, fun j hj => by omega, ?_⟩
      simp only [optionCustomIDFrom, if_pos hc, Nat.add_zero]
    · have hrest : correct ∈ rest := by
        rcases List.mem_cons.1 h with h1 | h1
        · exact absurd h1 hc
        · exact h1
      obtain ⟨i, h1, h2, h3⟩ := ih (k + 1) hrest
      refine ⟨i + 1, h1, ?_, ?_⟩
      · intro j hj
        cases j with
        | zero =>
          simp only [List.get?_cons_zero, ne_eq, Option.some.injEq]
          exact fun heq => hc heq.symm
        | succ j' =>
          simp only [List.get?_cons_succ]
          exact h2 j' (by omega)
      · simp only [optionCustomIDFrom, if_neg hc, h3]
        congr 1
        omega

/-- C20: for every round whose AnswerOptions (a slice, so shorter than 2^63) contain
CorrectAnswerOption, `newQuizGame` sets CorrectAnswerOptionCustomID to the decimal string of
the 1-based position of the first occurrence of CorrectAnswerOption, that string parses back
to the position, and `answerOptionFromOptionID` of it returns CorrectAnswerOption. -/
theorem C20_correct_option_round_trip (game : DiscordQuizGame)
    (hmem : game.CorrectAnswerOption ∈ game.AnswerOptions)
    (hlen : game.AnswerOptions.length < 2 ^ 63) :
    ∃ i, game.AnswerOptions.get? i = some game.CorrectAnswerOption ∧
      (∀ j, j < i → game.AnswerOptions.get? j ≠ some game.CorrectAnswerOption) ∧
      (newQuizGame game).CorrectAnswerOptionCustomID = toString (i + 1) ∧
      ParseInt (newQuizGame game).CorrectAnswerOptionCustomID = some ((i + 1 : Nat) : Int) ∧
      (newQuizGame game).answerOptionFromOptionID
          (newQuizGame game).CorrectAnswerOptionCustomID =
        .ok game.CorrectAnswerOption := by
  obtain ⟨i, h1, h2, h3⟩ :=
    optionCustomIDFrom_first game.CorrectAnswerOption game.AnswerOptions 0 hmem
  have hi : i < game.AnswerOptions.length := by
    by_contra hge
    rw [List.get?_eq_none.2 (by omega)] at h1
    cases h1
  have hid : (newQuizGame game).CorrectAnswerOptionCustomID = toString (i + 1) := by
    simp only [newQuizGame, h3, Nat.zero_add]
  have hp : ParseInt (toString (i + 1)) = some ((i + 1 : Nat) : Int) :=
    ParseInt_toString (i + 1) (by omega)
  refine ⟨i, h1, h2, hid, by rw [hid, hp], ?_⟩
  unfold quizGame.answerOptionFromOptionID
  rw [hid, hp]
  have hneg : ¬ (((i + 1 : Nat) : Int) - 1 < 0) := by omega
  have hidx : (((i + 1 : Nat) : Int) - 1).toNat = i := by omega
  simp only [hneg, if_false, hidx]
  have h1q : (newQuizGame game).AnswerOptions.get? i = some game.CorrectAnswerOption := h1
  rw [h1q]

theorem C20_correct_option_round_trip_witness :
    (roundRecordRevised "g1").CorrectAnswerOption ∈ (roundRecordRevised "g1").AnswerOptions ∧
      (roundRecordRevised "g1").AnswerOptions.length < 2 ^ 63 ∧
      (newQuizGame (roundRecordRevised "g1")).CorrectAnswerOptionCustomID = "2" ∧
      (∃ i, (roundRecordRevised "g1").AnswerOptions.get? i =
          some (roundRecordRevised "g1").CorrectAnswerOption ∧
        (∀ j, j < i → (roundRecordRevised "g1").AnswerOptions.get? j ≠
          some (roundRecordRevised "g1").CorrectAnswerOption) ∧
        (newQuizGame (roundRecordRevised "g1")).CorrectAnswerOptionCustomID =
          toString (i + 1) ∧
        ParseInt (newQuizGame (roundRecordRevised "g1")).CorrectAnswerOptionCustomID =
          some ((i + 1 : Nat) : Int) ∧
        (newQuizGame (roundRecordRevised "g1")).answerOptionFromOptionID
            (newQuizGame (roundRecordRevised "g1")).CorrectAnswerOptionCustomID =
          .ok (roundRecordRevised "g1").CorrectAnswerOption) :=
  ⟨by decide, by decide, by decide,
    C20_correct_option_round_trip (roundRecordRevised "g1") (by decide) (by decide)⟩

/-! ## Claims about AddLottery -/

theorem AddLotteryTraced_agrees (m : QuizGameManager) (lottery : DiscordQuizGameLottery) :
    (m.AddLotteryTraced lottery).manager = m.AddLottery lottery := by
  unfold QuizGameManager.AddLotteryTraced QuizGameManager.AddLottery
  cases mapGet m.lotteries lottery.LotteryID <;> rfl

theorem mapKeys_mapPut_of_mapGet {β : Type} (m : List (String × β)) (key : String) (v0 v : β)
    (h : mapGet m key = some v0) : mapKeys (mapPut m key v) = mapKeys m := by
  induction m with
  | nil => simp [mapGet] at h
  | cons e rest ih =>
    obtain ⟨k, w⟩ := e
    by_cases hk : k = key
    · subst hk
      simp only [mapPut, if_true, mapKeys, List.map_cons]
    · simp only [mapGet, hk, if_false] at h
      have := ih h
      simp only [mapKeys] at this
      simp only [mapPut, if_neg hk, mapKeys, List.map_cons, this]

/-- C23: when the LotteryID of the record is tracked, with orchestrator `gl`, `AddLottery`
creates and starts no orchestrator; the keys of the lottery index and the round index are
unchanged, every other LotteryID keeps its orchestrator, and the tracked one is `gl` with the
supplied record in place of its own: its games list, its game-id set, its counter of
unfinished rounds, its signal channel and its detached rounds are those of `gl`. -/
theorem C23_AddLottery_tracked_frame (m : QuizGameManager) (lottery : DiscordQuizGameLottery)
    (gl : quizGameLottery) (ht : mapGet m.lotteries lottery.LotteryID = some gl) :
    (m.AddLotteryTraced lottery).started = none ∧
      (m.AddLotteryTraced lottery).manager = m.AddLottery lottery ∧
      mapKeys (m.AddLottery lottery).lotteries = mapKeys m.lotteries ∧
      (m.AddLottery lottery).ongoingGames = m.ongoingGames ∧
      (∀ other, other ≠ lottery.LotteryID →
        mapGet (m.AddLottery lottery).lotteries other = mapGet m.lotteries other) ∧
      ∃ gl2, mapGet (m.AddLottery lottery).lotteries lottery.LotteryID = some gl2 ∧
        gl2.toDiscordQuizGameLottery = lottery ∧
        gl2.games = gl.games ∧ gl2.gameSet = gl.gameSet ∧
        gl2.wait2BeFinishedGameCount = gl.wait2BeFinishedGameCount ∧
        gl2.finalizeLotteryChan = gl.finalizeLotteryChan ∧ gl2.detached = gl.detached := by
  have hm : m.AddLottery lottery =
      { m with lotteries :=
          mapPut m.lotteries lottery.LotteryID { gl with toDiscordQuizGameLottery := lottery } } := by
    unfold QuizGameManager.AddLottery
    rw [ht]
  refine ⟨?_, AddLotteryTraced_agrees m lottery, ?_, ?_, ?_, ?_⟩
  · unfold QuizGameManager.AddLotteryTraced
    rw [ht]
  · rw [hm]
    exact mapKeys_mapPut_of_mapGet _ _ gl _ ht
  · rw [hm]
  · intro other hother
    rw [hm]
    exact mapGet_mapPut_other _ _ _ _ hother
  · rw [hm]
    exact ⟨_, mapGet_mapPut_same _ _ _, rfl, rfl, rfl, rfl, rfl, rfl⟩

theorem C23_AddLottery_tracked_frame_witness :
    mapGet registryWithTwoRounds.lotteries lotteryRecordRevised.LotteryID =
        some lotteryWithTwoRounds ∧
      (registryWithTwoRounds.AddLotteryTraced lotteryRecordRevised).started = none ∧
      mapKeys (registryWithTwoRounds.AddLottery lotteryRecordRevised).lotteries =
        mapKeys registryWithTwoRounds.lotteries ∧
      ∃ gl2, mapGet (registryWithTwoRounds.AddLottery lotteryRecordRevised).lotteries
          lotteryRecordRevised.LotteryID = some gl2 ∧
        gl2.toDiscordQuizGameLottery = lotteryRecordRevised ∧
        gl2.games = lotteryWithTwoRounds.games ∧ gl2.gameSet = lotteryWithTwoRounds.gameSet ∧
        gl2.wait2BeFinishedGameCount = lotteryWithTwoRounds.wait2BeFinishedGameCount ∧
        gl2.finalizeLotteryChan = lotteryWithTwoRounds.finalizeLotteryChan ∧
        gl2.detached = lotteryWithTwoRounds.detached :=
  ⟨by decide,
    (C23_AddLottery_tracked_frame registryWithTwoRounds lotteryRecordRevised
      lotteryWithTwoRounds (by decide)).1,
    (C23_AddLottery_tracked_frame registryWithTwoRounds lotteryRecordRevised
      lotteryWithTwoRounds (by decide)).2.2.1,
    (C23_AddLottery_tracked_frame registryWithTwoRounds lotteryRecordRevised
      lotteryWithTwoRounds (by decide)).2.2.2.2.2⟩

/-! ## Claims about a removed GameID -/

theorem replaceGame_of_absent (game : quizGame) (deleteOk : Bool) (gs : List quizGame)
    (h : game.GameID ∉ gameIDs gs) : replaceGame game deleteOk gs = none := by
  induction gs with
  | nil => rfl
  | cons g rest ih =>
    have hg : ¬ g.GameID = game.GameID := by
      intro hid
      apply h
      simp only [gameIDs, List.map_cons, List.mem_cons]
      exact Or.inl hid.symm
    have hrest : game.GameID ∉ gameIDs rest := by
      intro hmem
      apply h
      simp only [gameIDs, List.map_cons, List.mem_cons]
      exact Or.inr hmem
    simp only [replaceGame, if_neg hg, ih hrest]

theorem AddGame_of_retired (l : quizGameLottery) (game : quizGame) (deleteOk : Bool)
    (h : l.retired game.GameID) :
    l.AddGame game deleteOk = (some (.notFoundInLottery game.GameID), l) := by
  unfold quizGameLottery.AddGame
  rw [if_pos h.1]
  unfold quizGameLottery.updateGameLocked
  rw [replaceGame_of_absent game deleteOk l.games h.2]

theorem AddGame_retired (l : quizGameLottery) (game : quizGame) (deleteOk : Bool)
    (gameID : String) (h : l.retired gameID) : (l.AddGame game deleteOk).2.retired gameID := by
  by_cases hid : game.GameID = gameID
  · subst hid
    rw [AddGame_of_retired l game deleteOk h]
    exact h
  · obtain ⟨hset, hgames⟩ := h
    unfold quizGameLottery.AddGame
    split_ifs with hfound
    · unfold quizGameLottery.updateGameLocked
      cases hr : replaceGame game deleteOk l.games with
      | none => exact ⟨hset, hgames⟩
      | some r =>
        cases r with
        | error e => exact ⟨hset, hgames⟩
        | ok pr =>
          obtain ⟨games, old⟩ := pr
          obtain ⟨pre, curr, post, e1, _, e3, _, e5⟩ :=
            replaceGame_ok_split game deleteOk l.games games old hr
          have hids : gameIDs games = gameIDs l.games := by
            rw [e1, e5]
            simp only [gameIDs, List.map_append, List.map_cons, e3]
          refine ⟨hset, ?_⟩
          simp only [quizGameLottery.StartGame]
          rw [hids]
          exact hgames
    · simp only [quizGameLottery.addNewGameLocked, quizGameLottery.StartGame, if_neg hfound,
        quizGameLottery.retired]
      refine ⟨List.mem_append_left _ hset, ?_⟩
      simp only [gameIDs, List.map_append, List.map_cons, List.map_nil, List.mem_append,
        List.mem_singleton, not_or]
      exact ⟨hgames, fun h => hid h.symm⟩

theorem RemoveGame_retired (l : quizGameLottery) (other : String) (deleteOk : Bool)
    (gameID : String) (h : l.retired gameID) :
    (l.RemoveGame other deleteOk).2.retired gameID := by
  obtain ⟨hset, hgames⟩ := h
  unfold quizGameLottery.RemoveGame
  split_ifs with hfound
  · have hk := removeGameLoop_kept other deleteOk l.games
    cases hr : removeGameLoop other deleteOk l.games with
    | error er =>
      obtain ⟨e, games⟩ := er
      rw [hr] at hk
      simp only at hk
      refine ⟨hset, ?_⟩
      simp only
      rw [hk]
      exact hgames
    | ok pr =>
      obtain ⟨kept, removed⟩ := pr
      rw [hr] at hk
      simp only at hk
      subst hk
      refine ⟨hset, ?_⟩
      intro hmem
      apply hgames
      obtain ⟨g, hg, hid⟩ := (mem_gameIDs _ _).1 hmem
      exact (mem_gameIDs _ _).2 ⟨g, (List.mem_filter.1 hg).1, hid⟩
  · exact ⟨hset, hgames⟩

theorem stepTask_retired (l : quizGameLottery) (ref : TaskRef) (ev : TaskEvent)
    (gameID : String) (h : l.retired gameID) : (l.stepTask ref ev).retired gameID := by
  obtain ⟨hset, hgames⟩ := h
  cases ref with
  | inGames i =>
    refine ⟨hset, ?_⟩
    simp only [quizGameLottery.stepTask]
    rw [stepTaskAt_gameIDs]
    exact hgames
  | inDetached i => exact ⟨hset, hgames⟩

theorem step_retired (l : quizGameLottery) (e : LotteryEvent) (gameID : String)
    (h : l.retired gameID) : (l.step e).retired gameID := by
  cases e with
  | addGame game deleteOk => exact AddGame_retired l game deleteOk gameID h
  | removeGame other deleteOk => exact RemoveGame_retired l other deleteOk gameID h
  | task ref ev => exact stepTask_retired l ref ev gameID h

theorem run_retired (l : quizGameLottery) (events : List LotteryEvent) (gameID : String)
    (h : l.retired gameID) : (l.run events).retired gameID := by
  induction events generalizing l with
  | nil => exact h
  | cons e rest ih => exact ih (l.step e) (step_retired l e gameID h)

theorem RemoveGame_retires (l : quizGameLottery) (gameID : String) (deleteOk : Bool)
    (hmarked : gameID ∈ l.gameSet) (hok : (l.RemoveGame gameID deleteOk).1 = none) :
    (l.RemoveGame gameID deleteOk).2.retired gameID := by
  unfold quizGameLottery.RemoveGame at hok ⊢
  rw [if_pos hmarked] at hok ⊢
  have hk := removeGameLoop_kept gameID deleteOk l.games
  cases hr : removeGameLoop gameID deleteOk l.games with
  | error er =>
    rw [hr] at hok
    cases hok
  | ok pr =>
    obtain ⟨kept, removed⟩ := pr
    rw [hr] at hk
    simp only at hk
    subst hk
    refine ⟨hmarked, ?_⟩
    intro hmem
    obtain ⟨g, hg, hid⟩ := (mem_gameIDs _ _).1 hmem
    have := (List.mem_filter.1 hg).2
    simp only [ne_eq, decide_not, Bool.not_eq_true', decide_eq_false_iff_not] at this
    exact this hid

/-- C28: after a successful orchestrator `RemoveGame` of a GameID that the lottery has marked
in `gameSet`, no round of the games list has the GameID while `gameSet` still holds it; and
after every later sequence of `AddGame`, `RemoveGame` and round-task steps, the orchestrator's
`AddGame` of a round with that GameID returns the error "game not found in lottery" and
leaves the lottery as it is (no round is started: games list, detached rounds and counter of
unfinished rounds are unchanged), and the registry's `AddGame` returns that error and leaves
the lottery index and the round index as they are. -/
theorem C28_removed_GameID_not_readded (l : quizGameLottery) (gameID : String)
    (deleteOk : Bool) (hmarked : gameID ∈ l.gameSet)
    (hok : (l.RemoveGame gameID deleteOk).1 = none) :
    gameID ∉ gameIDs (l.RemoveGame gameID deleteOk).2.games ∧
      gameID ∈ (l.RemoveGame gameID deleteOk).2.gameSet ∧
      ∀ (events : List LotteryEvent) (game : DiscordQuizGame) (d : Bool),
        game.GameID = gameID →
        ((l.RemoveGame gameID deleteOk).2.run events).AddGame (newQuizGame game) d =
            (some (.notFoundInLottery gameID), (l.RemoveGame gameID deleteOk).2.run events) ∧
          ∀ m : QuizGameManager,
            mapGet m.lotteries game.LotteryID =
              some ((l.RemoveGame gameID deleteOk).2.run events) →
            m.AddGame game d = (some (.orchestrator (.notFoundInLottery gameID)), m) := by
  have hret := RemoveGame_retires l gameID deleteOk hmarked hok
  refine ⟨hret.2, hret.1, ?_⟩
  intro events game d hid
  have hlater := run_retired _ events gameID hret
  have hadd : ((l.RemoveGame gameID deleteOk).2.run events).AddGame (newQuizGame game) d =
      (some (.notFoundInLottery gameID), (l.RemoveGame gameID deleteOk).2.run events) := by
    have hid2 : (newQuizGame game).GameID = gameID := hid
    have := AddGame_of_retired _ (newQuizGame game) d (hid2 ▸ hlater)
    rw [hid2] at this
    exact this
  refine ⟨hadd, ?_⟩
  intro m ht
  rw [manager_AddGame_err m game d _ (.notFoundInLottery gameID) ht (by rw [hadd])]
  rw [hadd]
  simp only
  rw [mapPut_of_mapGet _ _ _ ht, manager_eta]

theorem C28_removed_GameID_not_readded_witness :
    "g1" ∈ lotteryWithTwoRounds.gameSet ∧
      (lotteryWithTwoRounds.RemoveGame "g1" true).1 = none ∧
      (roundRecordRevised "g1").GameID = "g1" ∧
      mapGet registryAfterRemoval.lotteries (roundRecordRevised "g1").LotteryID =
        some ((lotteryWithTwoRounds.RemoveGame "g1" true).2.run afterRemovalRun) ∧
      ((lotteryWithTwoRounds.RemoveGame "g1" true).2.run afterRemovalRun).AddGame
          (newQuizGame (roundRecordRevised "g1")) true =
        (some (.notFoundInLottery "g1"),
          (lotteryWithTwoRounds.RemoveGame "g1" true).2.run afterRemovalRun) ∧
      registryAfterRemoval.AddGame (roundRecordRevised "g1") true =
        (some (.orchestrator (.notFoundInLottery "g1")), registryAfterRemoval) :=
  ⟨by decide, by decide, by decide, by decide,
    ((C28_removed_GameID_not_readded lotteryWithTwoRounds "g1" true (by decide)
      (by decide)).2.2 afterRemovalRun (roundRecordRevised "g1") true (by decide)).1,
    ((C28_removed_GameID_not_readded lotteryWithTwoRounds "g1" true (by decide)
      (by decide)).2.2 afterRemovalRun (roundRecordRevised "g1") true (by decide)).2
      registryAfterRemoval (by decide)⟩

/-! ## Claims about the participation store -/

theorem lookup_hashSet_same (h : RedisHash) (field value : String) :
    (hashSet h field value).lookup field = some value := by
  unfold hashSet
  induction h with
  | nil => simp [List.lookup]
  | cons e rest ih =>
    obtain ⟨k, v⟩ := e
    by_cases hk : k = field
    · subst hk
      simp [List.lookup]
    · have hk2 : (field == k) = false := by
        simp only [beq_eq_false_iff_ne, ne_eq]
        exact fun h => hk h.symm
      by_cases hany : rest.any (fun e => decide (e.1 = field)) = true
      · simp only [hany, if_true] at ih
        simp only [List.any_cons, hk, decide_False, Bool.false_or, hany, if_true, List.map_cons,
          if_false, List.lookup, hk2, ih]
      · simp only [hany] at ih
        simp only [List.any_cons, hk, decide_False, Bool.false_or, hany,
          List.cons_append, List.lookup, hk2]
        exact ih

theorem lookup_hashSet_other (h : RedisHash) (field other value : String)
    (hne : other ≠ field) : (hashSet h field value).lookup other = h.lookup other := by
  have hb : (other == field) = false := by
    simp only [beq_eq_false_iff_ne, ne_eq]
    exact hne
  unfold hashSet
  split_ifs with hany
  · clear hany
    induction h with
    | nil => rfl
    | cons e rest ih =>
      obtain ⟨k, v⟩ := e
      by_cases hk : k = field
      · subst hk
        rw [List.map_cons, if_pos rfl]
        simp only [List.lookup, hb, ih]
      · rw [List.map_cons, if_neg hk]
        simp only [List.lookup, ih]
  · clear hany
    induction h with
    | nil => simp only [List.nil_append, List.lookup, hb]
    | cons e rest ih =>
      obtain ⟨k, v⟩ := e
      simp only [List.cons_append, List.lookup, List.append_eq, ih]

theorem hashSet_others (h : RedisHash) (field value : String) :
    (hashSet h field value).filter (fun e => decide (e.1 ≠ field)) =
      h.filter (fun e => decide (e.1 ≠ field)) := by
  unfold hashSet
  split_ifs with hany
  · clear hany
    induction h with
    | nil => rfl
    | cons e rest ih =>
      by_cases hk : e.1 = field
      · rw [List.map_cons, if_pos hk]
        have h1 : decide ((field, value).1 ≠ field) = false := by simp
        have h2 : decide (e.1 ≠ field) = false := by simp [hk]
        rw [List.filter_cons_of_neg (by rw [h1]; simp), List.filter_cons_of_neg (by rw [h2]; simp), ih]
      · rw [List.map_cons, if_neg hk]
        have h2 : decide (e.1 ≠ field) = true := by simp [hk]
        rw [List.filter_cons, List.filter_cons]
        simp only [h2, if_true, ih]
  · rw [List.filter_append]
    have h1 : decide ((field, value).1 ≠ field) = false := by simp
    rw [List.filter_cons_of_neg (by rw [h1]; simp), List.filter_nil, List.append_nil]

theorem redisHGetAll_redisHSet_same (c : RedisCache) (key field value : String) :
    redisHGetAll (redisHSet c key field value) key = hashSet (redisHGetAll c key) field value := by
  unfold redisHGetAll redisHSet
  induction c with
  | nil => simp [List.lookup, hashSet]
  | cons e rest ih =>
    obtain ⟨k, h⟩ := e
    by_cases hk : k = key
    · subst hk
      simp [List.lookup]
    · have hk2 : (key == k) = false := by
        simp only [beq_eq_false_iff_ne, ne_eq]
        exact fun h => hk h.symm
      by_cases hany : rest.any (fun e => decide (e.1 = key)) = true
      · simp only [hany, if_true] at ih
        simp only [List.any_cons, hk, decide_False, Bool.false_or, hany, if_true, List.map_cons,
          if_false, List.lookup, hk2, ih]
      · simp only [hany] at ih
        simp only [List.any_cons, hk, decide_False, Bool.false_or, hany,
          List.cons_append, List.lookup, hk2]
        exact ih

theorem redisHGetAll_redisHSet_other (c : RedisCache) (key other field value : String)
    (hne : other ≠ key) :
    redisHGetAll (redisHSet c key field value) other = redisHGetAll c other := by
  have hb : (other == key) = false := by
    simp only [beq_eq_false_iff_ne, ne_eq]
    exact hne
  unfold redisHGetAll redisHSet
  congr 1
  split_ifs with hany
  · clear hany
    induction c with
    | nil => rfl
    | cons e rest ih =>
      obtain ⟨k, v⟩ := e
      by_cases hk : k = key
      · subst hk
        rw [List.map_cons, if_pos rfl]
        simp only [List.lookup, hb, ih]
      · rw [List.map_cons, if_neg hk]
        simp only [List.lookup, ih]
  · clear hany
    induction c with
    | nil => simp only [List.nil_append, List.lookup, hb]
    | cons e rest ih =>
      obtain ⟨k, v⟩ := e
      simp only [List.cons_append, List.lookup, List.append_eq, ih]

theorem mem_hashSet_field (h : RedisHash) (field value : String) (e : String × String)
    (he : e ∈ hashSet h field value) (hf : e.1 = field) : e.2 = value := by
  unfold hashSet at he
  split_ifs at he with hany
  · obtain ⟨e0, _, h0⟩ := List.mem_map.1 he
    by_cases hk : e0.1 = field
    · rw [if_pos hk] at h0
      rw [← h0]
    · rw [if_neg hk] at h0
      rw [h0] at hk
      exact absurd hf hk
  · rcases List.mem_append.1 he with h1 | h1
    · exfalso
      apply hany
      rw [List.any_eq_true]
      exact ⟨e, h1, by simp only [hf, decide_True]⟩
    · rw [List.mem_singleton] at h1
      rw [h1]

theorem recordedOption_append (optionID rest : String) (h : '&' ∉ optionID.toList) :
    recordedOption (optionID ++ "&" ++ rest) = optionID := by
  unfold recordedOption
  have : (optionID ++ "&" ++ rest).toList = optionID.toList ++ '&' :: rest.toList := by
    simp only [String.toList, String.data_append, List.append_assoc]
    rfl
  rw [this]
  have htw : ∀ cs : List Char, '&' ∉ cs →
      (cs ++ '&' :: rest.toList).takeWhile (fun c => decide (c ≠ '&')) = cs := by
    intro cs hcs
    induction cs with
    | nil => simp [List.takeWhile]
    | cons c tl ih =>
      have hc : c ≠ '&' := fun hc => hcs (hc ▸ List.mem_cons_self _ _)
      have htl : '&' ∉ tl := fun hm => hcs (List.mem_cons_of_mem _ hm)
      have := ih htl
      simp only [List.cons_append, List.takeWhile, ne_eq, hc, not_false_eq_true, decide_True,
        List.append_eq]
      simp only [ne_eq] at this
      rw [this]
  rw [htw _ h]
  rfl

theorem participate_accepted (g : quizGame) (cache : RedisCache) (now stamp : Int)
    (redisOk : Bool) (user optionID : String)
    (hp : (g.participate cache now stamp redisOk user optionID).participated = true)
    (hf : (g.participate cache now stamp redisOk user optionID).failed = false) :
    (g.participate cache now stamp redisOk user optionID).cache =
      redisHSet cache g.gameKey user (participateInfo optionID stamp) := by
  unfold quizGame.participate at hp hf ⊢
  by_cases hexp : g.Expired now = true
  · rw [if_pos hexp] at hp
    cases hp
  · rw [if_neg hexp] at hf ⊢
    cases redisOk
    · cases hf
    · rfl

/-- C24: when a user's `participate` with option o1 and then the same user's `participate`
with option o2 are both accepted (each returns participated = true and no error), the store
afterwards answers `HGET` of the round's key and the user with the value written for o2,
every entry of the round's record under that user holds that value, whose recorded option is
o2 (for an option id without `&`); the entries of the record under every other user, and the
records of every other key, are as they were before the two calls. -/
theorem C24_last_vote_wins (g : quizGame) (cache : RedisCache) (now1 stamp1 now2 stamp2 : Int)
    (ok1 ok2 : Bool) (user o1 o2 : String)
    (hp1 : (g.participate cache now1 stamp1 ok1 user o1).participated = true)
    (hf1 : (g.participate cache now1 stamp1 ok1 user o1).failed = false)
    (hp2 : (g.participate (g.participate cache now1 stamp1 ok1 user o1).cache now2 stamp2 ok2
      user o2).participated = true)
    (hf2 : (g.participate (g.participate cache now1 stamp1 ok1 user o1).cache now2 stamp2 ok2
      user o2).failed = false) :
    redisHGet (g.participate (g.participate cache now1 stamp1 ok1 user o1).cache now2 stamp2
        ok2 user o2).cache g.gameKey user = some (participateInfo o2 stamp2) ∧
      (∀ e ∈ redisHGetAll (g.participate (g.participate cache now1 stamp1 ok1 user o1).cache
          now2 stamp2 ok2 user o2).cache g.gameKey,
        e.1 = user → e.2 = participateInfo o2 stamp2) ∧
      ('&' ∉ o2.toList → recordedOption (participateInfo o2 stamp2) = o2) ∧
      (∀ other, other ≠ user →
        redisHGet (g.participate (g.participate cache now1 stamp1 ok1 user o1).cache now2
          stamp2 ok2 user o2).cache g.gameKey other = redisHGet cache g.gameKey other) ∧
      (redisHGetAll (g.participate (g.participate cache now1 stamp1 ok1 user o1).cache now2
          stamp2 ok2 user o2).cache g.gameKey).filter (fun e => decide (e.1 ≠ user)) =
        (redisHGetAll cache g.gameKey).filter (fun e => decide (e.1 ≠ user)) ∧
      (∀ key, key ≠ g.gameKey →
        redisHGetAll (g.participate (g.participate cache now1 stamp1 ok1 user o1).cache now2
          stamp2 ok2 user o2).cache key = redisHGetAll cache key) := by
  rw [participate_accepted g _ now2 stamp2 ok2 user o2 hp2 hf2,
    participate_accepted g cache now1 stamp1 ok1 user o1 hp1 hf1]
  refine ⟨?_, ?_, ?_, ?_, ?_, ?_⟩
  · unfold redisHGet
    rw [redisHGetAll_redisHSet_same, lookup_hashSet_same]
  · intro e he hu
    rw [redisHGetAll_redisHSet_same] at he
    exact mem_hashSet_field _ _ _ e he hu
  · intro h
    exact recordedOption_append o2 _ h
  · intro other hother
    unfold redisHGet
    rw [redisHGetAll_redisHSet_same, redisHGetAll_redisHSet_same,
      lookup_hashSet_other _ _ _ _ hother, lookup_hashSet_other _ _ _ _ hother]
  · rw [redisHGetAll_redisHSet_same, redisHGetAll_redisHSet_same, hashSet_others,
      hashSet_others]
  · intro key hkey
    rw [redisHGetAll_redisHSet_other _ _ _ _ _ hkey, redisHGetAll_redisHSet_other _ _ _ _ _ hkey]

theorem C24_last_vote_wins_witness :
    ((openRound "g1" none).participate storeWithVotes 5000000000 5000000000 true "u"
        "1").participated = true ∧
      ((openRound "g1" none).participate storeWithVotes 5000000000 5000000000 true "u"
        "1").failed = false ∧
      ((openRound "g1" none).participate ((openRound "g1" none).participate storeWithVotes
        5000000000 5000000000 true "u" "1").cache 7000000000 7000000000 true "u"
        "2").participated = true ∧
      ((openRound "g1" none).participate ((openRound "g1" none).participate storeWithVotes
        5000000000 5000000000 true "u" "1").cache 7000000000 7000000000 true "u"
        "2").failed = false ∧
      redisHGet ((openRound "g1" none).participate ((openRound "g1" none).participate
          storeWithVotes 5000000000 5000000000 true "u" "1").cache 7000000000 7000000000 true
          "u" "2").cache (openRound "g1" none).gameKey "u" =
        some (participateInfo "2" 7000000000) ∧
      redisHGet ((openRound "g1" none).participate ((openRound "g1" none).participate
          storeWithVotes 5000000000 5000000000 true "u" "1").cache 7000000000 7000000000 true
          "u" "2").cache (openRound "g1" none).gameKey "v" =
        redisHGet storeWithVotes (openRound "g1" none).gameKey "v" ∧
      recordedOption (participateInfo "2" 7000000000) = "2" :=
  ⟨by decide, by decide, by decide, by decide,
    (C24_last_vote_wins (openRound "g1" none) storeWithVotes 5000000000 5000000000 7000000000
      7000000000 true true "u" "1" "2" (by decide) (by decide) (by decide) (by decide)).1,
    (C24_last_vote_wins (openRound "g1" none) storeWithVotes 5000000000 5000000000 7000000000
      7000000000 true true "u" "1" "2" (by decide) (by decide) (by decide)
      (by decide)).2.2.2.1 "v" (by decide),
    (C24_last_vote_wins (openRound "g1" none) storeWithVotes 5000000000 5000000000 7000000000
      7000000000 true true "u" "1" "2" (by decide) (by decide) (by decide)
      (by decide)).2.2.1 (by decide)⟩

/-! ## Claims about a close without votes -/

theorem ongoingTraced_agrees (g : quizGame) (ev : OngoingEvent) :
    (g.ongoingTraced ev).round = g.ongoing ev := by
  unfold quizGame.ongoingTraced quizGame.ongoing
  split_ifs with h1 h2
  · rfl
  · rfl
  · cases ev with
    | done => rfl
    | timer read answer =>
      dsimp only
      rcases hfin : quizGame.finalizeParticipateInfo
        { g with Status := .Finished } read with ⟨failed, g2⟩
      cases failed
      · dsimp only
        unfold quizGame.ToSendAnswerMessage
        cases hp : g2.Participants <;> cases hw : g2.Winners <;> cases answer <;> rfl
      · rfl

/-- C29: `finalizeParticipateInfo` on an empty participation record returns no error and
leaves the round as it is, Participants and Winners included; when one of the two is nil
`ToSendAnswerMessage` panics on the nil pointer; so the close of a round in progress (its
question message recorded) whose results are unset and whose record is read as empty sets
Status to Finished, leaves Participants and Winners nil, ends in that panic and does not call
`UpdateGameFinished`. -/
theorem C29_close_without_votes (g : quizGame) (answer : Option String)
    (hs : g.Status = .InProgress) (hq : g.QuestionMessageID ≠ none)
    (hp : g.Participants = none) (hw : g.Winners = none) :
    quizGame.finalizeParticipateInfo { g with Status := .Finished } (some []) =
        (false, { g with Status := .Finished }) ∧
      quizGame.ToSendAnswerMessage { g with Status := .Finished } =
        .error .nilPointerDereference ∧
      g.ongoingTraced (.timer (some []) answer) =
        { round := { g with Status := .Finished }, panicked := true,
          updateGameFinishedCalled := false } ∧
      (g.ongoingTraced (.timer (some []) answer)).round.Participants = none ∧
      (g.ongoingTraced (.timer (some []) answer)).round.Winners = none ∧
      (g.ongoingTraced (.timer (some []) answer)).round = g.ongoing (.timer (some []) answer) := by
  have hfin : quizGame.finalizeParticipateInfo { g with Status := .Finished } (some []) =
      (false, { g with Status := .Finished }) := rfl
  have hmsg : quizGame.ToSendAnswerMessage { g with Status := .Finished } =
      .error .nilPointerDereference := by
    unfold quizGame.ToSendAnswerMessage
    simp only [hp]
  have htr : g.ongoingTraced (.timer (some []) answer) =
      { round := { g with Status := .Finished }, panicked := true,
        updateGameFinishedCalled := false } := by
    unfold quizGame.ongoingTraced
    simp only [hs, DiscordQuizGameStatus.Is, decide_True, Bool.true_eq_false, if_false, hq,
      hfin, hmsg]
  refine ⟨hfin, hmsg, htr, ?_, ?_, ongoingTraced_agrees g _⟩
  · rw [htr]
    exact hp
  · rw [htr]
    exact hw

theorem C29_close_without_votes_witness :
    (openRound "g1" none).Status = .InProgress ∧
      (openRound "g1" none).QuestionMessageID ≠ none ∧
      (openRound "g1" none).Participants = none ∧
      (openRound "g1" none).Winners = none ∧
      (openRound "g1" none).ongoingTraced (.timer (some []) (some "a")) =
        { round := { openRound "g1" none with Status := .Finished }, panicked := true,
          updateGameFinishedCalled := false } :=
  ⟨by decide, by decide, by decide, by decide,
    (C29_close_without_votes (openRound "g1" none) (some "a") (by decide) (by decide)
      (by decide) (by decide)).2.2.1⟩

/-! ## Claims about when a round's results are written -/

theorem Terminate_results (g g2 : quizGame) (deleteOk : Bool)
    (h : g.Terminate deleteOk = .ok g2) :
    g2 = { g with cancelled := true } := by
  unfold quizGame.Terminate at h
  cases hs : g.Status <;> rw [hs] at h <;> dsimp only at h
  · cases h; rfl
  · cases hq : g.QuestionMessageID <;> rw [hq] at h <;> dsimp only at h
    · cases h
    · cases deleteOk
      · cases h
      · simp only [if_true, Except.ok.injEq] at h
        rw [← h]
  · cases h

theorem terminate_step (s : PlayState) (deleteOk : Bool) :
    (s.step (.terminate deleteOk)).point = s.point ∧
      (s.step (.terminate deleteOk)).round.Participants = s.round.Participants ∧
      (s.step (.terminate deleteOk)).round.Winners = s.round.Winners ∧
      (s.step (.terminate deleteOk)).round.Status = s.round.Status := by
  simp only [PlayState.step]
  cases h : s.round.Terminate deleteOk with
  | error e => exact ⟨rfl, rfl, rfl, rfl⟩
  | ok g2 =>
    rw [Terminate_results _ _ _ h]
    exact ⟨rfl, rfl, rfl, rfl⟩

theorem step_Inv (s : PlayState) (e : PlayEvent) (h : s.Inv) : (s.step e).Inv := by
  obtain ⟨h1, h2, h3, h4⟩ := h
  cases e with
  | terminate deleteOk =>
    obtain ⟨e1, e2, e3, e4⟩ := terminate_step s deleteOk
    unfold PlayState.Inv
    rw [e1, e2, e3, e4]
    exact ⟨h1, h2, h3, h4⟩
  | advance timerFired publish read answer =>
    obtain ⟨g, point⟩ := s
    simp only [PlayState.step, PlayState.advance]
    cases point with
    | entry =>
      have hn := h2 rfl
      simp only at hn
      dsimp only
      split_ifs
      · exact ⟨h1, (fun h => by cases h), (fun h => by cases h), (fun h => by cases h)⟩
      · exact ⟨h1, fun _ => hn, (fun h => by cases h), (fun h => by cases h)⟩
    | atUpcoming =>
      have hn := h2 rfl
      simp only at hn
      dsimp only
      have hu := fun ev => upcoming_results g ev
      split_ifs
      · refine ⟨?_, fun _ => ?_, (fun h => by cases h), (fun h => by cases h)⟩
        · intro hset
          simp only [(hu _).1, (hu _).2, hn.1, hn.2, ne_eq, not_true_eq_false, or_self] at hset
        · simp only [(hu _).1, (hu _).2, hn.1, hn.2, and_self]
      · refine ⟨?_, fun _ => ?_, (fun h => by cases h), (fun h => by cases h)⟩
        · intro hset
          simp only [(hu _).1, (hu _).2, hn.1, hn.2, ne_eq, not_true_eq_false, or_self] at hset
        · simp only [(hu _).1, (hu _).2, hn.1, hn.2, and_self]
      · exact ⟨h1, h2, h3, h4⟩
    | atOngoing =>
      have hn := h2 rfl
      simp only at hn
      dsimp only
      split_ifs
      · exact ⟨h1, (fun h => by cases h), (fun h => by cases h), (fun h => by cases h)⟩
      · exact ⟨h1, (fun h => by cases h), (fun h => by cases h), (fun h => by cases h)⟩
      · exact ⟨h1, fun _ => hn, (fun h => by cases h), (fun h => by cases h)⟩
      · exact ⟨h1, (fun h => by cases h), (fun h => by cases h), (fun h => by cases h)⟩
      · exact ⟨h1, h2, h3, h4⟩
    | closing =>
      have hn := h2 rfl
      simp only at hn
      exact ⟨fun _ => rfl, fun _ => hn, (fun h => by cases h), fun _ => rfl⟩
    | finalizing =>
      have hn := h2 rfl
      have hf := h4 rfl
      simp only at hn hf
      cases read with
      | none => exact ⟨h1, (fun h => by cases h), (fun h => by cases h), (fun h => by cases h)⟩
      | some participates =>
        dsimp only
        split_ifs
        · exact ⟨h1, (fun h => by cases h), (fun h => by cases h), fun _ => hf⟩
        · exact ⟨h1, fun _ => hn, (fun h => by cases h), fun _ => hf⟩
    | writingParticipants participants winners =>
      have hn := h2 rfl
      have hf := h4 rfl
      simp only at hn hf
      exact ⟨fun _ => hf, (fun h => by cases h), fun _ => hn.2, fun _ => hf⟩
    | writingWinners winners =>
      have hf := h4 rfl
      simp only at hf
      exact ⟨fun _ => hf, (fun h => by cases h), (fun h => by cases h), fun _ => hf⟩
    | answering =>
      have hf := h4 rfl
      simp only at hf
      dsimp only
      cases g.ToSendAnswerMessage with
      | error p => exact ⟨h1, (fun h => by cases h), (fun h => by cases h), (fun h => by cases h)⟩
      | ok r =>
        cases answer with
        | none => exact ⟨h1, (fun h => by cases h), (fun h => by cases h), fun _ => hf⟩
        | some msgID => exact ⟨h1, (fun h => by cases h), (fun h => by cases h), fun _ => hf⟩
    | updating => exact ⟨h1, (fun h => by cases h), (fun h => by cases h), (fun h => by cases h)⟩
    | returned => exact ⟨h1, h2, h3, h4⟩

theorem run_Inv (s : PlayState) (events : List PlayEvent) (h : s.Inv) :
    (s.run events).Inv := by
  induction events generalizing s with
  | nil => exact h
  | cons e rest ih => exact ih (s.step e) (step_Inv s e h)

theorem start_Inv (game : DiscordQuizGame) (hp : game.Participants = none)
    (hw : game.Winners = none) : (PlayState.start game).Inv := by
  refine ⟨?_, fun _ => ⟨hp, hw⟩, (fun h => by cases h), (fun h => by cases h)⟩
  intro hset
  rcases hset with h | h
  · exact absurd hw h
  · exact absurd hp h

theorem step_writes (s : PlayState) (e : PlayEvent) :
    ((s.step e).round.Participants ≠ s.round.Participants →
        s.point.writesParticipants = true) ∧
      ((s.step e).round.Winners ≠ s.round.Winners → s.point.writesWinners = true) := by
  cases e with
  | terminate deleteOk =>
    obtain ⟨_, e2, e3, _⟩ := terminate_step s deleteOk
    exact ⟨fun h => absurd e2 h, fun h => absurd e3 h⟩
  | advance timerFired publish read answer =>
    obtain ⟨g, point⟩ := s
    simp only [PlayState.step, PlayState.advance]
    cases point with
    | entry =>
      dsimp only
      split_ifs <;> exact ⟨fun h => absurd rfl h, fun h => absurd rfl h⟩
    | atUpcoming =>
      dsimp only
      have hu := fun ev => upcoming_results g ev
      split_ifs
      · exact ⟨fun h => absurd (hu _).1 h, fun h => absurd (hu _).2 h⟩
      · exact ⟨fun h => absurd (hu _).1 h, fun h => absurd (hu _).2 h⟩
      · exact ⟨fun h => absurd rfl h, fun h => absurd rfl h⟩
    | atOngoing =>
      dsimp only
      split_ifs <;> exact ⟨fun h => absurd rfl h, fun h => absurd rfl h⟩
    | closing => exact ⟨fun h => absurd rfl h, fun h => absurd rfl h⟩
    | finalizing =>
      cases read with
      | none => exact ⟨fun h => absurd rfl h, fun h => absurd rfl h⟩
      | some participates =>
        dsimp only
        split_ifs <;> exact ⟨fun h => absurd rfl h, fun h => absurd rfl h⟩
    | writingParticipants participants winners => exact ⟨fun _ => rfl, fun h => absurd rfl h⟩
    | writingWinners winners => exact ⟨fun h => absurd rfl h, fun _ => rfl⟩
    | answering =>
      dsimp only
      cases g.ToSendAnswerMessage with
      | error p => exact ⟨fun h => absurd rfl h, fun h => absurd rfl h⟩
      | ok r =>
        cases answer <;> exact ⟨fun h => absurd rfl h, fun h => absurd rfl h⟩
    | updating => exact ⟨fun h => absurd rfl h, fun h => absurd rfl h⟩
    | returned => exact ⟨fun h => absurd rfl h, fun h => absurd rfl h⟩

theorem step_keeps_results (s : PlayState) (e : PlayEvent) (h : s.Inv) :
    (s.round.Participants ≠ none → (s.step e).round.Participants = s.round.Participants) ∧
      (s.round.Winners ≠ none → (s.step e).round.Winners = s.round.Winners) := by
  obtain ⟨_, h2, h3, _⟩ := h
  obtain ⟨w1, w2⟩ := step_writes s e
  constructor
  · intro hset
    by_contra hne
    have hpt := w1 hne
    have hb : s.point.beforeWrites = true := by
      cases hp : s.point <;> rw [hp] at hpt <;> first | rfl | cases hpt
    exact hset (h2 hb).1
  · intro hset
    by_contra hne
    exact hset (h3 (w2 hne))

theorem run_keeps_results (s : PlayState) (events : List PlayEvent) (h : s.Inv) :
    (s.round.Participants ≠ none → (s.run events).round.Participants = s.round.Participants) ∧
      (s.round.Winners ≠ none → (s.run events).round.Winners = s.round.Winners) := by
  induction events generalizing s with
  | nil => exact ⟨fun _ => rfl, fun _ => rfl⟩
  | cons e rest ih =>
    obtain ⟨k1, k2⟩ := step_keeps_results s e h
    obtain ⟨r1, r2⟩ := ih (s.step e) (step_Inv s e h)
    constructor
    · intro hset
      have := k1 hset
      show ((s.step e).run rest).round.Participants = s.round.Participants
      rw [r1 (by rw [this]; exact hset), this]
    · intro hset
      have := k2 hset
      show ((s.step e).run rest).round.Winners = s.round.Winners
      rw [r2 (by rw [this]; exact hset), this]

/-- Executing the close statement by statement ends where `ongoing` taken as one step ends. -/
theorem close_statements_agree (g : quizGame) (publish : Option String)
    (read : Option RedisHash) (answer : Option String) :
    ((({ round := g, point := .atOngoing } : PlayState).run
      (List.replicate 7 (PlayEvent.advance true publish read answer))).round =
        { g.ongoing (.timer read answer) with cancelled := true }) ∧
      (({ round := g, point := .atOngoing } : PlayState).run
        (List.replicate 7 (PlayEvent.advance true publish read answer))).point = .returned := by
  simp only [List.replicate, PlayState.run, List.foldl, PlayState.step]
  unfold quizGame.ongoing
  by_cases hs : g.Status.Is .InProgress = false
  · simp [PlayState.advance, hs, PlayState.leave]
  · simp only [Bool.not_eq_false] at hs
    by_cases hq : g.QuestionMessageID = none
    · simp [PlayState.advance, hs, hq, PlayState.leave]
    · cases read with
      | none =>
        simp [PlayState.advance, hs, hq, PlayState.leave, quizGame.finalizeParticipateInfo]
      | some participates =>
        by_cases hlen : participates.length = 0
        · cases hp : g.Participants <;> cases hw : g.Winners <;> cases answer <;>
            simp [PlayState.advance, hs, hq, PlayState.leave,
              quizGame.finalizeParticipateInfo, hlen, quizGame.ToSendAnswerMessage, hp, hw]
        · cases answer <;>
            simp [PlayState.advance, hs, hq, PlayState.leave,
              quizGame.finalizeParticipateInfo, hlen, quizGame.ToSendAnswerMessage]

/-- C21: take a round constructed with Participants and Winners unset, and any state its
`Play` reaches, statement by statement, under any sequence of timer firings, calls of
`Terminate` and answers of the collaborators.  In that state, if Winners or Participants is
set then Status is Finished; a result that is set keeps its value in every state reached
later; and a step changes Participants (Winners) only when the goroutine stands at the
assignment of Participants (Winners) inside `finalizeParticipateInfo`. -/
theorem C21_results_written_only_at_close (game : DiscordQuizGame)
    (hp : game.Participants = none) (hw : game.Winners = none) (events : List PlayEvent) :
    ((((PlayState.start game).run events).round.Winners ≠ none ∨
        ((PlayState.start game).run events).round.Participants ≠ none) →
      ((PlayState.start game).run events).round.Status = .Finished) ∧
      (∀ later : List PlayEvent,
        (((PlayState.start game).run events).round.Participants ≠ none →
          (((PlayState.start game).run events).run later).round.Participants =
            ((PlayState.start game).run events).round.Participants) ∧
        (((PlayState.start game).run events).round.Winners ≠ none →
          (((PlayState.start game).run events).run later).round.Winners =
            ((PlayState.start game).run events).round.Winners)) ∧
      (∀ e : PlayEvent,
        ((((PlayState.start game).run events).step e).round.Participants ≠
            ((PlayState.start game).run events).round.Participants →
          ((PlayState.start game).run events).point.writesParticipants = true) ∧
        ((((PlayState.start game).run events).step e).round.Winners ≠
            ((PlayState.start game).run events).round.Winners →
          ((PlayState.start game).run events).point.writesWinners = true)) := by
  have hinv := run_Inv _ events (start_Inv game hp hw)
  exact ⟨hinv.1, fun later => run_keeps_results _ later hinv, fun e => step_writes _ e⟩

theorem C21_results_written_only_at_close_witness :
    (roundRecord "g1").Participants = none ∧ (roundRecord "g1").Winners = none ∧
      ((PlayState.start (roundRecord "g1")).run playToParticipants).round.Participants ≠ none ∧
      ((PlayState.start (roundRecord "g1")).run playToParticipants).round.Winners = none ∧
      ((PlayState.start (roundRecord "g1")).run playToParticipants).round.Status = .Finished ∧
      ((((PlayState.start (roundRecord "g1")).run playToParticipants).run
          [playOn, playOn]).round.Participants =
        ((PlayState.start (roundRecord "g1")).run playToParticipants).round.Participants) :=
  ⟨by decide, by decide, by decide, by decide,
    (C21_results_written_only_at_close (roundRecord "g1") (by decide) (by decide)
      playToParticipants).1 (Or.inr (by decide)),
    ((C21_results_written_only_at_close (roundRecord "g1") (by decide) (by decide)
      playToParticipants).2.1 [playOn, playOn]).1 (by decide)⟩

/-! ## Claims about the counter's bookkeeping -/

theorem taskStep_returns (count : Int) (chan : Nat) (g : quizGame) (ev : TaskEvent) :
    (taskStep count chan g ev).2.1 =
      if (g.taskRunning && !(taskStep count chan g ev).1.taskRunning) = true then 1 else 0 := by
  cases ev <;> simp only [taskStep] <;> split_ifs <;>
    simp_all [quizGame.taskRunning] <;> tauto

theorem stepTaskAt_returns (count : Int) (chan : Nat) (ev : TaskEvent) (gs : List quizGame)
    (i : Nat) :
    (stepTaskAt count chan ev gs i).2.1 =
      if (match gs.get? i with
          | none => false
          | some g => g.taskRunning && !(taskStep count chan g ev).1.taskRunning) = true
      then 1 else 0 := by
  induction gs generalizing i with
  | nil => rfl
  | cons g rest ih =>
    cases i with
    | zero =>
      simp only [stepTaskAt, List.get?]
      exact taskStep_returns count chan g ev
    | succ j =>
      simp only [stepTaskAt, List.get?]
      exact ih j

theorem step_count (l : quizGameLottery) (e : LotteryEvent) :
    (l.step e).wait2BeFinishedGameCount =
      l.wait2BeFinishedGameCount + (if l.startsRound e = true then 1 else 0) -
        (if l.taskReturns e = true then 1 else 0) := by
  cases e with
  | addGame game deleteOk =>
    have hret : l.taskReturns (.addGame game deleteOk) = false := rfl
    rw [hret]
    simp only [quizGameLottery.step, quizGameLottery.startsRound, quizGameLottery.AddGame]
    by_cases hfound : game.GameID ∈ l.gameSet
    · simp only [hfound, if_true]
      unfold quizGameLottery.updateGameLocked
      cases hr : replaceGame game deleteOk l.games with
      | none => simp
      | some r =>
        cases r with
        | error e => simp
        | ok pr => simp [quizGameLottery.StartGame]
    · simp [hfound, quizGameLottery.addNewGameLocked, quizGameLottery.StartGame]
  | removeGame gameID deleteOk =>
    have hret : l.taskReturns (.removeGame gameID deleteOk) = false := rfl
    have hst : l.startsRound (.removeGame gameID deleteOk) = false := rfl
    rw [hret, hst]
    simp only [quizGameLottery.step, quizGameLottery.RemoveGame]
    by_cases hfound : gameID ∈ l.gameSet
    · rw [if_pos hfound]
      cases hr : removeGameLoop gameID deleteOk l.games with
      | error er => simp
      | ok pr => simp
    · rw [if_neg hfound]
      simp
  | task ref ev =>
    have hst : l.startsRound (.task ref ev) = false := rfl
    rw [hst]
    cases ref with
    | inGames i =>
      simp only [quizGameLottery.step, quizGameLottery.stepTask,
        quizGameLottery.taskReturns, quizGameLottery.roundAt]
      rw [stepTaskAt_returns]
      split_ifs <;> first | contradiction | omega
    | inDetached i =>
      simp only [quizGameLottery.step, quizGameLottery.stepTask,
        quizGameLottery.taskReturns, quizGameLottery.roundAt]
      rw [stepTaskAt_returns]
      split_ifs <;> first | contradiction | omega

theorem run_count (l : quizGameLottery) (events : List LotteryEvent) :
    (l.run events).wait2BeFinishedGameCount =
      l.wait2BeFinishedGameCount + (l.startedCount events : Int) -
        (l.returnedCount events : Int) := by
  induction events generalizing l with
  | nil => simp [quizGameLottery.run, quizGameLottery.startedCount,
      quizGameLottery.returnedCount]
  | cons e rest ih =>
    have h1 := ih (l.step e)
    have h2 := step_count l e
    show ((l.step e).run rest).wait2BeFinishedGameCount = _
    rw [h1, h2]
    simp only [quizGameLottery.startedCount, quizGameLottery.returnedCount]
    push_cast
    split_ifs <;> omega

theorem counter_nonneg (l : quizGameLottery) (h : CounterInv l) :
    0 ≤ l.wait2BeFinishedGameCount := by
  unfold CounterInv at h
  omega

/-- C22 (the claim as stated fails): two rounds are started; the task of the first returns
and leaves the counter at 1, then the task of the second returns and leaves it at 0; the
first task, loading the counter only now, reads 0, and the signal is emitted by that task,
whose own completion left the counter at 1. -/
theorem C22_signal_by_earlier_completion :
    ((newQuizGameLottery (lotteryRecord 2 1 5)).run beforeFirstReturnRun).taskReturns
        firstRoundReturn = true ∧
      (((newQuizGameLottery (lotteryRecord 2 1 5)).run beforeFirstReturnRun).step
        firstRoundReturn).wait2BeFinishedGameCount = 1 ∧
      ((newQuizGameLottery (lotteryRecord 2 1 5)).run
        secondReturnsFirstLoadsRun).wait2BeFinishedGameCount = 0 ∧
      ((newQuizGameLottery (lotteryRecord 2 1 5)).run secondReturnsFirstLoadsRun).emits
        firstRoundSend = true := by
  decide

/-- C22 (amended): in the state reached from a new lottery by any sequence of `AddGame`,
`RemoveGame` and round-task steps, the counter of unfinished rounds equals the number of
calls that reached `StartGame` minus the number of round tasks that have returned from `Play`
(by a natural finish, on a cancelled context or at once on a Finished round), and it is not
negative; the ready-to-finalize signal is emitted only by a round task that stands at the
send, a task comes to stand there only by loading the counter as zero after its own
decrement, and at such a load every round task has returned; the task that sends need not be
the one whose return brought the counter to zero. -/
theorem C22_counter_bookkeeping (lottery : DiscordQuizGameLottery)
    (events : List LotteryEvent) (e : LotteryEvent) :
    ((newQuizGameLottery lottery).run events).wait2BeFinishedGameCount =
        ((newQuizGameLottery lottery).startedCount events : Int) -
          ((newQuizGameLottery lottery).returnedCount events : Int) ∧
      0 ≤ ((newQuizGameLottery lottery).run events).wait2BeFinishedGameCount ∧
      (newQuizGameLottery lottery).returnedCount events ≤
        (newQuizGameLottery lottery).startedCount events ∧
      (((newQuizGameLottery lottery).run events).emits e = true →
        ∃ ref, e = .task ref .send ∧
          ((newQuizGameLottery lottery).run events).phaseAt ref = .sending) ∧
      (((newQuizGameLottery lottery).run events).sendingTasks <
          (((newQuizGameLottery lottery).run events).step e).sendingTasks →
        ((newQuizGameLottery lottery).run events).readsZero e = true ∧
          ((newQuizGameLottery lottery).run events).wait2BeFinishedGameCount = 0 ∧
          runningCount ((newQuizGameLottery lottery).run events).games = 0 ∧
          runningCount ((newQuizGameLottery lottery).run events).detached = 0) := by
  have hc := run_count (newQuizGameLottery lottery) events
  have hinv := run_inv _ events (newQuizGameLottery_inv lottery)
  have hpos := counter_nonneg _ hinv
  have h0 : (newQuizGameLottery lottery).wait2BeFinishedGameCount = 0 := rfl
  rw [h0] at hc
  refine ⟨by omega, hpos, by omega, emits_only_by_send _ e, ?_⟩
  intro hs
  have hread := sending_only_by_reading_zero _ e hs
  have hz : ((newQuizGameLottery lottery).run events).wait2BeFinishedGameCount = 0 := by
    cases e with
    | addGame game deleteOk => simp [quizGameLottery.readsZero] at hread
    | removeGame gameID deleteOk => simp [quizGameLottery.readsZero] at hread
    | task ref ev =>
      cases ev <;> simp [quizGameLottery.readsZero] at hread
      exact hread.2
  unfold CounterInv at hinv
  refine ⟨hread, hz, ?_, ?_⟩ <;> omega

theorem C22_counter_bookkeeping_witness :
    (((newQuizGameLottery (lotteryRecord 1 1 5)).run closeAndLoadRun).emits firstRoundSend =
        true ∧
      ∃ ref, firstRoundSend = .task ref .send ∧
        ((newQuizGameLottery (lotteryRecord 1 1 5)).run closeAndLoadRun).phaseAt ref =
          .sending) ∧
      (((newQuizGameLottery (lotteryRecord 1 1 5)).run naturalCloseRun).sendingTasks <
          (((newQuizGameLottery (lotteryRecord 1 1 5)).run naturalCloseRun).step
            firstRoundLoad).sendingTasks ∧
        ((newQuizGameLottery (lotteryRecord 1 1 5)).run naturalCloseRun).readsZero
          firstRoundLoad = true ∧
        ((newQuizGameLottery (lotteryRecord 1 1 5)).run
          naturalCloseRun).wait2BeFinishedGameCount = 0 ∧
        runningCount ((newQuizGameLottery (lotteryRecord 1 1 5)).run naturalCloseRun).games =
          0 ∧
        runningCount ((newQuizGameLottery (lotteryRecord 1 1 5)).run
          naturalCloseRun).detached = 0) :=
  ⟨⟨by decide, (C22_counter_bookkeeping (lotteryRecord 1 1 5) closeAndLoadRun
      firstRoundSend).2.2.2.1 (by decide)⟩,
    ⟨by decide, (C22_counter_bookkeeping (lotteryRecord 1 1 5) naturalCloseRun
      firstRoundLoad).2.2.2.2 (by decide)⟩⟩

/-! ## Claims about saving a lottery -/

theorem SaveQuizGameLottery_valid (m : QuizGameManager) (lottery : saveQuizGameLotteryRequest)
    (saveOk : Bool) (h : lottery.valid) :
    SaveQuizGameLottery m (some lottery) saveOk =
      if saveOk = false then
        ({ status := 500, body := "internal error", saveCalled := some lottery.toRecord,
           addLotteryCalled := none }, m)
      else
        ({ status := 200, body := "success", saveCalled := some lottery.toRecord,
           addLotteryCalled := some lottery.toRecord }, m.AddLottery lottery.toRecord) := by
  obtain ⟨h1, h2, h3, h4, h5, h6, h7⟩ := h
  unfold SaveQuizGameLottery
  simp only
  rw [if_neg (by omega), if_neg h2, if_neg (by rw [h3]; decide), if_neg (by omega),
    if_neg (by omega), if_neg (by omega), if_neg (by omega)]

theorem SaveQuizGameLottery_invalid (m : QuizGameManager)
    (lottery : saveQuizGameLotteryRequest) (saveOk : Bool) (h : ¬ lottery.valid) :
    ∃ body, SaveQuizGameLottery m (some lottery) saveOk = (.reject 400 body, m) := by
  unfold SaveQuizGameLottery
  simp only
  split_ifs with h1 h2 h3 h4 h5 h6 h7 h8
  · exact ⟨_, rfl⟩
  · exact ⟨_, rfl⟩
  · exact ⟨_, rfl⟩
  · exact ⟨_, rfl⟩
  · exact ⟨_, rfl⟩
  · exact ⟨_, rfl⟩
  · exact ⟨_, rfl⟩
  · exfalso
    apply h
    simp only [Bool.not_eq_false] at h3
    exact ⟨by omega, h2, h3, by omega, by omega, by omega, by omega⟩
  · exfalso
    apply h
    simp only [Bool.not_eq_false] at h3
    exact ⟨by omega, h2, h3, by omega, by omega, by omega, by omega⟩

/-- C25: `SaveQuizGameLottery` calls `AddLottery` only for a request that was bound and has
WinnerNum > 0, a non-empty LotteryID, a valid reward type, RewardAmount > 0,
TotalQuizNum > 0 and 0 < WinnerRequiredCorrectQuizNum ≤ TotalQuizNum; the record it hands over
is the one built from the request, saved before, and has
1 ≤ WinnerRequiredCorrectQuizNum ≤ TotalQuizNum.  A request that fails one of the conditions,
and a body that cannot be bound, are answered with status 400 without `Save` or `AddLottery`
being called, the registry staying as it is.  (A request that meets the conditions and whose
`Save` fails is answered with status 500, again without `AddLottery` being called.) -/
theorem C25_lottery_configuration_validated (m : QuizGameManager)
    (bound : Option saveQuizGameLotteryRequest) (saveOk : Bool) :
    (∀ record, (SaveQuizGameLottery m bound saveOk).1.addLotteryCalled = some record →
        ∃ lottery, bound = some lottery ∧ lottery.valid ∧ record = lottery.toRecord ∧
          (SaveQuizGameLottery m bound saveOk).1.saveCalled = some record ∧
          (SaveQuizGameLottery m bound saveOk).1.status = 200 ∧
          (SaveQuizGameLottery m bound saveOk).2 = m.AddLottery record ∧
          1 ≤ record.WinnerRequiredCorrectQuizNum ∧
          record.WinnerRequiredCorrectQuizNum ≤ record.TotalQuizNum) ∧
      ((SaveQuizGameLottery m bound saveOk).1.status = 200 →
        (SaveQuizGameLottery m bound saveOk).1.addLotteryCalled ≠ none) ∧
      ((∀ lottery, bound = some lottery → ¬ lottery.valid) →
        (SaveQuizGameLottery m bound saveOk).1.status = 400 ∧
          (SaveQuizGameLottery m bound saveOk).1.saveCalled = none ∧
          (SaveQuizGameLottery m bound saveOk).1.addLotteryCalled = none ∧
          (SaveQuizGameLottery m bound saveOk).2 = m) ∧
      (∀ lottery, bound = some lottery → lottery.valid → saveOk = false →
        (SaveQuizGameLottery m bound saveOk).1.status = 500 ∧
          (SaveQuizGameLottery m bound saveOk).1.addLotteryCalled = none ∧
          (SaveQuizGameLottery m bound saveOk).2 = m) := by
  cases bound with
  | none =>
    refine ⟨?_, ?_, ?_, ?_⟩
    · intro record h
      cases h
    · intro h
      cases h
    · intro _
      exact ⟨rfl, rfl, rfl, rfl⟩
    · intro lottery h
      cases h
  | some lottery =>
    by_cases hv : lottery.valid
    · rw [SaveQuizGameLottery_valid m lottery saveOk hv]
      cases saveOk
      · refine ⟨?_, ?_, ?_, ?_⟩
        · intro record h
          cases h
        · intro h
          cases h
        · intro h
          exact absurd hv (h lottery rfl)
        · intro _ _ _ _
          exact ⟨rfl, rfl, rfl⟩
      · refine ⟨?_, ?_, ?_, ?_⟩
        · intro record h
          simp only [Bool.true_eq_false, if_false, Option.some.injEq] at h
          subst h
          exact ⟨lottery, rfl, hv, rfl, rfl, rfl, rfl, hv.2.2.2.2.2.1, hv.2.2.2.2.2.2⟩
        · intro _ h
          cases h
        · intro h
          exact absurd hv (h lottery rfl)
        · intro _ _ _ h
          cases h
    · obtain ⟨body, hb⟩ := SaveQuizGameLottery_invalid m lottery saveOk hv
      rw [hb]
      refine ⟨?_, ?_, ?_, ?_⟩
      · intro record h
        cases h
      · intro h
        cases h
      · intro _
        exact ⟨rfl, rfl, rfl, rfl⟩
      · intro l2 h2 hv2 _
        cases h2
        exact absurd hv2 hv

theorem C25_lottery_configuration_validated_witness :
    ((SaveQuizGameLottery registryWithLottery (some lotteryRequest) true).1.addLotteryCalled =
        some lotteryRequest.toRecord ∧
      ∃ lottery, some lotteryRequest = some lottery ∧ lottery.valid ∧
        lotteryRequest.toRecord = lottery.toRecord ∧
        (SaveQuizGameLottery registryWithLottery (some lotteryRequest) true).1.saveCalled =
          some lotteryRequest.toRecord ∧
        (SaveQuizGameLottery registryWithLottery (some lotteryRequest) true).1.status = 200 ∧
        (SaveQuizGameLottery registryWithLottery (some lotteryRequest) true).2 =
          registryWithLottery.AddLottery lotteryRequest.toRecord ∧
        1 ≤ lotteryRequest.toRecord.WinnerRequiredCorrectQuizNum ∧
        lotteryRequest.toRecord.WinnerRequiredCorrectQuizNum ≤
          lotteryRequest.toRecord.TotalQuizNum) ∧
      ((∀ lottery, some lotteryRequestTooMany = some lottery → ¬ lottery.valid) ∧
        (SaveQuizGameLottery registryWithLottery (some lotteryRequestTooMany) true).1.status =
          400 ∧
        (SaveQuizGameLottery registryWithLottery (some lotteryRequestTooMany)
          true).1.addLotteryCalled = none) :=
  ⟨⟨by decide,
      (C25_lottery_configuration_validated registryWithLottery (some lotteryRequest) true).1
        lotteryRequest.toRecord (by decide)⟩,
    ⟨(fun lottery h => by cases h; decide),
      ((C25_lottery_configuration_validated registryWithLottery (some lotteryRequestTooMany)
        true).2.2.1 (fun lottery h => by cases h; decide)).1,
      ((C25_lottery_configuration_validated registryWithLottery (some lotteryRequestTooMany)
        true).2.2.1 (fun lottery h => by cases h; decide)).2.2.1⟩⟩

/-! ## Claims about validating a round -/

theorem answerOptionsLoop_some (correct : String) (options : List JSONValue) (found : Bool)
    (dedup : List String) (f : Bool) (d : List String)
    (h : answerOptionsLoop correct options found dedup = some (f, d)) :
    ∃ ss : List String, options = ss.map JSONValue.str ∧
      f = (found || decide (correct ∈ ss)) ∧ d = addIntoSet dedup ss := by
  induction options generalizing found dedup with
  | nil =>
    simp only [answerOptionsLoop, Option.some.injEq, Prod.mk.injEq] at h
    exact ⟨[], rfl, by simp [h.1], by rw [← h.2]; rfl⟩
  | cons ans rest ih =>
    cases ans with
    | str s =>
      simp only [answerOptionsLoop] at h
      obtain ⟨ss, h1, h2, h3⟩ := ih _ _ h
      refine ⟨s :: ss, by rw [h1]; rfl, ?_, ?_⟩
      · rw [h2]
        simp only [JSONValue.str.injEq, List.mem_cons, Bool.or_assoc, Bool.decide_or]
        congr 2
        by_cases hc : s = correct
        · simp [hc]
        · have hc2 : ¬ correct = s := fun h => hc h.symm
          simp [hc, hc2]
      · rw [h3]
        rfl
    | number n => simp [answerOptionsLoop] at h
    | bool b => simp [answerOptionsLoop] at h
    | null => simp [answerOptionsLoop] at h
    | composite => simp [answerOptionsLoop] at h

theorem addIntoSet_cons (s : List String) (id : String) (ids : List String) :
    addIntoSet s (id :: ids) = addIntoSet (if id ∈ s then s else s ++ [id]) ids := rfl

theorem addIntoSet_length_le (s ids : List String) :
    (addIntoSet s ids).length ≤ s.length + ids.length := by
  induction ids generalizing s with
  | nil => exact Nat.le_refl _
  | cons id rest ih =>
    rw [addIntoSet_cons]
    have := ih (if id ∈ s then s else s ++ [id])
    split_ifs at this ⊢ with hmem
    · simp only [List.length_cons]
      omega
    · simp only [List.length_append, List.length_cons, List.length_nil] at this ⊢
      omega

theorem addIntoSet_length_eq (s ids : List String)
    (h : (addIntoSet s ids).length = s.length + ids.length) :
    ids.Nodup ∧ ∀ x ∈ ids, x ∉ s := by
  induction ids generalizing s with
  | nil => exact ⟨List.nodup_nil, fun x hx => by cases hx⟩
  | cons id rest ih =>
    rw [addIntoSet_cons] at h
    by_cases hmem : id ∈ s
    · rw [if_pos hmem] at h
      have := addIntoSet_length_le s rest
      simp only [List.length_cons] at h
      omega
    · rw [if_neg hmem] at h
      have h2 : (addIntoSet (s ++ [id]) rest).length = (s ++ [id]).length + rest.length := by
        simp only [List.length_append, List.length_cons, List.length_nil] at h ⊢
        omega
      obtain ⟨hnd, hdis⟩ := ih _ h2
      constructor
      · rw [List.nodup_cons]
        refine ⟨?_, hnd⟩
        intro hin
        exact hdis id hin (List.mem_append_right _ (List.mem_singleton_self _))
      · intro x hx
        rcases List.mem_cons.1 hx with hx1 | hx1
        · rw [hx1]
          exact hmem
        · intro hxs
          exact hdis x hx1 (List.mem_append_left _ hxs)

theorem validateGameID_accepted (env : SaveQuizGameEnv) (lottery : DiscordQuizGameLottery)
    (game result : saveQuizGameRequest) (h : validateGameID env lottery game = .accepted result) :
    result.AnswerOptions = game.AnswerOptions ∧
      result.CorrectAnswerOption = game.CorrectAnswerOption ∧ result.Status = .NotStarted := by
  unfold validateGameID at h
  split_ifs at h with h1
  · cases hg : env.game with
    | failed => rw [hg] at h; cases h
    | row r =>
      cases r with
      | none => rw [hg] at h; cases h
      | some one =>
        rw [hg] at h
        dsimp only at h
        split_ifs at h
        simp only [ValidateResult.accepted.injEq] at h
        rw [← h]
        exact ⟨rfl, rfl, rfl⟩
  · cases hc : env.lotteryGames with
    | none => rw [hc] at h; cases h
    | some count =>
      rw [hc] at h
      dsimp only at h
      split_ifs at h
      simp only [ValidateResult.accepted.injEq] at h
      rw [← h]
      exact ⟨rfl, rfl, rfl⟩

theorem validateAnswerOptions_accepted (env : SaveQuizGameEnv)
    (lottery : DiscordQuizGameLottery) (game result : saveQuizGameRequest)
    (h : validateAnswerOptions env lottery game = .accepted result) :
    ∃ options : List String, game.AnswerOptions = options.map JSONValue.str ∧
      2 ≤ options.length ∧ options.length ≤ 9 ∧ options.Nodup ∧
      game.CorrectAnswerOption ≠ "" ∧ game.CorrectAnswerOption ∈ options ∧
      result.AnswerOptions = game.AnswerOptions ∧
      result.CorrectAnswerOption = game.CorrectAnswerOption ∧ result.Status = .NotStarted := by
  unfold validateAnswerOptions at h
  split_ifs at h with h1 h2
  cases hl : answerOptionsLoop game.CorrectAnswerOption game.AnswerOptions false [] with
  | none => rw [hl] at h; cases h
  | some r =>
    obtain ⟨f, d⟩ := r
    rw [hl] at h
    dsimp only at h
    split_ifs at h with h3 h4
    obtain ⟨ss, e1, e2, e3⟩ := answerOptionsLoop_some _ _ _ _ _ _ hl
    have hlen : game.AnswerOptions.length = ss.length := by rw [e1, List.length_map]
    have hf : f = true := by simpa using h3
    rw [hf] at e2
    simp only [Bool.false_or] at e2
    have hmem : game.CorrectAnswerOption ∈ ss := by
      have := e2.symm
      simpa using this
    have hd : (addIntoSet [] ss).length = ([] : List String).length + ss.length := by
      rw [← e3]
      simp only [ne_eq, Decidable.not_not] at h4
      rw [h4, hlen]
      simp
    obtain ⟨hnd, _⟩ := addIntoSet_length_eq [] ss hd
    obtain ⟨r1, r2, r3⟩ := validateGameID_accepted env lottery game result h
    rw [hlen] at h1
    exact ⟨ss, e1, by omega, by omega, hnd, h2, hmem, r1, r2, r3⟩

theorem validateSaveQuizGameRequest_accepted (env : SaveQuizGameEnv)
    (bound : Option saveQuizGameRequest) (result : saveQuizGameRequest)
    (h : validateSaveQuizGameRequest env bound = .accepted result) :
    ∃ (game : saveQuizGameRequest) (options : List String), bound = some game ∧
      game.AnswerOptions = options.map JSONValue.str ∧
      2 ≤ options.length ∧ options.length ≤ 9 ∧ options.Nodup ∧
      game.CorrectAnswerOption ≠ "" ∧ game.CorrectAnswerOption ∈ options ∧
      result.AnswerOptions = game.AnswerOptions ∧
      result.CorrectAnswerOption = game.CorrectAnswerOption ∧ result.Status = .NotStarted := by
  unfold validateSaveQuizGameRequest at h
  cases bound with
  | none => cases h
  | some game =>
    dsimp only at h
    by_cases h1 : game.LotteryID = ""
    · rw [if_pos h1] at h
      cases h
    · rw [if_neg h1] at h
      cases hl : env.lottery with
      | failed => rw [hl] at h; cases h
      | row r =>
        cases r with
        | none => rw [hl] at h; cases h
        | some lottery =>
          rw [hl] at h
          dsimp only at h
          split_ifs at h
          obtain ⟨options, hopt⟩ := validateAnswerOptions_accepted env lottery _ result h
          exact ⟨game, options, rfl, hopt⟩

theorem answerOptionsLoop_none (correct : String) (options : List JSONValue) (found : Bool)
    (dedup : List String) (h : answerOptionsLoop correct options found dedup = none) :
    ∃ a ∈ options, ∀ s, a ≠ JSONValue.str s := by
  induction options generalizing found dedup with
  | nil => simp [answerOptionsLoop] at h
  | cons ans rest ih =>
    cases ans with
    | str s =>
      simp only [answerOptionsLoop] at h
      obtain ⟨a, ha, hs⟩ := ih _ _ h
      exact ⟨a, List.mem_cons_of_mem _ ha, hs⟩
    | number n => exact ⟨_, List.mem_cons_self _ _, fun s hs => by cases hs⟩
    | bool b => exact ⟨_, List.mem_cons_self _ _, fun s hs => by cases hs⟩
    | null => exact ⟨_, List.mem_cons_self _ _, fun s hs => by cases hs⟩
    | composite => exact ⟨_, List.mem_cons_self _ _, fun s hs => by cases hs⟩

theorem validateGameID_not_panicked (env : SaveQuizGameEnv)
    (lottery : DiscordQuizGameLottery) (game : saveQuizGameRequest) :
    validateGameID env lottery game ≠ .panicked := by
  intro h
  unfold validateGameID at h
  by_cases h1 : game.GameID ≠ ""
  · rw [if_pos h1] at h
    cases hg : env.game with
    | failed => rw [hg] at h; cases h
    | row r =>
      cases r with
      | none => rw [hg] at h; cases h
      | some one =>
        rw [hg] at h
        dsimp only at h
        split_ifs at h
  · rw [if_neg h1] at h
    cases hc : env.lotteryGames with
    | none => rw [hc] at h; cases h
    | some count =>
      rw [hc] at h
      dsimp only at h
      split_ifs at h

theorem validateAnswerOptions_panicked (env : SaveQuizGameEnv)
    (lottery : DiscordQuizGameLottery) (game : saveQuizGameRequest)
    (h : validateAnswerOptions env lottery game = .panicked) :
    2 ≤ game.AnswerOptions.length ∧ game.AnswerOptions.length ≤ 9 ∧
      game.CorrectAnswerOption ≠ "" ∧ ∃ a ∈ game.AnswerOptions, ∀ s, a ≠ JSONValue.str s := by
  unfold validateAnswerOptions at h
  split_ifs at h with h1 h2
  cases hl : answerOptionsLoop game.CorrectAnswerOption game.AnswerOptions false [] with
  | none => exact ⟨by omega, by omega, h2, answerOptionsLoop_none _ _ _ _ hl⟩
  | some r =>
    obtain ⟨f, d⟩ := r
    rw [hl] at h
    dsimp only at h
    split_ifs at h
    exact absurd h (validateGameID_not_panicked env lottery game)

theorem validateSaveQuizGameRequest_panicked (env : SaveQuizGameEnv)
    (bound : Option saveQuizGameRequest)
    (h : validateSaveQuizGameRequest env bound = .panicked) :
    ∃ game, bound = some game ∧ 2 ≤ game.AnswerOptions.length ∧
      game.AnswerOptions.length ≤ 9 ∧ game.CorrectAnswerOption ≠ "" ∧
      ∃ a ∈ game.AnswerOptions, ∀ s, a ≠ JSONValue.str s := by
  unfold validateSaveQuizGameRequest at h
  cases bound with
  | none => cases h
  | some game =>
    dsimp only at h
    by_cases h1 : game.LotteryID = ""
    · rw [if_pos h1] at h
      cases h
    · rw [if_neg h1] at h
      cases hl : env.lottery with
      | failed => rw [hl] at h; cases h
      | row r =>
        cases r with
        | none => rw [hl] at h; cases h
        | some lottery =>
          rw [hl] at h
          dsimp only at h
          split_ifs at h
          have hp := validateAnswerOptions_panicked env lottery _ h
          exact ⟨game, rfl, hp⟩

/-- C26 (the claim as stated fails): a bound request with three answer options of which two
are the number 1, the correct option being the third, violates the condition that the entries
are pairwise distinct; `validateSaveQuizGameRequest` does not answer it with an error: the
type assertion `ans.(string)` in the loop over the options panics on the first entry, before
the test for duplicates is reached. -/
theorem C26_non_string_option_panics :
    ¬ roundRequestNumbers.answersValid ∧
      ¬ roundRequestNumbers.AnswerOptions.Nodup ∧
      (2 ≤ roundRequestNumbers.AnswerOptions.length ∧
        roundRequestNumbers.AnswerOptions.length ≤ 9) ∧
      JSONValue.str roundRequestNumbers.CorrectAnswerOption ∈
        roundRequestNumbers.AnswerOptions ∧
      answerOptionsLoop roundRequestNumbers.CorrectAnswerOption
        roundRequestNumbers.AnswerOptions false [] = none ∧
      validateSaveQuizGameRequest saveQuizGameEnv (some roundRequestNumbers) = .panicked ∧
      (¬ ∃ status body, validateSaveQuizGameRequest saveQuizGameEnv
          (some roundRequestNumbers) = .rejected status body) ∧
      validateSaveQuizGameRequest saveQuizGameEnv (some roundRequestDuplicate) =
        .rejected 400 "duplicate answer option found" := by
  refine ⟨by decide, by decide, by decide, by decide, by decide, by decide, ?_, by decide⟩
  rintro ⟨status, body, h⟩
  have hp : validateSaveQuizGameRequest saveQuizGameEnv (some roundRequestNumbers) =
      .panicked := by decide
  rw [hp] at h
  cases h

/-- C26 (amended): when `validateSaveQuizGameRequest` accepts a request, the request was
bound, every entry of its AnswerOptions is a string, there are between 2 and 9 entries, they
are pairwise distinct, CorrectAnswerOption is not empty and occurs among them exactly once,
and the round returned has these AnswerOptions and this CorrectAnswerOption.  A request that
violates one of the conditions and whose entries are all strings is answered with an error
status.  A request that violates one of them is never accepted: it is answered with an error
status or the validation panics; and it panics only on a bound request with between 2 and 9
entries and a non-empty CorrectAnswerOption of which some entry is not a string. -/
theorem C26_answer_options_validated (env : SaveQuizGameEnv)
    (bound : Option saveQuizGameRequest) :
    (∀ result, validateSaveQuizGameRequest env bound = .accepted result →
        ∃ (game : saveQuizGameRequest) (options : List String), bound = some game ∧
          game.answersValid ∧ game.AnswerOptions = options.map JSONValue.str ∧
          2 ≤ options.length ∧ options.length ≤ 9 ∧ options.Nodup ∧
          options.count game.CorrectAnswerOption = 1 ∧
          result.AnswerOptions = game.AnswerOptions ∧
          result.CorrectAnswerOption = game.CorrectAnswerOption) ∧
      (∀ game, bound = some game → ¬ game.answersValid →
        (∃ options : List String, game.AnswerOptions = options.map JSONValue.str) →
        ∃ status body, validateSaveQuizGameRequest env bound = .rejected status body) ∧
      (∀ game, bound = some game → ¬ game.answersValid →
        (∃ status body, validateSaveQuizGameRequest env bound = .rejected status body) ∨
          validateSaveQuizGameRequest env bound = .panicked) ∧
      (validateSaveQuizGameRequest env bound = .panicked →
        ∃ game, bound = some game ∧ 2 ≤ game.AnswerOptions.length ∧
          game.AnswerOptions.length ≤ 9 ∧ game.CorrectAnswerOption ≠ "" ∧
          ∃ a ∈ game.AnswerOptions, ∀ s, a ≠ JSONValue.str s) := by
  have hacc : ∀ result, validateSaveQuizGameRequest env bound = .accepted result →
      ∃ (game : saveQuizGameRequest) (options : List String), bound = some game ∧
        game.answersValid ∧ game.AnswerOptions = options.map JSONValue.str ∧
        2 ≤ options.length ∧ options.length ≤ 9 ∧ options.Nodup ∧
        options.count game.CorrectAnswerOption = 1 ∧
        result.AnswerOptions = game.AnswerOptions ∧
        result.CorrectAnswerOption = game.CorrectAnswerOption := by
    intro result h
    obtain ⟨game, options, hb, ho, h2, h9, hnd, hne, hmem, r1, r2, _⟩ :=
      validateSaveQuizGameRequest_accepted env bound result h
    refine ⟨game, options, hb, ?_, ho, h2, h9, hnd, List.count_eq_one_of_mem hnd hmem, r1, r2⟩
    refine ⟨?_, ?_, ?_, hne, ?_⟩
    · rw [ho, List.length_map]
      exact h2
    · rw [ho, List.length_map]
      exact h9
    · rw [ho]
      exact hnd.map (fun a b hab => by cases hab; rfl)
    · rw [ho]
      exact List.mem_map.2 ⟨_, hmem, rfl⟩
  have hnot : ∀ game, bound = some game → ¬ game.answersValid →
      ∀ result, validateSaveQuizGameRequest env bound ≠ .accepted result := by
    intro game hb hinvalid result hr
    obtain ⟨game2, _, hb2, hv, _⟩ := hacc result hr
    rw [hb] at hb2
    cases hb2
    exact hinvalid hv
  refine ⟨hacc, ?_, ?_, validateSaveQuizGameRequest_panicked env bound⟩
  · intro game hb hinvalid hstr
    cases hr : validateSaveQuizGameRequest env bound with
    | rejected status body => exact ⟨status, body, rfl⟩
    | panicked =>
      exfalso
      obtain ⟨game2, hb2, _, _, _, a, ha, hs⟩ := validateSaveQuizGameRequest_panicked env bound hr
      rw [hb] at hb2
      cases hb2
      obtain ⟨options, ho⟩ := hstr
      rw [ho] at ha
      obtain ⟨s, _, e⟩ := List.mem_map.1 ha
      exact hs s e.symm
    | accepted result => exact absurd hr (hnot game hb hinvalid result)
  · intro game hb hinvalid
    cases hr : validateSaveQuizGameRequest env bound with
    | rejected status body => exact Or.inl ⟨status, body, rfl⟩
    | panicked => exact Or.inr rfl
    | accepted result => exact absurd hr (hnot game hb hinvalid result)

theorem C26_answer_options_validated_witness :
    (validateSaveQuizGameRequest saveQuizGameEnv (some roundRequest) =
        .accepted { roundRequest with GameID := "g9", RecordSendQuizAt := 5000000000 } ∧
      ∃ (game : saveQuizGameRequest) (options : List String), some roundRequest = some game ∧
        game.answersValid ∧ game.AnswerOptions = options.map JSONValue.str ∧
        2 ≤ options.length ∧ options.length ≤ 9 ∧ options.Nodup ∧
        options.count game.CorrectAnswerOption = 1 ∧
        roundRequest.AnswerOptions = game.AnswerOptions ∧
        roundRequest.CorrectAnswerOption = game.CorrectAnswerOption) ∧
      (¬ roundRequestDuplicate.answersValid ∧
        (∃ options : List String,
          roundRequestDuplicate.AnswerOptions = options.map JSONValue.str) ∧
        ∃ status body, validateSaveQuizGameRequest saveQuizGameEnv
          (some roundRequestDuplicate) = .rejected status body) ∧
      (¬ roundRequestNumbers.answersValid ∧
        ((∃ status body, validateSaveQuizGameRequest saveQuizGameEnv
            (some roundRequestNumbers) = .rejected status body) ∨
          validateSaveQuizGameRequest saveQuizGameEnv (some roundRequestNumbers) =
            .panicked)) ∧
      (validateSaveQuizGameRequest saveQuizGameEnv (some roundRequestNumbers) = .panicked ∧
        ∃ game, some roundRequestNumbers = some game ∧ 2 ≤ game.AnswerOptions.length ∧
          game.AnswerOptions.length ≤ 9 ∧ game.CorrectAnswerOption ≠ "" ∧
          ∃ a ∈ game.AnswerOptions, ∀ s, a ≠ JSONValue.str s) :=
  ⟨⟨by decide,
      (C26_answer_options_validated saveQuizGameEnv (some roundRequest)).1
        { roundRequest with GameID := "g9", RecordSendQuizAt := 5000000000 } (by decide)⟩,
    ⟨by decide, ⟨["x", "y", "x"], rfl⟩,
      (C26_answer_options_validated saveQuizGameEnv (some roundRequestDuplicate)).2.1
        roundRequestDuplicate rfl (by decide) ⟨["x", "y", "x"], rfl⟩⟩,
    ⟨by decide,
      (C26_answer_options_validated saveQuizGameEnv (some roundRequestNumbers)).2.2.1
        roundRequestNumbers rfl (by decide)⟩,
    ⟨by decide,
      (C26_answer_options_validated saveQuizGameEnv (some roundRequestNumbers)).2.2.2
        (by decide)⟩⟩

/-! ## Claims about the two win tests -/

theorem splitAmpersand_ne_nil (cs : List Char) : splitAmpersand cs ≠ [] := by
  cases cs with
  | nil => simp [splitAmpersand]
  | cons c tl =>
    simp only [splitAmpersand]
    split_ifs
    · simp
    · cases splitAmpersand tl <;> simp

theorem splitAmpersand_prefix (cs rest : List Char) (h : '&' ∉ cs) :
    splitAmpersand (cs ++ '&' :: rest) = cs :: splitAmpersand rest := by
  induction cs with
  | nil => simp [splitAmpersand]
  | cons c tl ih =>
    have hc : c ≠ '&' := fun hc => h (hc ▸ List.mem_cons_self _ _)
    have htl : '&' ∉ tl := fun hm => h (List.mem_cons_of_mem _ hm)
    simp only [List.cons_append, splitAmpersand, if_neg hc, List.append_eq, ih htl]

theorem parseDigits_digits (cs : List Char) (acc v : Nat) (h : parseDigits cs acc = some v) :
    ∀ c ∈ cs, digitValue c ≠ none := by
  induction cs generalizing acc with
  | nil => exact fun c hc => by cases hc
  | cons c tl ih =>
    simp only [parseDigits] at h
    cases hd : digitValue c with
    | none => rw [hd] at h; cases h
    | some d =>
      rw [hd] at h
      intro x hx
      rcases List.mem_cons.1 hx with hx1 | hx1
      · rw [hx1, hd]
        exact fun h => by cases h
      · exact ih _ h x hx1

theorem toString_no_ampersand (n : Nat) : '&' ∉ (toString n).toList := by
  have hlist : (toString n).toList = Nat.toDigits 10 n := rfl
  have hparse : parseDigits (Nat.toDigits 10 n) 0 = some n := by
    unfold Nat.toDigits
    rw [parseDigits_toDigitsCore (n + 1) n [] (by omega)]
    rfl
  rw [hlist]
  intro hmem
  exact parseDigits_digits _ _ _ hparse '&' hmem (by decide)

theorem toString_inj_below (a b : Nat) (ha : a < 2 ^ 63) (hb : b < 2 ^ 63)
    (h : toString a = toString b) : a = b := by
  have h1 := ParseInt_toString a ha
  have h2 := ParseInt_toString b hb
  rw [h, h2] at h1
  simp only [Option.some.injEq, Nat.cast_inj] at h1
  exact h1.symm

theorem get?_inj_of_nodup (options : List String) (hnd : options.Nodup) (i j : Nat)
    (x : String) (hi : options.get? i = some x) (hj : options.get? j = some x) : i = j := by
  induction options generalizing i j with
  | nil => cases hi
  | cons opt rest ih =>
    rw [List.nodup_cons] at hnd
    cases i with
    | zero =>
      cases j with
      | zero => rfl
      | succ j' =>
        simp only [List.get?_cons_zero, Option.some.injEq] at hi
        simp only [List.get?_cons_succ] at hj
        exact absurd (hi ▸ List.get?_mem hj) hnd.1
    | succ i' =>
      cases j with
      | zero =>
        simp only [List.get?_cons_zero, Option.some.injEq] at hj
        simp only [List.get?_cons_succ] at hi
        exact absurd (hj ▸ List.get?_mem hi) hnd.1
      | succ j' =>
        simp only [List.get?_cons_succ] at hi hj
        rw [ih hnd.2 i' j' hi hj]

theorem finalize_winner_iff (g : quizGame) (record : RedisHash) (user vote : String)
    (hentry : (user, vote) ∈ record) (hkeys : (record.map Prod.fst).Nodup) :
    (∃ winners, (g.finalizeParticipateInfo (some record)).2.Winners = some winners ∧
        user ∈ winners) ↔
      recordedOption vote = g.CorrectAnswerOptionCustomID := by
  have hlen : ¬ record.length = 0 := by
    intro h
    rw [List.length_eq_zero.1 h] at hentry
    cases hentry
  have huniq : ∀ e ∈ record, e.1 = user → e = (user, vote) := by
    intro e he hu
    have := List.inj_on_of_nodup_map hkeys he hentry hu
    exact this
  simp only [quizGame.finalizeParticipateInfo, hlen, if_false, Option.some.injEq,
    exists_eq_left', List.mem_map, List.mem_filter, decide_eq_true_eq]
  constructor
  · rintro ⟨e, ⟨he, hopt⟩, hu⟩
    rw [huniq e he hu] at hopt
    exact hopt
  · intro h
    exact ⟨(user, vote), ⟨hentry, h⟩, rfl⟩

theorem participationInfo_of_vote (g : quizGame) (n : Nat) (stamp : Int) (chosen : String)
    (hlen : g.AnswerOptions.length < 2 ^ 63) (h1 : 1 ≤ n) (hn : n ≤ g.AnswerOptions.length)
    (hchosen : g.AnswerOptions.get? (n - 1) = some chosen) :
    ∃ time, g.participationInfo (.value (participateInfo (toString n) stamp)) =
      .ok (some { participated := true, chosenOptionID := toString n, participateTime := time,
                  chosenAnswer := chosen, correctAnswer := g.CorrectAnswerOption,
                  win := decide (chosen = g.CorrectAnswerOption) }) := by
  have hchars : (participateInfo (toString n) stamp).toList =
      (toString n).toList ++ '&' :: (toString (Int.tdiv stamp 1000000)).toList := by
    simp only [participateInfo, String.toList, String.data_append, List.append_assoc]
    rfl
  have hsplit := splitAmpersand_prefix (toString n).toList
    (toString (Int.tdiv stamp 1000000)).toList (toString_no_ampersand n)
  obtain ⟨piece, pieces, hrest⟩ :
      ∃ piece pieces, splitAmpersand (toString (Int.tdiv stamp 1000000)).toList =
        piece :: pieces := by
    cases hs : splitAmpersand (toString (Int.tdiv stamp 1000000)).toList with
    | nil => exact absurd hs (splitAmpersand_ne_nil _)
    | cons piece pieces => exact ⟨piece, pieces, rfl⟩
  have hparse := ParseInt_toString n (by omega)
  have hmk : String.mk (toString n).toList = toString n := rfl
  have hneg : ¬ ((n : Int) - 1 < 0) := by omega
  have hidx : ((n : Int) - 1).toNat = n - 1 := by omega
  refine ⟨String.mk piece, ?_⟩
  unfold quizGame.participationInfo
  simp only [hchars, hsplit, hrest, List.map_cons, hmk, hparse, hneg, if_false, hidx, hchosen]

/-- C30: take a round whose AnswerOptions (a slice, so shorter than 2^63) are pairwise distinct
and contain CorrectAnswerOption, with CorrectAnswerOptionCustomID as `newQuizGame` computes it,
and a stored vote whose option id is the decimal string of an integer n with
1 ≤ n ≤ len(AnswerOptions).  Then `participationInfo` returns a result for that vote, and its
`win` is true if and only if the option id equals CorrectAnswerOptionCustomID, if and only if
`finalizeParticipateInfo`, on a record that holds the vote as the entry of the user, puts the
user in Winners. -/
theorem C30_win_tests_agree (g : quizGame) (n : Nat) (stamp : Int) (user : String)
    (record : RedisHash) (hnd : g.AnswerOptions.Nodup)
    (hmem : g.CorrectAnswerOption ∈ g.AnswerOptions)
    (hcid : g.CorrectAnswerOptionCustomID =
      optionCustomIDFrom g.CorrectAnswerOption g.AnswerOptions 0)
    (hlen : g.AnswerOptions.length < 2 ^ 63) (h1 : 1 ≤ n) (hn : n ≤ g.AnswerOptions.length)
    (hentry : (user, participateInfo (toString n) stamp) ∈ record)
    (hkeys : (record.map Prod.fst).Nodup) :
    ∃ pp, g.participationInfo (.value (participateInfo (toString n) stamp)) = .ok (some pp) ∧
      pp.participated = true ∧ pp.chosenOptionID = toString n ∧
      (pp.win = true ↔ toString n = g.CorrectAnswerOptionCustomID) ∧
      (pp.win = true ↔
        ∃ winners, (g.finalizeParticipateInfo (some record)).2.Winners = some winners ∧
          user ∈ winners) := by
  obtain ⟨chosen, hchosen⟩ : ∃ chosen, g.AnswerOptions.get? (n - 1) = some chosen := by
    cases hc : g.AnswerOptions.get? (n - 1) with
    | none =>
      rw [List.get?_eq_none] at hc
      omega
    | some chosen => exact ⟨chosen, rfl⟩
  obtain ⟨time, hpp⟩ := participationInfo_of_vote g n stamp chosen hlen h1 hn hchosen
  obtain ⟨i, hi1, _, hi3⟩ :=
    optionCustomIDFrom_first g.CorrectAnswerOption g.AnswerOptions 0 hmem
  have hi : i < g.AnswerOptions.length := by
    by_contra hge
    rw [List.get?_eq_none.2 (by omega)] at hi1
    cases hi1
  have hid : g.CorrectAnswerOptionCustomID = toString (i + 1) := by
    rw [hcid, hi3, Nat.zero_add]
  have hwin : chosen = g.CorrectAnswerOption ↔ toString n = g.CorrectAnswerOptionCustomID := by
    rw [hid]
    constructor
    · intro hc
      rw [hc] at hchosen
      have := get?_inj_of_nodup g.AnswerOptions hnd (n - 1) i _ hchosen hi1
      have hni : n = i + 1 := by omega
      rw [hni]
    · intro hs
      have hni := toString_inj_below n (i + 1) (by omega) (by omega) hs
      have hidx : n - 1 = i := by omega
      rw [hidx, hi1] at hchosen
      simp only [Option.some.injEq] at hchosen
      exact hchosen.symm
  have hrec : recordedOption (participateInfo (toString n) stamp) = toString n :=
    recordedOption_append (toString n) _ (toString_no_ampersand n)
  refine ⟨_, hpp, rfl, rfl, ?_, ?_⟩
  · simp only [decide_eq_true_eq]
    exact hwin
  · rw [finalize_winner_iff g record user _ hentry hkeys, hrec]
    simp only [decide_eq_true_eq]
    exact hwin

theorem C30_win_tests_agree_witness :
    (newQuizGame (roundRecordRevised "g1")).AnswerOptions.Nodup ∧
      (newQuizGame (roundRecordRevised "g1")).CorrectAnswerOption ∈
        (newQuizGame (roundRecordRevised "g1")).AnswerOptions ∧
      (newQuizGame (roundRecordRevised "g1")).AnswerOptions.length < 2 ^ 63 ∧
      1 ≤ 2 ∧ 2 ≤ (newQuizGame (roundRecordRevised "g1")).AnswerOptions.length ∧
      (("u", participateInfo (toString 2) 7000000000) ∈
        ([("v", "1&5"), ("u", participateInfo (toString 2) 7000000000)] : RedisHash)) ∧
      (([("v", "1&5"), ("u", participateInfo (toString 2) 7000000000)] : RedisHash).map
        Prod.fst).Nodup ∧
      ∃ pp, (newQuizGame (roundRecordRevised "g1")).participationInfo
          (.value (participateInfo (toString 2) 7000000000)) = .ok (some pp) ∧
        pp.participated = true ∧ pp.chosenOptionID = toString 2 ∧
        (pp.win = true ↔
          toString 2 = (newQuizGame (roundRecordRevised "g1")).CorrectAnswerOptionCustomID) ∧
        (pp.win = true ↔
          ∃ winners, ((newQuizGame (roundRecordRevised "g1")).finalizeParticipateInfo
              (some [("v", "1&5"), ("u", participateInfo (toString 2) 7000000000)])).2.Winners =
            some winners ∧ "u" ∈ winners) :=
  ⟨by decide, by decide, by decide, by decide, by decide, by decide, by decide,
    C30_win_tests_agree (newQuizGame (roundRecordRevised "g1")) 2 7000000000 "u"
      [("v", "1&5"), ("u", participateInfo (toString 2) 7000000000)]
      (by decide) (by decide) rfl (by decide) (by decide) (by decide) (by decide)
      (by decide)⟩

/-! ## What the Winner Calculator computes -/

theorem nextCombinationFrom_cons (v : Nat) (s : List Nat) (n k : Nat) (j : Nat) :
    ((∀ p, p < j → s.getD p 0 + k = n + p) →
        nextCombinationFrom (v :: s) n (k + 1) (j + 1) =
          nextCombinationFrom (v :: s) n (k + 1) 1) ∧
      ((¬ ∀ p, p < j → s.getD p 0 + k = n + p) →
        nextCombinationFrom (v :: s) n (k + 1) (j + 1) =
          v :: nextCombinationFrom s n k j) := by
  induction j with
  | zero =>
    constructor
    · intro _
      rfl
    · intro h
      exact absurd (fun p hp => by omega) h
  | succ j ih =>
    have hget : (v :: s).getD (j + 1) 0 = s.getD j 0 := rfl
    by_cases hmax : s.getD j 0 + k = n + j
    · have hstep : nextCombinationFrom (v :: s) n (k + 1) (j + 1 + 1) =
          nextCombinationFrom (v :: s) n (k + 1) (j + 1) := by
        rw [nextCombinationFrom, hget, if_pos (by omega)]
      have hstep2 : nextCombinationFrom s n k (j + 1) = nextCombinationFrom s n k j := by
        rw [nextCombinationFrom, if_pos hmax]
      constructor
      · intro hall
        rw [hstep]
        exact ih.1 (fun p hp => hall p (by omega))
      · intro hnot
        rw [hstep, hstep2]
        apply ih.2
        intro hall
        apply hnot
        intro p hp
        by_cases hpj : p = j
        · rw [hpj]
          exact hmax
        · exact hall p (by omega)
    · constructor
      · intro hall
        exact absurd (hall j (by omega)) hmax
      · intro _
        rw [nextCombinationFrom, hget, if_neg (by omega)]
        rw [nextCombinationFrom, if_neg hmax]
        have hk : k + 1 - (j + 1) = k - j := by omega
        rw [hk]
        rfl

theorem nextCombination_cons_of_not_last (v : Nat) (s : List Nat) (n : Nat)
    (h : ¬ LastCombination n s) :
    nextCombination (v :: s) n (s.length + 1) = v :: nextCombination s n s.length :=
  (nextCombinationFrom_cons v s n s.length s.length).2 h

theorem nextCombination_cons_of_last (v : Nat) (s : List Nat) (n : Nat)
    (h : LastCombination n s) :
    nextCombination (v :: s) n (s.length + 1) =
      if v + (s.length + 1) = n then v :: s
      else (List.range (s.length + 1)).map (fun d => v + 1 + d) := by
  have h1 := (nextCombinationFrom_cons v s n s.length s.length).1 h
  unfold nextCombination
  rw [h1]
  simp only [nextCombinationFrom, List.getD_cons_zero, Nat.add_zero, List.take_zero,
    List.nil_append, Nat.sub_zero]

theorem lastCombination_cons (v : Nat) (s : List Nat) (n : Nat) :
    LastCombination n (v :: s) ↔ v + (s.length + 1) = n ∧ LastCombination n s := by
  unfold LastCombination
  constructor
  · intro h
    constructor
    · have := h 0 (by simp)
      simpa using this
    · intro j hj
      have := h (j + 1) (by simp only [List.length_cons]; omega)
      simp only [List.getD_cons_succ, List.length_cons] at this
      omega
  · rintro ⟨h0, hs⟩ j hj
    cases j with
    | zero => simpa using h0
    | succ i =>
      simp only [List.length_cons] at hj
      have := hs i (by omega)
      simp only [List.getD_cons_succ, List.length_cons]
      omega

theorem runFrom_succ (a k : Nat) : runFrom a (k + 1) = a :: runFrom (a + 1) k := by
  unfold runFrom
  rw [List.range_succ_eq_map, List.map_cons, List.map_map]
  congr 1
  apply List.map_congr_left
  intro d _
  simp only [Function.comp, Nat.succ_eq_add_one]
  omega

theorem runFrom_zero (k : Nat) : runFrom 0 k = List.range k := by
  unfold runFrom
  simp

theorem runFrom_length (a k : Nat) : (runFrom a k).length = k := by
  unfold runFrom
  simp

theorem mem_runFrom (a k x : Nat) : x ∈ runFrom a k ↔ a ≤ x ∧ x < a + k := by
  unfold runFrom
  simp only [List.mem_map, List.mem_range]
  constructor
  · rintro ⟨d, hd, rfl⟩
    omega
  · intro h
    exact ⟨x - a, by omega, by omega⟩

theorem runFrom_sorted (a k : Nat) : (runFrom a k).Sorted (fun x y => x < y) := by
  induction k generalizing a with
  | zero => exact List.sorted_nil
  | succ k ih =>
    rw [runFrom_succ, List.sorted_cons]
    refine ⟨?_, ih (a + 1)⟩
    intro b hb
    have := (mem_runFrom _ _ _).1 hb
    omega

theorem runFrom_isCombination (a k n : Nat) (h : a + k ≤ n) : IsCombination n (runFrom a k) := by
  refine ⟨runFrom_sorted a k, ?_⟩
  intro x hx
  have := (mem_runFrom _ _ _).1 hx
  omega

theorem isCombination_cons (n v : Nat) (s : List Nat) :
    IsCombination n (v :: s) ↔ v < n ∧ (∀ x ∈ s, v < x) ∧ IsCombination n s := by
  unfold IsCombination
  rw [List.sorted_cons]
  constructor
  · rintro ⟨⟨h1, h2⟩, h3⟩
    exact ⟨h3 v (List.mem_cons_self _ _), h1, h2, fun x hx => h3 x (List.mem_cons_of_mem _ hx)⟩
  · rintro ⟨h1, h2, h3, h4⟩
    refine ⟨⟨h2, h3⟩, ?_⟩
    intro x hx
    rcases List.mem_cons.1 hx with hx1 | hx1
    · rw [hx1]
      exact h1
    · exact h4 x hx1

theorem isCombination_head_bound (n v : Nat) (s : List Nat) (h : IsCombination n (v :: s)) :
    v + s.length < n := by
  induction s generalizing v with
  | nil =>
    have := ((isCombination_cons n v []).1 h).1
    simpa using this
  | cons w t ih =>
    obtain ⟨_, h2, h3⟩ := (isCombination_cons n v (w :: t)).1 h
    have := ih w h3
    have hvw := h2 w (List.mem_cons_self _ _)
    simp only [List.length_cons]
    omega

/-- The run from `a` is the least combination of its length with entries from `a` on. -/
theorem runFrom_least (a : Nat) (t : List Nat) (hs : t.Sorted (fun x y => x < y))
    (hb : ∀ x ∈ t, a ≤ x) : runFrom a t.length = t ∨ LexLt (runFrom a t.length) t := by
  induction t generalizing a with
  | nil => exact Or.inl rfl
  | cons u t ih =>
    rw [List.sorted_cons] at hs
    rw [List.length_cons, runFrom_succ]
    have hu := hb u (List.mem_cons_self _ _)
    rcases Nat.lt_or_ge a u with hlt | hge
    · exact Or.inr (List.Lex.rel hlt)
    · have hau : a = u := by omega
      subst hau
      rcases ih (a + 1) hs.2 (fun x hx => hs.1 x hx) with h1 | h1
      · exact Or.inl (by rw [h1])
      · exact Or.inr (List.Lex.cons h1)

/-- No combination of the same length lies above the last one. -/
theorem lastCombination_greatest (n : Nat) (s t : List Nat) (hl : LastCombination n s)
    (ht : IsCombination n t) (hlen : t.length = s.length) : ¬ LexLt s t := by
  induction s generalizing t with
  | nil =>
    have : t = [] := List.length_eq_zero.1 hlen
    subst this
    intro h
    cases h
  | cons v s ih =>
    cases t with
    | nil => simp at hlen
    | cons u t =>
      simp only [List.length_cons, Nat.add_right_cancel_iff] at hlen
      obtain ⟨h0, hs⟩ := (lastCombination_cons v s n).1 hl
      have hbound := isCombination_head_bound n u t ht
      have htail := ((isCombination_cons n u t).1 ht).2.2
      intro h
      cases h with
      | rel hvu => omega
      | cons hst => exact ih t hs htail hlen hst

/-- Below the last combination `nextCombination` moves up in the order. -/
theorem nextCombination_gt (n : Nat) (s : List Nat) (h : ¬ LastCombination n s) :
    LexLt s (nextCombination s n s.length) := by
  induction s with
  | nil =>
    exfalso
    apply h
    intro j hj
    simp at hj
  | cons v s ih =>
    by_cases hl : LastCombination n s
    · have hv : ¬ v + (s.length + 1) = n := fun hv => h ((lastCombination_cons v s n).2 ⟨hv, hl⟩)
      rw [List.length_cons, nextCombination_cons_of_last v s n hl, if_neg hv]
      have : (List.range (s.length + 1)).map (fun d => v + 1 + d) =
          runFrom (v + 1) (s.length + 1) := rfl
      rw [this, runFrom_succ]
      exact List.Lex.rel (Nat.lt_succ_self v)
    · rw [List.length_cons, nextCombination_cons_of_not_last v s n hl]
      exact List.Lex.cons (ih hl)

/-- What `nextCombination` returns is the least combination above its argument. -/
theorem nextCombination_least (n : Nat) (s t : List Nat) (hs : IsCombination n s)
    (ht : IsCombination n t) (hlen : t.length = s.length) (hlt : LexLt s t) :
    nextCombination s n s.length = t ∨ LexLt (nextCombination s n s.length) t := by
  induction s generalizing t with
  | nil =>
    have : t = [] := List.length_eq_zero.1 hlen
    subst this
    cases hlt
  | cons v s ih =>
    cases t with
    | nil => simp at hlen
    | cons u t =>
      simp only [List.length_cons, Nat.add_right_cancel_iff] at hlen
      obtain ⟨_, hu2, hu3⟩ := (isCombination_cons n u t).1 ht
      obtain ⟨_, _, hs3⟩ := (isCombination_cons n v s).1 hs
      have hbound := isCombination_head_bound n u t ht
      rw [List.length_cons]
      by_cases hl : LastCombination n s
      · rw [nextCombination_cons_of_last v s n hl]
        cases hlt with
        | rel hvu =>
          have hv : ¬ v + (s.length + 1) = n := by omega
          rw [if_neg hv]
          have : (List.range (s.length + 1)).map (fun d => v + 1 + d) =
              runFrom (v + 1) (s.length + 1) := rfl
          rw [this, runFrom_succ]
          rcases Nat.lt_or_ge (v + 1) u with h1 | h1
          · exact Or.inr (List.Lex.rel h1)
          · have hvu2 : v + 1 = u := by omega
            subst hvu2
            rw [← hlen]
            rcases runFrom_least (v + 1 + 1) t hu3.1 (fun x hx => hu2 x hx) with h2 | h2
            · exact Or.inl (by rw [h2])
            · exact Or.inr (List.Lex.cons h2)
        | cons hst => exact absurd hst (lastCombination_greatest n s t hl hu3 hlen)
      · rw [nextCombination_cons_of_not_last v s n hl]
        cases hlt with
        | rel hvu => exact Or.inr (List.Lex.rel hvu)
        | cons hst =>
          rcases ih t hs3 hu3 hlen hst with h2 | h2
          · exact Or.inl (by rw [h2])
          · exact Or.inr (List.Lex.cons h2)

/-- `nextCombination` returns a combination of the same length, and keeps a lower bound of the
entries. -/
theorem nextCombination_isCombination (n : Nat) (s : List Nat) (hs : IsCombination n s) :
    IsCombination n (nextCombination s n s.length) ∧
      (nextCombination s n s.length).length = s.length ∧
      ∀ a, (∀ x ∈ s, a < x) → ∀ x ∈ nextCombination s n s.length, a < x := by
  induction s with
  | nil => exact ⟨hs, rfl, fun a h => h⟩
  | cons v s ih =>
    obtain ⟨h1, h2, h3⟩ := (isCombination_cons n v s).1 hs
    have hbound := isCombination_head_bound n v s hs
    rw [List.length_cons]
    by_cases hl : LastCombination n s
    · rw [nextCombination_cons_of_last v s n hl]
      split_ifs with hv
      · exact ⟨hs, rfl, fun a h => h⟩
      · have : (List.range (s.length + 1)).map (fun d => v + 1 + d) =
            runFrom (v + 1) (s.length + 1) := rfl
        rw [this]
        refine ⟨runFrom_isCombination _ _ _ (by omega), runFrom_length _ _, ?_⟩
        intro a ha x hx
        have := (mem_runFrom _ _ _).1 hx
        have := ha v (List.mem_cons_self _ _)
        omega
    · rw [nextCombination_cons_of_not_last v s n hl]
      obtain ⟨i1, i2, i3⟩ := ih h3
      refine ⟨(isCombination_cons n v _).2 ⟨h1, i3 v h2, i1⟩, by rw [List.length_cons, i2], ?_⟩
      intro a ha x hx
      have hav := ha v (List.mem_cons_self _ _)
      rcases List.mem_cons.1 hx with hx1 | hx1
      · rw [hx1]
        exact hav
      · have := i3 v h2 x hx1
        omega

theorem combinationsAfter_eq (n k r : Nat) (prev : List Nat) :
    combinationsAfter n k r prev =
      (List.range r).map
        (fun i => Nat.iterate (fun s => nextCombination s n k) (i + 1) prev) := by
  induction r generalizing prev with
  | zero => rfl
  | succ r ih =>
    rw [combinationsAfter, ih, List.range_succ_eq_map, List.map_cons, List.map_map]
    congr 1

theorem generatedCombinations_eq (n k : Nat) :
    generatedCombinations n k =
      (List.range (Nat.choose n k)).map
        (fun i => Nat.iterate (fun s => nextCombination s n k) i (List.range k)) := by
  unfold generatedCombinations
  cases Nat.choose n k with
  | zero => rfl
  | succ r =>
    simp only
    rw [combinationsAfter_eq, List.range_succ_eq_map, List.map_cons, List.map_map]
    congr 1

theorem iterate_isCombination (n k : Nat) (s : List Nat) (hs : IsCombination n s)
    (hlen : s.length = k) (i : Nat) :
    IsCombination n (Nat.iterate (fun c => nextCombination c n k) i s) ∧
      (Nat.iterate (fun c => nextCombination c n k) i s).length = k := by
  induction i generalizing s with
  | zero => exact ⟨hs, hlen⟩
  | succ i ih =>
    rw [Function.iterate_succ_apply]
    have h := nextCombination_isCombination n s hs
    rw [hlen] at h
    exact ih _ h.1 h.2.1

theorem nextCombination_reaches (n k : Nat) (V : Finset (List Nat))
    (hV : ∀ s, IsCombination n s → s.length = k → s ∈ V) (s t : List Nat)
    (hs : IsCombination n s) (hsl : s.length = k) (ht : IsCombination n t)
    (htl : t.length = k) (hle : s = t ∨ LexLt s t) :
    ∃ m, m ≤ (V.filter (fun v => LexLt s v)).card ∧
      Nat.iterate (fun c => nextCombination c n k) m s = t := by
  suffices H : ∀ (g : Nat) (c : List Nat), (V.filter (fun v => LexLt c v)).card = g →
      IsCombination n c → c.length = k → (c = t ∨ LexLt c t) →
      ∃ m, m ≤ g ∧ Nat.iterate (fun c => nextCombination c n k) m c = t from
    H _ s rfl hs hsl hle
  intro g
  induction g using Nat.strong_induction_on with
  | _ g ih =>
    intro c hg hc hcl hle
    rcases hle with heq | hlt
    · exact ⟨0, Nat.zero_le _, heq⟩
    · have hnl : ¬ LastCombination n c :=
        fun hl => lastCombination_greatest n c t hl ht (by omega) hlt
      have hgt := nextCombination_gt n c hnl
      have hnext := nextCombination_isCombination n c hc
      have hleast := nextCombination_least n c t hc ht (by omega) hlt
      rw [hcl] at hgt hnext hleast
      have hsub : V.filter (fun v => LexLt (nextCombination c n k) v) ⊂
          V.filter (fun v => LexLt c v) := by
        rw [Finset.ssubset_iff_of_subset]
        · refine ⟨nextCombination c n k, ?_, ?_⟩
          · exact Finset.mem_filter.2 ⟨hV _ hnext.1 hnext.2.1, hgt⟩
          · intro hmem
            exact irrefl_of (List.Lex (fun (a b : Nat) => a < b)) _ (Finset.mem_filter.1 hmem).2
        · intro v hv
          obtain ⟨hv1, hv2⟩ := Finset.mem_filter.1 hv
          exact Finset.mem_filter.2
            ⟨hv1, trans_of (List.Lex (fun (a b : Nat) => a < b)) hgt hv2⟩
      have hcard := Finset.card_lt_card hsub
      rw [hg] at hcard
      obtain ⟨m, hm, hit⟩ := ih _ hcard (nextCombination c n k) rfl hnext.1 hnext.2.1 hleast
      exact ⟨m + 1, by omega, by rw [Function.iterate_succ_apply]; exact hit⟩

theorem isCombination_mem_sorted_image (n k : Nat) (s : List Nat) (hs : IsCombination n s)
    (hlen : s.length = k) :
    s ∈ (Finset.powersetCard k (Finset.range n)).image
      (fun f => f.sort (fun a b => a ≤ b)) := by
  have hnd : s.Nodup := hs.1.nodup
  rw [Finset.mem_image]
  refine ⟨s.toFinset, ?_, ?_⟩
  · rw [Finset.mem_powersetCard]
    constructor
    · intro x hx
      rw [List.mem_toFinset] at hx
      exact Finset.mem_range.2 (hs.2 x hx)
    · rw [List.toFinset_card_of_nodup hnd, hlen]
  · exact (List.toFinset_sort (fun a b => a ≤ b) hnd).2 hs.1.le_of_lt

/-- The generator yields exactly the combinations of `k` indices below `n`. -/
theorem mem_generatedCombinations (n k : Nat) (hk : k ≤ n) (c : List Nat) :
    c ∈ generatedCombinations n k ↔ IsCombination n c ∧ c.length = k := by
  have hfirst : IsCombination n (List.range k) := by
    rw [← runFrom_zero]
    exact runFrom_isCombination 0 k n (by omega)
  have hfl : (List.range k).length = k := List.length_range k
  rw [generatedCombinations_eq, List.mem_map]
  constructor
  · rintro ⟨i, _, rfl⟩
    exact iterate_isCombination n k _ hfirst hfl i
  · rintro ⟨hc, hcl⟩
    have hmin : List.range k = c ∨ LexLt (List.range k) c := by
      have := runFrom_least 0 c hc.1 (fun x _ => Nat.zero_le x)
      rw [hcl, runFrom_zero] at this
      exact this
    obtain ⟨m, hm, hit⟩ := nextCombination_reaches n k _
      (fun s hs hsl => isCombination_mem_sorted_image n k s hs hsl) (List.range k) c hfirst hfl
      hc hcl hmin
    refine ⟨m, ?_, hit⟩
    rw [List.mem_range]
    have hlt : ((Finset.powersetCard k (Finset.range n)).image
        (fun f => f.sort (fun a b => a ≤ b))).filter (fun v => LexLt (List.range k) v) ⊂
        (Finset.powersetCard k (Finset.range n)).image
          (fun f => f.sort (fun a b => a ≤ b)) := by
      rw [Finset.filter_ssubset]
      exact ⟨List.range k, isCombination_mem_sorted_image n k _ hfirst hfl,
        irrefl_of (List.Lex (fun (a b : Nat) => a < b)) _⟩
    have h1 := Finset.card_lt_card hlt
    have h2 : ((Finset.powersetCard k (Finset.range n)).image
        (fun f => f.sort (fun a b => a ≤ b))).card ≤ Nat.choose n k := by
      refine le_trans Finset.card_image_le ?_
      rw [Finset.card_powersetCard, Finset.card_range]
    omega

theorem derefWinners_winnersAt (games : List quizGame) (i : Nat) (w : List String)
    (h : derefWinners games i = .ok w) : winnersAt games i = w := by
  unfold derefWinners at h
  unfold winnersAt
  cases hg : games.get? i with
  | none => rw [hg] at h; cases h
  | some g =>
    rw [hg] at h
    dsimp only at h ⊢
    cases hw : g.Winners with
    | none => rw [hw] at h; cases h
    | some w2 =>
      rw [hw] at h
      simp only [Except.ok.injEq] at h
      rw [← h]
      rfl

theorem intersectCombination_mem (games : List quizGame) (combination : List Nat)
    (intersection r : List String)
    (h : intersectCombination games combination intersection = .ok r) (x : String) :
    x ∈ r ↔ x ∈ intersection ∧ ∀ i ∈ combination, x ∈ winnersAt games i := by
  induction combination generalizing intersection with
  | nil =>
    simp only [intersectCombination, Except.ok.injEq] at h
    subst h
    simp
  | cons comb rest ih =>
    simp only [intersectCombination] at h
    cases hw : derefWinners games comb with
    | error p => rw [hw] at h; cases h
    | ok w =>
      rw [hw] at h
      dsimp only at h
      have hat := derefWinners_winnersAt games comb w hw
      rw [ih _ h, mem_setIntersection, mem_addIntoSet]
      simp only [List.not_mem_nil, false_or, List.mem_cons, forall_eq_or_imp, hat]
      tauto

theorem calculateQuizGamesWinnersInCombination_iff (games : List quizGame)
    (combination : List Nat) (winners r : List String)
    (h : calculateQuizGamesWinnersInCombination games combination winners = .ok r)
    (x : String) :
    x ∈ r ↔ x ∈ winners ∨
      (x ∈ winnersAt games 0 ∧ ∀ i ∈ combination, x ∈ winnersAt games i) := by
  unfold calculateQuizGamesWinnersInCombination at h
  cases h0 : derefWinners games 0 with
  | error p => rw [h0] at h; cases h
  | ok w0 =>
    rw [h0] at h
    dsimp only at h
    cases hi : intersectCombination games combination (addIntoSet [] w0) with
    | error p => rw [hi] at h; cases h
    | ok inter =>
      rw [hi] at h
      simp only [Except.ok.injEq] at h
      subst h
      rw [mem_addIntoSet, intersectCombination_mem games combination _ inter hi, mem_addIntoSet,
        derefWinners_winnersAt games 0 w0 h0]
      simp only [List.not_mem_nil, false_or]

theorem collectWinners_iff (games : List quizGame) (combinations : List (List Nat))
    (winners r : List String) (h : collectWinners games combinations winners = .ok r)
    (x : String) :
    x ∈ r ↔ x ∈ winners ∨
      ∃ c ∈ combinations, x ∈ winnersAt games 0 ∧ ∀ i ∈ c, x ∈ winnersAt games i := by
  induction combinations generalizing winners with
  | nil =>
    simp only [collectWinners, Except.ok.injEq] at h
    subst h
    simp
  | cons c rest ih =>
    simp only [collectWinners] at h
    cases hc : calculateQuizGamesWinnersInCombination games c winners with
    | error p => rw [hc] at h; cases h
    | ok w2 =>
      rw [hc] at h
      dsimp only at h
      rw [ih _ h, calculateQuizGamesWinnersInCombination_iff games c winners w2 hc]
      simp only [List.mem_cons, exists_eq_or_imp]
      tauto

theorem addIntoSet_nodup (s ids : List String) (h : s.Nodup) : (addIntoSet s ids).Nodup := by
  induction ids generalizing s with
  | nil => exact h
  | cons id rest ih =>
    rw [addIntoSet_cons]
    apply ih
    split_ifs with hmem
    · exact h
    · rw [List.nodup_append]
      refine ⟨h, List.nodup_singleton _, ?_⟩
      intro a ha hb
      rw [List.mem_singleton] at hb
      exact hmem (hb ▸ ha)

theorem collectWinners_nodup (games : List quizGame) (combinations : List (List Nat))
    (winners r : List String) (hnd : winners.Nodup)
    (h : collectWinners games combinations winners = .ok r) : r.Nodup := by
  induction combinations generalizing winners with
  | nil =>
    simp only [collectWinners, Except.ok.injEq] at h
    subst h
    exact hnd
  | cons c rest ih =>
    simp only [collectWinners] at h
    cases hc : calculateQuizGamesWinnersInCombination games c winners with
    | error p => rw [hc] at h; cases h
    | ok w2 =>
      rw [hc] at h
      dsimp only at h
      apply ih w2 _ h
      unfold calculateQuizGamesWinnersInCombination at hc
      cases h0 : derefWinners games 0 with
      | error p => rw [h0] at hc; cases hc
      | ok w0 =>
        rw [h0] at hc
        dsimp only at hc
        cases hi : intersectCombination games c (addIntoSet [] w0) with
        | error p => rw [hi] at hc; cases hc
        | ok inter =>
          rw [hi] at hc
          simp only [Except.ok.injEq] at hc
          rw [← hc]
          exact addIntoSet_nodup _ _ hnd

theorem winnersAt_of_get? (games : List quizGame) (i : Nat) (g : quizGame)
    (h : games.get? i = some g) : winnersAt games i = g.Winners.getD [] := by
  unfold winnersAt
  rw [h]

theorem correctRoundCount_take (games : List quizGame) (x : String) (m : Nat)
    (hm : m ≤ games.length) :
    ((List.range m).filter (fun i => decide (x ∈ winnersAt games i))).length =
      correctRoundCount (games.take m) x := by
  induction m with
  | zero => rfl
  | succ m ih =>
    have hlt : m < games.length := by omega
    have hget : games.get? m = some (games.get ⟨m, hlt⟩) := List.get?_eq_get hlt
    have htake : games.take (m + 1) = games.take m ++ [games.get ⟨m, hlt⟩] := by
      rw [List.take_succ]
      have : games[m]? = some (games.get ⟨m, hlt⟩) := by
        rw [← List.get?_eq_getElem?]
        exact hget
      rw [this]
      rfl
    rw [List.range_succ, List.filter_append, List.length_append, ih (by omega), htake]
    unfold correctRoundCount
    rw [List.filter_append, List.length_append]
    congr 1
    have hat := winnersAt_of_get? games m _ hget
    simp only [List.filter_cons, List.filter_nil, hat]
    split_ifs <;> rfl

theorem exists_combination_iff (n k : Nat) (p : Nat → Bool) :
    (∃ c, (IsCombination n c ∧ c.length = k) ∧ ∀ i ∈ c, p i = true) ↔
      k ≤ ((List.range n).filter p).length := by
  constructor
  · rintro ⟨c, ⟨hc, hcl⟩, hp⟩
    have hsub : c ⊆ (List.range n).filter p := by
      intro i hi
      exact List.mem_filter.2 ⟨List.mem_range.2 (hc.2 i hi), hp i hi⟩
    have := (List.subperm_of_subset hc.1.nodup hsub).length_le
    omega
  · intro hk
    refine ⟨((List.range n).filter p).take k, ⟨⟨?_, ?_⟩, ?_⟩, ?_⟩
    · exact List.Pairwise.sublist
        ((List.take_sublist _ _).trans (List.filter_sublist _)) (List.sorted_lt_range n)
    · intro i hi
      exact List.mem_range.1 (List.mem_filter.1 (List.mem_of_mem_take hi)).1
    · rw [List.length_take]
      omega
    · intro i hi
      exact (List.mem_filter.1 (List.mem_of_mem_take hi)).2

theorem downgrade_values (l : quizGameLottery) (hT : 1 ≤ l.TotalQuizNum)
    (hK : 0 ≤ l.WinnerRequiredCorrectQuizNum) :
    (downgrade l).TotalQuizNum.toNat = min l.TotalQuizNum.toNat l.games.length ∧
      (downgrade l).WinnerRequiredCorrectQuizNum.toNat =
        min l.WinnerRequiredCorrectQuizNum.toNat
          (min l.TotalQuizNum.toNat l.games.length) := by
  unfold downgrade
  dsimp only
  split_ifs with h1 h2 h3 <;> simp only at * <;> omega

/-- C27: for a lottery with at least two rounds, every round's Winners written,
TotalQuizNum ≥ 1 and K = WinnerRequiredCorrectQuizNum ≥ 0, let N = min(TotalQuizNum, G) and
K' = min(K, N).  `calculateAllQuizGamesWinners` returns, its result has no duplicates, and a
user is in it if and only if the user is in the Winners of round 0 and in the Winners of at
least K' of the first N rounds (rounds from index N on are not looked at); the lottery is left
with TotalQuizNum = N and WinnerRequiredCorrectQuizNum = K'. -/
theorem C27_general_case (l : quizGameLottery) (hG : 2 ≤ l.games.length)
    (hw : ∀ g ∈ l.games, g.Winners ≠ none) (hT : 1 ≤ l.TotalQuizNum)
    (hK : 0 ≤ l.WinnerRequiredCorrectQuizNum) :
    ∃ ws, calculateAllQuizGamesWinners l = .ok (ws, downgrade l) ∧ ws.Nodup ∧
      (downgrade l).TotalQuizNum.toNat = min l.TotalQuizNum.toNat l.games.length ∧
      (downgrade l).WinnerRequiredCorrectQuizNum.toNat =
        min l.WinnerRequiredCorrectQuizNum.toNat
          (min l.TotalQuizNum.toNat l.games.length) ∧
      ∀ x, x ∈ ws ↔
        x ∈ winnersAt l.games 0 ∧
          min l.WinnerRequiredCorrectQuizNum.toNat
              (min l.TotalQuizNum.toNat l.games.length) ≤
            correctRoundCount
              (l.games.take (min l.TotalQuizNum.toNat l.games.length)) x := by
  obtain ⟨hb1, hb2, hb3⟩ := downgrade_bounds l (by omega) hK
  obtain ⟨hv1, hv2⟩ := downgrade_values l hT hK
  have hne : l.games ≠ [] := by
    intro h
    rw [h] at hG
    simp at hG
  have hgen : NewCombinationGenerator (downgrade l).TotalQuizNum
      (downgrade l).WinnerRequiredCorrectQuizNum =
      .ok ((downgrade l).TotalQuizNum.toNat,
        (downgrade l).WinnerRequiredCorrectQuizNum.toNat) := by
    unfold NewCombinationGenerator
    rw [if_neg (by omega), if_neg (by omega)]
  have hkn : (downgrade l).WinnerRequiredCorrectQuizNum.toNat ≤
      (downgrade l).TotalQuizNum.toNat := by omega
  have hcomb : ∀ c ∈ generatedCombinations (downgrade l).TotalQuizNum.toNat
      (downgrade l).WinnerRequiredCorrectQuizNum.toNat, ∀ x ∈ c,
      x < (downgrade l).games.length := by
    intro c hc x hx
    have := generatedCombinations_lt _ _ hkn c hc x hx
    rw [downgrade_games]
    omega
  obtain ⟨r, hr⟩ := collectWinners_ok (downgrade l).games
    (by rw [downgrade_games]; exact hne) (by rw [downgrade_games]; exact hw) _ hcomb []
  have hres : calculateAllQuizGamesWinners l = .ok (r, downgrade l) := by
    unfold calculateAllQuizGamesWinners
    rw [if_neg (by omega)]
    dsimp only
    rw [hgen]
    dsimp only
    rw [hr]
  refine ⟨r, hres, collectWinners_nodup _ _ [] r List.nodup_nil hr, hv1, hv2, ?_⟩
  intro x
  rw [collectWinners_iff _ _ [] r hr x, downgrade_games, hv1, hv2]
  have hN : min l.TotalQuizNum.toNat l.games.length ≤ l.games.length := Nat.min_le_right _ _
  rw [← correctRoundCount_take l.games x _ hN, ← exists_combination_iff]
  simp only [List.not_mem_nil, false_or]
  constructor
  · rintro ⟨c, hc, h0, hall⟩
    have hmem := (mem_generatedCombinations _ _ (Nat.min_le_right _ _) c).1 hc
    exact ⟨h0, c, hmem, fun i hi => decide_eq_true (hall i hi)⟩
  · rintro ⟨h0, c, hmem, hall⟩
    exact ⟨c, (mem_generatedCombinations _ _ (Nat.min_le_right _ _) c).2 hmem, h0,
      fun i hi => of_decide_eq_true (hall i hi)⟩

theorem C27_general_case_witness :
    2 ≤ scenarioA.games.length ∧ (∀ g ∈ scenarioA.games, g.Winners ≠ none) ∧
      1 ≤ scenarioA.TotalQuizNum ∧ 0 ≤ scenarioA.WinnerRequiredCorrectQuizNum ∧
      ∃ ws, calculateAllQuizGamesWinners scenarioA = .ok (ws, downgrade scenarioA) ∧
        ws.Nodup ∧
        (downgrade scenarioA).TotalQuizNum.toNat =
          min scenarioA.TotalQuizNum.toNat scenarioA.games.length ∧
        (downgrade scenarioA).WinnerRequiredCorrectQuizNum.toNat =
          min scenarioA.WinnerRequiredCorrectQuizNum.toNat
            (min scenarioA.TotalQuizNum.toNat scenarioA.games.length) ∧
        ∀ x, x ∈ ws ↔
          x ∈ winnersAt scenarioA.games 0 ∧
            min scenarioA.WinnerRequiredCorrectQuizNum.toNat
                (min scenarioA.TotalQuizNum.toNat scenarioA.games.length) ≤
              correctRoundCount
                (scenarioA.games.take
                  (min scenarioA.TotalQuizNum.toNat scenarioA.games.length)) x :=
  ⟨by decide, by decide, by decide, by decide,
    C27_general_case scenarioA (by decide) (by decide) (by decide) (by decide)⟩

end Moff
